import Mathlib

/-!
Verification of the MatrixDisplay tile-grid rendering engine
(`src/matrix-display.ts`), shallowly embedded in Lean 4.

Modelling conventions, matching the TypeScript source:
* JS numbers used as grid coordinates and dimensions are modelled as `Int`
  (all engine arithmetic on them is integer arithmetic); the background
  fill fraction `bgPercent` is modelled as `ℚ`.
* `TileId` is the string `t_<timestamp>_<counter>` with a strictly
  increasing counter, so ids are in bijection with the counter value;
  we model a tile id as that `Nat` counter value.
* The `cells` field is a `Cell[][]` indexed as `cells[y][x]`; we model it
  as `List (List Cell)`.  A JS out-of-range index yields `undefined` and
  any subsequent member access throws a `TypeError`; an operation that
  performs such an access is modelled as returning `none`.
* `dirtyRects` is a JS `Set` of `"x,y"` strings; we model it as a
  duplicate-free `List (Int × Int)` where inserting an element already
  present is the identity.
* JS object aliasing: a `Tile` object stored in `tileMap` is the same
  object referenced from its cell's `tiles` array, and tile ids are
  unique across engine-created tiles, so mutating a tile's fields is
  modelled by replacing every tile with the same id in `tileMap` and in
  every cell list.
* Log output: each `log.warn` diagnostic call is modelled by incrementing
  a `warnings` counter; other log levels are pure output and not tracked.
* Canvas painting is not modelled.  `render()` repaints the dirty cells
  and clears `dirtyRects`; only the clearing is state we track.  Its
  per-cell accesses `cells[y][x]` use coordinates that were inserted by
  the bounds-checked paths, so they are modelled as total.
  `worldCanvas.width / cellSize` in `setViewport` equals `worldWidth`
  exactly (the constructor sets `worldCanvas.width = worldWidth *
  cellSize`), so the clamp bound is written with `worldWidth` directly.
* The `TextParser` collaborator's source is not in the repository;
  `createString` / `createWrappedString` are therefore modelled as
  functions of the already-parsed list of `(text, color)` segments.
-/

namespace MatrixDisplay

/-- `FillDirection` enum from `matrix-display.ts`. -/
inductive FillDirection where
  | TOP
  | RIGHT
  | BOTTOM
  | LEFT
deriving DecidableEq, Repr

/-- A tile, with exactly the fields `createTile` populates
(`id, x, y, char, color, backgroundColor, zIndex, bgPercent, fillDirection`). -/
structure Tile where
  id : Nat
  x : Int
  y : Int
  char : String
  color : String
  backgroundColor : String
  zIndex : Int
  bgPercent : ℚ
  fillDirection : FillDirection
deriving DecidableEq, Repr

/-- A cell of the world grid, as built by `initializeCells`. -/
structure Cell where
  overlay : String
  tiles : List Tile
  isDirty : Bool
deriving DecidableEq, Repr

/-- The viewport rectangle, in grid coordinates. -/
structure Viewport where
  x : Int
  y : Int
  width : Int
  height : Int
deriving DecidableEq, Repr

/-- The observable state of a `MatrixDisplay` instance. -/
structure Display where
  worldWidth : Int
  worldHeight : Int
  cells : List (List Cell)
  viewport : Viewport
  dirtyRects : List (Int × Int)
  tileMap : List Tile
  tileIdCounter : Nat
  autoRender : Bool
  warnings : Nat
deriving DecidableEq, Repr

/-- Bounds test used (negated) by the guards in `moveTile`, `setOverlay`,
`emptyCell` and `setTileInCell`: `0 ≤ x < worldWidth ∧ 0 ≤ y < worldHeight`. -/
def inBounds (s : Display) (x y : Int) : Bool :=
  decide (0 ≤ x) && decide (x < s.worldWidth) && decide (0 ≤ y) && decide (y < s.worldHeight)

/-- The JS access `cells[y][x]`: `none` when either index is out of range. -/
def cellAt (s : Display) (x y : Int) : Option Cell :=
  if 0 ≤ y ∧ 0 ≤ x then (s.cells.get? y.toNat).bind (fun row => row.get? x.toNat)
  else none

/-- Write cell `(x, y)` (callers only use in-range coordinates). -/
def setCell (s : Display) (x y : Int) (c : Cell) : Display :=
  if 0 ≤ y ∧ 0 ≤ x then
    match s.cells.get? y.toNat with
    | some row => { s with cells := s.cells.set y.toNat (row.set x.toNat c) }
    | none => s
  else s

/-- `dirtyRects.add("x,y")`: a JS `Set` add, a no-op on a present element. -/
def addDirty (s : Display) (p : Int × Int) : Display :=
  if p ∈ s.dirtyRects then s else { s with dirtyRects := p :: s.dirtyRects }

/-- A `log.warn` diagnostic emission. -/
def warn (s : Display) : Display := { s with warnings := s.warnings + 1 }

/-- `tileMap.get(tileId)`. -/
def lookupTile (s : Display) (tileId : Nat) : Option Tile :=
  s.tileMap.find? (fun t => t.id == tileId)

/-- The z-ordered insertion of `setTileInCell`: find the first index whose
`zIndex` is strictly greater than the new tile's, and splice the tile in
there (push at the end if there is none). -/
def insertTileZ (tile : Tile) : List Tile → List Tile
  | [] => [tile]
  | t :: ts => if tile.zIndex < t.zIndex then tile :: t :: ts else t :: insertTileZ tile ts

/-- `setTileInCell`: insert the tile into its cell keeping ascending
z-order, mark the cell and coordinate dirty; silently skip when the
tile's position is out of bounds. -/
def setTileInCell (s : Display) (tile : Tile) : Display :=
  if inBounds s tile.x tile.y then
    match cellAt s tile.x tile.y with
    | some cell =>
        addDirty
          (setCell s tile.x tile.y { cell with tiles := insertTileZ tile cell.tiles, isDirty := true })
          (tile.x, tile.y)
    | none => s
  else s

/-- `render()`: repaint the dirty cells (painting is not tracked) and
clear the dirty set; an empty dirty set is an early-returning no-op. -/
def render (s : Display) : Display :=
  if s.dirtyRects = [] then s else { s with dirtyRects := [] }

/-- `renderIfAuto()`. -/
def renderIfAuto (s : Display) : Display :=
  if s.autoRender then render s else s

/-- `createTile`: generate a fresh id, register the tile in `tileMap`
unconditionally, and place it in its cell via `setTileInCell` (which
bounds-checks).  Returns the new state and the fresh id. -/
def createTile (s : Display) (x y : Int) (char color backgroundColor : String)
    (zIndex : Int) (bgPercent : ℚ) (fillDirection : FillDirection) : Display × Nat :=
  let id := s.tileIdCounter
  let tile : Tile :=
    { id := id, x := x, y := y, char := char, color := color,
      backgroundColor := backgroundColor, zIndex := zIndex,
      bgPercent := bgPercent, fillDirection := fillDirection }
  let s1 := { s with tileIdCounter := id + 1, tileMap := s.tileMap ++ [tile] }
  (renderIfAuto (setTileInCell s1 tile), id)

/-- Replace every tile whose id is `tileId` in a list by `t'` (the model of
mutating the shared tile object, see the module docstring). -/
def replaceTile (tileId : Nat) (t' : Tile) (l : List Tile) : List Tile :=
  l.map (fun u => if u.id = tileId then t' else u)

/-- Mutation of the shared tile object: replace it in `tileMap` and in
every cell's tile list. -/
def replaceTileEverywhere (s : Display) (tileId : Nat) (t' : Tile) : Display :=
  { s with
    tileMap := replaceTile tileId t' s.tileMap,
    cells := s.cells.map (fun row => row.map (fun c => { c with tiles := replaceTile tileId t' c.tiles })) }

/-- `moveTile`: warn-and-return on unknown id or out-of-bounds destination;
otherwise remove the tile from `cells[tile.y][tile.x]` (a throwing access
when the stored position is out of range, modelled as `none`), mark the
old coordinate dirty, update the tile's stored position, and re-insert it
via `setTileInCell`. -/
def moveTile (s : Display) (tileId : Nat) (newX newY : Int) : Option Display :=
  match lookupTile s tileId with
  | none => some (warn s)
  | some tile =>
    if newX < 0 ∨ newX ≥ s.worldWidth ∨ newY < 0 ∨ newY ≥ s.worldHeight then
      some (warn s)
    else
      match cellAt s tile.x tile.y with
      | none => none
      | some oldCell =>
        let s1 := setCell s tile.x tile.y
          { oldCell with tiles := oldCell.tiles.filter (fun t => t.id != tileId), isDirty := true }
        let s2 := addDirty s1 (tile.x, tile.y)
        let t' := { tile with x := newX, y := newY }
        let s3 := replaceTileEverywhere s2 tileId t'
        some (renderIfAuto (setTileInCell s3 t'))

/-- The `Partial<Omit<Tile, 'id'>>` argument of `updateTile`. -/
structure TileUpdates where
  x : Option Int := none
  y : Option Int := none
  char : Option String := none
  color : Option String := none
  backgroundColor : Option String := none
  zIndex : Option Int := none
  bgPercent : Option ℚ := none
  fillDirection : Option FillDirection := none
deriving DecidableEq, Repr

/-- `Object.assign(tile, updates)`. -/
def applyUpdates (t : Tile) (u : TileUpdates) : Tile :=
  { t with
    x := u.x.getD t.x, y := u.y.getD t.y, char := u.char.getD t.char,
    color := u.color.getD t.color,
    backgroundColor := u.backgroundColor.getD t.backgroundColor,
    zIndex := u.zIndex.getD t.zIndex, bgPercent := u.bgPercent.getD t.bgPercent,
    fillDirection := u.fillDirection.getD t.fillDirection }

/-- `updateTile`: assign the updates to the shared tile object; if a
position field was present delegate to `moveTile` (with the position
already overwritten, exactly as the source does); otherwise mark the
tile's current cell dirty. -/
def updateTile (s : Display) (tileId : Nat) (u : TileUpdates) : Option Display :=
  match lookupTile s tileId with
  | none => some (warn s)
  | some tile =>
    let t' := applyUpdates tile u
    let s1 := replaceTileEverywhere s tileId t'
    if u.x.isSome ∨ u.y.isSome then
      moveTile s1 tileId t'.x t'.y
    else
      match cellAt s1 t'.x t'.y with
      | none => none
      | some cell =>
        some (renderIfAuto (addDirty (setCell s1 t'.x t'.y { cell with isDirty := true }) (t'.x, t'.y)))

/-- `removeTile`: warn-and-return on unknown id; otherwise filter the tile
out of `cells[tile.y][tile.x]` (throwing access modelled as `none`), mark
the coordinate dirty and delete the `tileMap` entry. -/
def removeTile (s : Display) (tileId : Nat) : Option Display :=
  match lookupTile s tileId with
  | none => some (warn s)
  | some tile =>
    match cellAt s tile.x tile.y with
    | none => none
    | some cell =>
      let s1 := setCell s tile.x tile.y
        { cell with tiles := cell.tiles.filter (fun t => t.id != tileId), isDirty := true }
      let s2 := addDirty s1 (tile.x, tile.y)
      let s3 := { s2 with tileMap := s2.tileMap.filter (fun t => t.id != tileId) }
      some (renderIfAuto s3)

/-- `emptyCell`: warn-and-return when `(x, y)` is out of bounds; otherwise
snapshot the ids of the cell's tiles and `removeTile` each of them. -/
def emptyCell (s : Display) (x y : Int) : Option Display :=
  if x < 0 ∨ x ≥ s.worldWidth ∨ y < 0 ∨ y ≥ s.worldHeight then some (warn s)
  else
    let ids := (cellAt s x y).elim [] (fun c => c.tiles.map (fun t => t.id))
    ids.foldlM (fun st i => removeTile st i) s

/-- `setTiles`: overwrite `cells[y][x].tiles` with the given list and mark
the coordinate dirty — with no bounds check, so an out-of-range `(x, y)`
is a throwing access (`none`). -/
def setTiles (s : Display) (x y : Int) (tiles : List Tile) : Option Display :=
  match cellAt s x y with
  | none => none
  | some cell =>
    some (addDirty (setCell s x y { cell with tiles := tiles, isDirty := true }) (x, y))

/-- `setViewport`: clamp the requested origin into
`[0, world − viewport]` on each axis, then unconditionally mark every
cell of the resulting viewport rectangle dirty. -/
def setViewport (s : Display) (x y : Int) : Display :=
  let vx := max 0 (min x (s.worldWidth - s.viewport.width))
  let vy := max 0 (min y (s.worldHeight - s.viewport.height))
  let s1 := { s with viewport := { s.viewport with x := vx, y := vy } }
  let s2 := (List.range s1.viewport.height.toNat).foldl
    (fun acc (vyi : Nat) =>
      (List.range s1.viewport.width.toNat).foldl
        (fun acc2 (vxi : Nat) => addDirty acc2 (vx + (vxi : Int), vy + (vyi : Int))) acc)
    s1
  renderIfAuto s2

/-- `getTile`. -/
def getTile (s : Display) (tileId : Nat) : Option Tile :=
  lookupTile s tileId

/-- One parsed `(text, color)` run produced by the external `TextParser`. -/
structure Segment where
  text : String
  color : String
deriving DecidableEq, Repr

/-- `createString`: one tile per character of each parsed segment, left to
right from `x`, all on row `y`, with the default `#000000FF` background. -/
def createString (s : Display) (x y : Int) (segments : List Segment) (zIndex : Int) :
    Display × List Nat :=
  let res := segments.foldl
    (fun (acc : Display × Int × List Nat) seg =>
      seg.text.toList.foldl
        (fun (acc2 : Display × Int × List Nat) ch =>
          let (st, cx, ids) := acc2
          let (st', id) := createTile st cx y (String.singleton ch) seg.color "#000000FF"
            zIndex 1 FillDirection.BOTTOM
          (st', cx + 1, ids ++ [id]))
        acc)
    (s, x, ([] : List Nat))
  (res.1, res.2.2)

/-- `segment.text.split(/(\s+)/)` keeps the whitespace separators as
tokens: the result is the list of maximal runs of whitespace /
non-whitespace characters (plus possibly empty edge tokens, which the
word loop skips anyway). -/
def runsAux (cur : List Char) : List Char → List (List Char)
  | [] => [cur.reverse]
  | c :: cs =>
    match cur with
    | [] => runsAux [c] cs
    | d :: _ =>
      if c.isWhitespace = d.isWhitespace then runsAux (c :: cur) cs
      else cur.reverse :: runsAux [c] cs

/-- The token list of `text.split(/(\s+)/)` (without empty-token removal,
which the word loop's `if (!word.length) return` performs). -/
def wordSplit (text : String) : List String :=
  (runsAux [] text.toList).map (fun l => String.mk l)

/-- The loop state of `createWrappedString`'s word-placement loop. -/
structure WrapState where
  disp : Display
  currentX : Int
  currentY : Int
  lineStart : Int
  lineWords : List (List Nat × String)
  ids : List Nat

/-- The body of the per-character `createTile` loop inside the word loop
of `createWrappedString`: create the character's tile at
`(currentX + wordTileIds.length, currentY)` and append the new id. -/
def wrapCreateStep (cy : Int) (zIndex : Int) (textBackgroundColor color : String) (cx : Int)
    (acc : Display × List Nat) (ch : Char) : Display × List Nat :=
  let (d, wids) := acc
  let (d', id) := createTile d (cx + (wids.length : Int)) cy (String.singleton ch) color
    textBackgroundColor zIndex 1 FillDirection.BOTTOM
  (d', wids ++ [id])

/-- The body of the `wordTileIds.forEach((tileId, i) => moveTile(tileId,
currentX + i, currentY))` loop. -/
def wrapMoveStep (cx cy : Int) (d : Display) (p : Nat × Nat) : Option Display :=
  moveTile d p.2 (cx + (p.1 : Int)) cy

/-- One iteration of the word loop of `createWrappedString`: skip empty
tokens; create one tile per character at the current position; if the
word would overflow the width and the line already has a word, advance to
the next row and reset the column; then move the word's tiles to the
(possibly wrapped) position and advance the column. -/
def wrapWord (x width : Int) (zIndex : Int) (textBackgroundColor color : String)
    (word : String) (st : WrapState) : Option WrapState :=
  if word.length = 0 then some st
  else
    let created := word.toList.foldl
      (wrapCreateStep st.currentY zIndex textBackgroundColor color st.currentX)
      (st.disp, [])
    let wids := created.2
    let wrapNeeded :=
      decide (st.currentX - st.lineStart + (word.length : Int) > width) && !st.lineWords.isEmpty
    let cx := if wrapNeeded then x else st.currentX
    let cy := if wrapNeeded then st.currentY + 1 else st.currentY
    let ls := if wrapNeeded then x else st.lineStart
    let lw := if wrapNeeded then [] else st.lineWords
    match wids.enum.foldlM (wrapMoveStep cx cy) created.1 with
    | none => none
    | some d2 =>
      some { disp := d2, currentX := cx + (word.length : Int), currentY := cy, lineStart := ls,
             lineWords := lw ++ [(wids, word)], ids := st.ids ++ wids }

/-- The options record of `createWrappedString`, with its defaults. -/
structure WrapOptions where
  zIndex : Int := 1
  backgroundColor : String := "#00000000"
  textBackgroundColor : String := "#00000000"
  fillBox : Bool := false
  padding : Int := 0
deriving Repr

/-- `createWrappedString`: optional padded background box of tiles at
`zIndex − 1`, then greedy word wrapping of the parsed segments via
`wrapWord`. -/
def createWrappedString (s : Display) (x y width height : Int) (segments : List Segment)
    (opts : WrapOptions) : Option (Display × List Nat) :=
  let actualX := x - opts.padding
  let actualY := y - opts.padding
  let actualWidth := width + opts.padding * 2
  let actualHeight := height + opts.padding * 2 + 1
  let afterBox :=
    if opts.fillBox then
      (List.range actualHeight.toNat).foldl
        (fun (acc : Display × List Nat) py =>
          (List.range actualWidth.toNat).foldl
            (fun (acc2 : Display × List Nat) px =>
              let (d, ids) := acc2
              let (d', id) := createTile d (actualX + (px : Int)) (actualY + (py : Int)) " "
                "#00000000" opts.backgroundColor (opts.zIndex - 1) 1 FillDirection.BOTTOM
              (d', ids ++ [id]))
            acc)
        (s, ([] : List Nat))
    else (s, ([] : List Nat))
  let st0 : WrapState :=
    { disp := afterBox.1, currentX := x, currentY := y, lineStart := x,
      lineWords := [], ids := afterBox.2 }
  let res := segments.foldlM
    (fun st seg =>
      (wordSplit seg.text).foldlM
        (fun st2 w => wrapWord x width opts.zIndex opts.textBackgroundColor seg.color w st2)
        st)
    st0
  res.map (fun st => (st.disp, st.ids))

/-- The paint order of `renderCell`: a stable sort of the cell's tiles by
ascending `zIndex` (`Array.prototype.sort` is stable), painted first to
last, so later entries cover earlier ones. -/
def sortInsertZ (t : Tile) : List Tile → List Tile
  | [] => [t]
  | u :: us => if t.zIndex ≤ u.zIndex then t :: u :: us else u :: sortInsertZ t us

/-- Stable sort by ascending `zIndex` (the observable order of
`cell.tiles.sort((a, b) => a.zIndex - b.zIndex)`). -/
def sortTilesZ : List Tile → List Tile
  | [] => []
  | t :: ts => sortInsertZ t (sortTilesZ ts)

/-- A freshly constructed display (`initializeCells` marks every cell
dirty but `dirtyRects` starts empty; the source defaults `autoRender`
to `true`). -/
def initDisplay (worldWidth worldHeight viewportWidth viewportHeight : Int)
    (autoRender : Bool) : Display :=
  { worldWidth := worldWidth, worldHeight := worldHeight,
    cells := List.replicate worldHeight.toNat
      (List.replicate worldWidth.toNat { overlay := "#00000000", tiles := [], isDirty := true }),
    viewport := { x := 0, y := 0, width := viewportWidth, height := viewportHeight },
    dirtyRects := [], tileMap := [], tileIdCounter := 0,
    autoRender := autoRender, warnings := 0 }

/-- The tiles list of cell `(x, y)` (empty when out of range). -/
def tilesAt (s : Display) (x y : Int) : List Tile :=
  (cellAt s x y).elim [] (fun c => c.tiles)

/-- Number of occurrences of a tile id in a tile list. -/
def occ (l : List Tile) (tileId : Nat) : Nat :=
  (l.filter (fun t => t.id == tileId)).length

/-- Number of occurrences of a tile id in a row of cells. -/
def occRow (row : List Cell) (tileId : Nat) : Nat :=
  (row.map (fun c => occ c.tiles tileId)).sum

/-- Number of occurrences of a tile id across the whole grid. -/
def occGrid (s : Display) (tileId : Nat) : Nat :=
  (s.cells.map (fun row => occRow row tileId)).sum

/-- Grid well-formedness: the `cells` array has exactly
`worldHeight` rows of `worldWidth` cells. -/
def gridWF (s : Display) : Bool :=
  (s.cells.length == s.worldHeight.toNat) &&
    s.cells.all (fun row => row.length == s.worldWidth.toNat)

/-- The cell tile list is non-decreasing in `zIndex`. -/
def zSorted : List Tile → Bool
  | [] => true
  | [_] => true
  | a :: b :: r => decide (a.zIndex ≤ b.zIndex) && zSorted (b :: r)

/-! ### Basic state-projection lemmas -/

@[simp] theorem warn_cells (s : Display) : (warn s).cells = s.cells := rfl

@[simp] theorem warn_tileMap (s : Display) : (warn s).tileMap = s.tileMap := rfl

@[simp] theorem warn_dirtyRects (s : Display) : (warn s).dirtyRects = s.dirtyRects := rfl

@[simp] theorem warn_warnings (s : Display) : (warn s).warnings = s.warnings + 1 := rfl

@[simp] theorem setCell_worldWidth (s : Display) (x y : Int) (c : Cell) :
    (setCell s x y c).worldWidth = s.worldWidth := by
  unfold setCell; split <;> [skip; rfl]; split <;> rfl

@[simp] theorem setCell_worldHeight (s : Display) (x y : Int) (c : Cell) :
    (setCell s x y c).worldHeight = s.worldHeight := by
  unfold setCell; split <;> [skip; rfl]; split <;> rfl

@[simp] theorem setCell_tileMap (s : Display) (x y : Int) (c : Cell) :
    (setCell s x y c).tileMap = s.tileMap := by
  unfold setCell; split <;> [skip; rfl]; split <;> rfl

@[simp] theorem setCell_dirtyRects (s : Display) (x y : Int) (c : Cell) :
    (setCell s x y c).dirtyRects = s.dirtyRects := by
  unfold setCell; split <;> [skip; rfl]; split <;> rfl

@[simp] theorem setCell_warnings (s : Display) (x y : Int) (c : Cell) :
    (setCell s x y c).warnings = s.warnings := by
  unfold setCell; split <;> [skip; rfl]; split <;> rfl

@[simp] theorem setCell_viewport (s : Display) (x y : Int) (c : Cell) :
    (setCell s x y c).viewport = s.viewport := by
  unfold setCell; split <;> [skip; rfl]; split <;> rfl

@[simp] theorem setCell_autoRender (s : Display) (x y : Int) (c : Cell) :
    (setCell s x y c).autoRender = s.autoRender := by
  unfold setCell; split <;> [skip; rfl]; split <;> rfl

@[simp] theorem setCell_tileIdCounter (s : Display) (x y : Int) (c : Cell) :
    (setCell s x y c).tileIdCounter = s.tileIdCounter := by
  unfold setCell; split <;> [skip; rfl]; split <;> rfl

@[simp] theorem addDirty_cells (s : Display) (p : Int × Int) :
    (addDirty s p).cells = s.cells := by
  unfold addDirty; split <;> rfl

@[simp] theorem addDirty_tileMap (s : Display) (p : Int × Int) :
    (addDirty s p).tileMap = s.tileMap := by
  unfold addDirty; split <;> rfl

@[simp] theorem addDirty_warnings (s : Display) (p : Int × Int) :
    (addDirty s p).warnings = s.warnings := by
  unfold addDirty; split <;> rfl

@[simp] theorem addDirty_viewport (s : Display) (p : Int × Int) :
    (addDirty s p).viewport = s.viewport := by
  unfold addDirty; split <;> rfl

@[simp] theorem addDirty_worldWidth (s : Display) (p : Int × Int) :
    (addDirty s p).worldWidth = s.worldWidth := by
  unfold addDirty; split <;> rfl

@[simp] theorem addDirty_worldHeight (s : Display) (p : Int × Int) :
    (addDirty s p).worldHeight = s.worldHeight := by
  unfold addDirty; split <;> rfl

@[simp] theorem addDirty_autoRender (s : Display) (p : Int × Int) :
    (addDirty s p).autoRender = s.autoRender := by
  unfold addDirty; split <;> rfl

@[simp] theorem addDirty_tileIdCounter (s : Display) (p : Int × Int) :
    (addDirty s p).tileIdCounter = s.tileIdCounter := by
  unfold addDirty; split <;> rfl

@[simp] theorem mem_addDirty (s : Display) (p q : Int × Int) :
    q ∈ (addDirty s p).dirtyRects ↔ q ∈ s.dirtyRects ∨ q = p := by
  unfold addDirty; split <;> rename_i h
  · constructor
    · exact fun hq => Or.inl hq
    · rintro (hq | rfl) <;> [exact hq; exact h]
  · simp only [List.mem_cons]; tauto

@[simp] theorem render_cells (s : Display) : (render s).cells = s.cells := by
  unfold render; split <;> rfl

@[simp] theorem render_tileMap (s : Display) : (render s).tileMap = s.tileMap := by
  unfold render; split <;> rfl

@[simp] theorem render_warnings (s : Display) : (render s).warnings = s.warnings := by
  unfold render; split <;> rfl

@[simp] theorem renderIfAuto_of_off (s : Display) (h : s.autoRender = false) :
    renderIfAuto s = s := by
  unfold renderIfAuto; rw [h]; rfl

@[simp] theorem replaceTileEverywhere_dirtyRects (s : Display) (i : Nat) (t' : Tile) :
    (replaceTileEverywhere s i t').dirtyRects = s.dirtyRects := rfl

@[simp] theorem replaceTileEverywhere_warnings (s : Display) (i : Nat) (t' : Tile) :
    (replaceTileEverywhere s i t').warnings = s.warnings := rfl

@[simp] theorem replaceTileEverywhere_worldWidth (s : Display) (i : Nat) (t' : Tile) :
    (replaceTileEverywhere s i t').worldWidth = s.worldWidth := rfl

@[simp] theorem replaceTileEverywhere_worldHeight (s : Display) (i : Nat) (t' : Tile) :
    (replaceTileEverywhere s i t').worldHeight = s.worldHeight := rfl

@[simp] theorem replaceTileEverywhere_autoRender (s : Display) (i : Nat) (t' : Tile) :
    (replaceTileEverywhere s i t').autoRender = s.autoRender := rfl

@[simp] theorem replaceTileEverywhere_tileIdCounter (s : Display) (i : Nat) (t' : Tile) :
    (replaceTileEverywhere s i t').tileIdCounter = s.tileIdCounter := rfl

@[simp] theorem replaceTileEverywhere_viewport (s : Display) (i : Nat) (t' : Tile) :
    (replaceTileEverywhere s i t').viewport = s.viewport := rfl

@[simp] theorem replaceTileEverywhere_tileMap (s : Display) (i : Nat) (t' : Tile) :
    (replaceTileEverywhere s i t').tileMap = replaceTile i t' s.tileMap := rfl

theorem inBounds_eq_of_dims {s s' : Display} (hw : s'.worldWidth = s.worldWidth)
    (hh : s'.worldHeight = s.worldHeight) (x y : Int) :
    inBounds s' x y = inBounds s x y := by
  unfold inBounds; rw [hw, hh]

/-! ### `cellAt` / `setCell` interaction -/

theorem cellAt_setCell_same {s : Display} {x y : Int} {c0 : Cell} (h : cellAt s x y = some c0)
    (c : Cell) : cellAt (setCell s x y c) x y = some c := by
  unfold cellAt at h ⊢
  unfold setCell
  split at h
  · rename_i hxy
    obtain ⟨row, hrow, hc⟩ := Option.bind_eq_some.mp h
    rw [if_pos hxy, hrow]
    have hylt : y.toNat < s.cells.length := by
      rw [List.get?_eq_getElem?] at hrow
      exact (List.getElem?_eq_some.mp hrow).1
    have hxlt : x.toNat < row.length := by
      rw [List.get?_eq_getElem?] at hc
      exact (List.getElem?_eq_some.mp hc).1
    simp only [cellAt, if_pos hxy, List.get?_eq_getElem?]
    rw [List.getElem?_set_eq_of_lt _ (by simpa using hylt)]
    simp only [Option.some_bind]
    rw [List.getElem?_set_eq_of_lt _ hxlt]
  · exact absurd h (by simp)

theorem cellAt_setCell_ne (s : Display) (x y x' y' : Int) (c : Cell)
    (h : ¬(x' = x ∧ y' = y)) : cellAt (setCell s x y c) x' y' = cellAt s x' y' := by
  unfold setCell
  split
  · rename_i hxy
    split
    · rename_i row hrow
      unfold cellAt
      split
      · rename_i hxy'
        simp only [List.get?_eq_getElem?] at hrow ⊢
        by_cases hyy : y'.toNat = y.toNat
        · have hy : y' = y := by omega
          have hx : ¬ x' = x := fun hx => h ⟨hx, hy⟩
          have hxx : x'.toNat ≠ x.toNat := by omega
          rw [hyy, List.getElem?_set_eq_of_lt _ (by
            simpa using (List.getElem?_eq_some.mp hrow).1)]
          rw [hrow]
          simp only [Option.some_bind]
          rw [List.getElem?_set_ne (by omega)]
        · rw [List.getElem?_set_ne (by omega)]
      · rfl
    · rfl
  · rfl

theorem gridWF_setCell {s : Display} (x y : Int) (c : Cell) (h : gridWF s = true) :
    gridWF (setCell s x y c) = true := by
  unfold setCell
  split
  · split
    · rename_i row hrow
      unfold gridWF at h ⊢
      simp only [Bool.and_eq_true, beq_iff_eq, List.all_eq_true] at h ⊢
      obtain ⟨hlen, hrows⟩ := h
      refine ⟨by simpa using hlen, ?_⟩
      intro r hr
      rcases List.mem_or_eq_of_mem_set hr with hmem | rfl
      · exact hrows r hmem
      · have : row ∈ s.cells := by
          rw [List.get?_eq_getElem?] at hrow
          exact List.getElem?_mem hrow
        simpa using hrows row this
    · exact h
  · exact h

theorem cellAt_isSome_of_WF {s : Display} {x y : Int} (hwf : gridWF s = true)
    (hb : inBounds s x y = true) : (cellAt s x y).isSome = true := by
  unfold gridWF at hwf
  unfold inBounds at hb
  simp only [Bool.and_eq_true, beq_iff_eq, List.all_eq_true, decide_eq_true_eq] at hwf hb
  obtain ⟨⟨⟨hx0, hxw⟩, hy0⟩, hyh⟩ := hb
  obtain ⟨hlen, hrows⟩ := hwf
  unfold cellAt
  rw [if_pos ⟨hy0, hx0⟩]
  have hylt : y.toNat < s.cells.length := by rw [hlen]; omega
  rw [List.get?_eq_getElem?, List.getElem?_eq_getElem hylt]
  simp only [Option.some_bind]
  have hrl : s.cells[y.toNat].length = s.worldWidth.toNat :=
    hrows _ (List.getElem_mem hylt)
  have hxlt : x.toNat < s.cells[y.toNat].length := by rw [hrl]; omega
  rw [List.get?_eq_getElem?, List.getElem?_eq_getElem hxlt]
  rfl

/-! ### Tile-list lemmas: `occ`, `replaceTile`, `insertTileZ`, lookups -/

theorem occ_nil (i : Nat) : occ [] i = 0 := rfl

theorem occ_cons (t : Tile) (l : List Tile) (i : Nat) :
    occ (t :: l) i = (if t.id = i then 1 else 0) + occ l i := by
  unfold occ
  rw [List.filter_cons]
  by_cases h : t.id = i
  · rw [if_pos (by simpa using h), if_pos h, List.length_cons]
    omega
  · rw [if_neg (by simpa using h), if_neg h]
    omega

theorem occ_append (l1 l2 : List Tile) (i : Nat) :
    occ (l1 ++ l2) i = occ l1 i + occ l2 i := by
  unfold occ; rw [List.filter_append, List.length_append]

theorem occ_filter_ne (l : List Tile) (i : Nat) :
    occ (l.filter (fun t => t.id != i)) i = 0 := by
  induction l with
  | nil => rfl
  | cons t l ih =>
    rw [List.filter_cons]
    by_cases h : t.id = i
    · simp only [h, bne_self_eq_false]
      exact ih
    · simp only [bne_iff_ne, ne_eq, h, not_false_eq_true, if_true]
      rw [occ_cons, if_neg h, ih]

theorem occ_insertTileZ (t : Tile) (l : List Tile) (i : Nat) :
    occ (insertTileZ t l) i = (if t.id = i then 1 else 0) + occ l i := by
  induction l with
  | nil => simp [insertTileZ, occ_cons, occ_nil]
  | cons u l ih =>
    unfold insertTileZ
    split
    · rw [occ_cons, occ_cons]
    · rw [occ_cons, ih, occ_cons]; omega

theorem replaceTile_of_occ_zero {l : List Tile} {i : Nat} (h : occ l i = 0) (t' : Tile) :
    replaceTile i t' l = l := by
  induction l with
  | nil => rfl
  | cons u l ih =>
    rw [occ_cons] at h
    have hu : ¬ u.id = i := by intro hui; rw [if_pos hui] at h; omega
    have hl : occ l i = 0 := by omega
    unfold replaceTile at ih ⊢
    simp only [List.map_cons, if_neg hu, ih hl]

theorem occ_replaceTile (l : List Tile) (i : Nat) {t' : Tile} (ht : t'.id = i) (j : Nat) :
    occ (replaceTile i t' l) j = occ l j := by
  induction l with
  | nil => rfl
  | cons u l ih =>
    unfold replaceTile at ih ⊢
    simp only [List.map_cons]
    rw [occ_cons, occ_cons, ih]
    by_cases h : u.id = i
    · rw [if_pos h, ht, h]
    · rw [if_neg h]

theorem filter_ne_of_occ_zero {l : List Tile} {i : Nat} (h : occ l i = 0) :
    l.filter (fun t => t.id != i) = l := by
  induction l with
  | nil => rfl
  | cons u l ih =>
    rw [occ_cons] at h
    have hu : ¬ u.id = i := by intro hui; rw [if_pos hui] at h; omega
    rw [List.filter_cons, if_pos (by simpa using hu), ih (by omega)]

theorem find?_id_filter_ne (l : List Tile) (i : Nat) :
    (l.filter (fun t => t.id != i)).find? (fun t => t.id == i) = none := by
  rw [List.find?_eq_none]
  intro t ht
  have := (List.mem_filter.mp ht).2
  simpa using this

theorem find?_id_replaceTile {l : List Tile} {i : Nat} {t0 : Tile}
    (h : l.find? (fun t => t.id == i) = some t0) {t' : Tile} (ht' : t'.id = i) :
    (replaceTile i t' l).find? (fun t => t.id == i) = some t' := by
  induction l with
  | nil => simp at h
  | cons u l ih =>
    unfold replaceTile at ih ⊢
    simp only [List.map_cons]
    by_cases hui : u.id = i
    · rw [if_pos hui]
      rw [List.find?_cons_of_pos _ (by simpa using ht')]
    · rw [if_neg hui]
      rw [List.find?_cons_of_neg _ (by simpa using hui)] at h
      rw [List.find?_cons_of_neg _ (by simpa using hui)]
      exact ih h

theorem lookupTile_id {s : Display} {i : Nat} {t : Tile} (h : lookupTile s i = some t) :
    t.id = i := by
  have := List.find?_some h
  simpa using this

theorem lookupTile_mem {s : Display} {i : Nat} {t : Tile} (h : lookupTile s i = some t) :
    t ∈ s.tileMap :=
  List.mem_of_find?_eq_some h

theorem find?_id_append_of_none {l1 l2 : List Tile} {i : Nat}
    (h : l1.find? (fun t => t.id == i) = none) :
    (l1 ++ l2).find? (fun t => t.id == i) = l2.find? (fun t => t.id == i) := by
  induction l1 with
  | nil => rfl
  | cons u l1 ih =>
    by_cases hp : (u.id == i) = true
    · rw [List.find?_cons, hp] at h
      exact Option.noConfusion h
    · rw [Bool.not_eq_true] at hp
      rw [List.find?_cons, hp] at h
      rw [List.cons_append, List.find?_cons, hp]
      exact ih h

/-! ### z-order lemmas -/

theorem eq_of_mem_head?_cons {α : Type _} {a c : α} {l : List α} (hc : c ∈ (a :: l).head?) :
    c = a := by
  simp only [List.head?_cons, Option.mem_def, Option.some.injEq] at hc
  first
  | exact hc
  | exact hc.symm

theorem zSorted_cons {a : Tile} {l : List Tile} :
    zSorted (a :: l) = true ↔ (∀ b ∈ l.head?, a.zIndex ≤ b.zIndex) ∧ zSorted l = true := by
  cases l with
  | nil => simp [zSorted]
  | cons b r =>
    constructor
    · intro h
      have h' : (decide (a.zIndex ≤ b.zIndex) && zSorted (b :: r)) = true := h
      rw [Bool.and_eq_true, decide_eq_true_eq] at h'
      refine ⟨?_, h'.2⟩
      intro c hc
      rw [eq_of_mem_head?_cons hc]; exact h'.1
    · rintro ⟨h1, h2⟩
      show (decide (a.zIndex ≤ b.zIndex) && zSorted (b :: r)) = true
      rw [Bool.and_eq_true, decide_eq_true_eq]
      exact ⟨h1 b (by simp), h2⟩

theorem zSorted_insertTileZ {l : List Tile} (h : zSorted l = true) (t : Tile) :
    zSorted (insertTileZ t l) = true := by
  induction l with
  | nil => rfl
  | cons u l ih =>
    obtain ⟨hhead, htail⟩ := zSorted_cons.mp h
    unfold insertTileZ
    split
    · rename_i hlt
      rw [zSorted_cons]
      refine ⟨?_, h⟩
      intro c hc
      rw [eq_of_mem_head?_cons hc]; omega
    · rename_i hge
      have hut : u.zIndex ≤ t.zIndex := by omega
      rw [zSorted_cons]
      refine ⟨?_, ih htail⟩
      intro c hc
      cases l with
      | nil =>
        rw [eq_of_mem_head?_cons (show c ∈ (t :: ([] : List Tile)).head? from hc)]
        exact hut
      | cons v r =>
        unfold insertTileZ at hc
        split at hc
        · rw [eq_of_mem_head?_cons hc]; exact hut
        · rw [eq_of_mem_head?_cons hc]; exact hhead v (by simp)

theorem insertTileZ_eq_append (t : Tile) (l : List Tile) :
    insertTileZ t l =
      l.takeWhile (fun u => decide (u.zIndex ≤ t.zIndex)) ++
        t :: l.dropWhile (fun u => decide (u.zIndex ≤ t.zIndex)) := by
  induction l with
  | nil => rfl
  | cons u l ih =>
    unfold insertTileZ
    split
    · rename_i hlt
      rw [List.takeWhile_cons, List.dropWhile_cons]
      rw [if_neg (by simp only [decide_eq_true_eq]; omega),
        if_neg (by simp only [decide_eq_true_eq]; omega)]
      rfl
    · rename_i hge
      rw [List.takeWhile_cons, List.dropWhile_cons]
      rw [if_pos (by simp only [decide_eq_true_eq]; omega),
        if_pos (by simp only [decide_eq_true_eq]; omega)]
      rw [List.cons_append, ih]

theorem zSorted_le_of_mem : ∀ {u : Tile} {l : List Tile}, zSorted (u :: l) = true →
    ∀ c ∈ l, u.zIndex ≤ c.zIndex := by
  intro u l
  induction l generalizing u with
  | nil => intro _ c hc; simp at hc
  | cons v r ih =>
    intro h c hc
    obtain ⟨hhead, htail⟩ := zSorted_cons.mp h
    have huv : u.zIndex ≤ v.zIndex := hhead v (by simp)
    rcases List.mem_cons.mp hc with rfl | hc2
    · exact huv
    · exact le_trans huv (ih htail c hc2)

theorem zSorted_filter {l : List Tile} (h : zSorted l = true) (p : Tile → Bool) :
    zSorted (l.filter p) = true := by
  induction l with
  | nil => rfl
  | cons u l ih =>
    obtain ⟨hhead, htail⟩ := zSorted_cons.mp h
    rw [List.filter_cons]
    split
    · rw [zSorted_cons]
      refine ⟨?_, ih htail⟩
      intro b hb
      have hbmem : b ∈ l.filter p := by
        rw [List.eq_cons_of_mem_head? hb]
        exact List.mem_cons_self _ _
      have hbl : b ∈ l := (List.mem_filter.mp hbmem).1
      exact zSorted_le_of_mem h b hbl
    · exact ih htail

theorem insertTileZ_perm (t : Tile) (l : List Tile) : (insertTileZ t l).Perm (t :: l) := by
  induction l with
  | nil => exact List.Perm.refl _
  | cons u l ih =>
    unfold insertTileZ
    split
    · exact List.Perm.refl _
    · exact List.Perm.trans (List.Perm.cons u ih) (List.Perm.swap t u l)

theorem sortTilesZ_eq_of_sorted {l : List Tile} (h : zSorted l = true) : sortTilesZ l = l := by
  induction l with
  | nil => rfl
  | cons t ts ih =>
    obtain ⟨hhead, htail⟩ := zSorted_cons.mp h
    unfold sortTilesZ
    rw [ih htail]
    cases ts with
    | nil => rfl
    | cons u r =>
      unfold sortInsertZ
      rw [if_pos (hhead u (by simp))]

theorem mem_takeWhile_z_le {l : List Tile} (hs : zSorted l = true) {a : Tile} (ha : a ∈ l)
    {z : Int} (hz : a.zIndex ≤ z) :
    a ∈ l.takeWhile (fun u => decide (u.zIndex ≤ z)) := by
  induction l with
  | nil => simp at ha
  | cons u l ih =>
    obtain ⟨hhead, htail⟩ := zSorted_cons.mp hs
    rcases List.mem_cons.mp ha with rfl | ha2
    · rw [List.takeWhile_cons, if_pos (by simp only [decide_eq_true_eq]; exact hz)]
      exact List.mem_cons_self _ _
    · have hua : u.zIndex ≤ a.zIndex := zSorted_le_of_mem hs a ha2
      rw [List.takeWhile_cons, if_pos (by simp only [decide_eq_true_eq]; omega)]
      exact List.mem_cons_of_mem _ (ih htail ha2)

/-! ### Generic fold lemmas (for the dirty-marking loops) -/

theorem foldl_pres {α σ : Type _} (g : σ → α → σ) (P : σ → Prop)
    (hg : ∀ s a, P s → P (g s a)) :
    ∀ (l : List α) (s : σ), P s → P (l.foldl g s) := by
  intro l
  induction l with
  | nil => exact fun s h => h
  | cons a l ih => exact fun s h => ih _ (hg s a h)

theorem foldl_mem_dirty {α : Type _} (g : Display → α → Display)
    (hpres : ∀ s a q, q ∈ s.dirtyRects → q ∈ (g s a).dirtyRects) (q : Int × Int) :
    ∀ (l : List α) (s : Display) (a : α), a ∈ l → (∀ s', q ∈ (g s' a).dirtyRects) →
      q ∈ (l.foldl g s).dirtyRects := by
  intro l
  induction l with
  | nil => intro s a ha; exact absurd ha (by simp)
  | cons b l ih =>
    intro s a ha hq
    rcases List.mem_cons.mp ha with rfl | h2
    · exact foldl_pres g (fun s' => q ∈ s'.dirtyRects) (fun s' x h => hpres s' x q h) l _ (hq s)
    · exact ih _ a h2 hq

@[simp] theorem render_viewport (s : Display) : (render s).viewport = s.viewport := by
  unfold render; split <;> rfl

@[simp] theorem render_worldWidth (s : Display) : (render s).worldWidth = s.worldWidth := by
  unfold render; split <;> rfl

@[simp] theorem render_worldHeight (s : Display) : (render s).worldHeight = s.worldHeight := by
  unfold render; split <;> rfl

@[simp] theorem render_tileIdCounter (s : Display) : (render s).tileIdCounter = s.tileIdCounter := by
  unfold render; split <;> rfl

@[simp] theorem render_autoRender (s : Display) : (render s).autoRender = s.autoRender := by
  unfold render; split <;> rfl

@[simp] theorem renderIfAuto_viewport (s : Display) : (renderIfAuto s).viewport = s.viewport := by
  unfold renderIfAuto; split <;> simp

@[simp] theorem renderIfAuto_cells (s : Display) : (renderIfAuto s).cells = s.cells := by
  unfold renderIfAuto; split <;> simp

@[simp] theorem renderIfAuto_tileMap (s : Display) : (renderIfAuto s).tileMap = s.tileMap := by
  unfold renderIfAuto; split <;> simp

@[simp] theorem renderIfAuto_warnings (s : Display) : (renderIfAuto s).warnings = s.warnings := by
  unfold renderIfAuto; split <;> simp

@[simp] theorem renderIfAuto_worldWidth (s : Display) :
    (renderIfAuto s).worldWidth = s.worldWidth := by
  unfold renderIfAuto; split <;> simp

@[simp] theorem renderIfAuto_worldHeight (s : Display) :
    (renderIfAuto s).worldHeight = s.worldHeight := by
  unfold renderIfAuto; split <;> simp

@[simp] theorem renderIfAuto_tileIdCounter (s : Display) :
    (renderIfAuto s).tileIdCounter = s.tileIdCounter := by
  unfold renderIfAuto; split <;> simp

@[simp] theorem renderIfAuto_autoRender (s : Display) :
    (renderIfAuto s).autoRender = s.autoRender := by
  unfold renderIfAuto; split <;> simp

@[simp] theorem setTileInCell_tileMap (s : Display) (t : Tile) :
    (setTileInCell s t).tileMap = s.tileMap := by
  unfold setTileInCell; split <;> [skip; rfl]; split <;> simp

@[simp] theorem setTileInCell_warnings (s : Display) (t : Tile) :
    (setTileInCell s t).warnings = s.warnings := by
  unfold setTileInCell; split <;> [skip; rfl]; split <;> simp

@[simp] theorem setTileInCell_worldWidth (s : Display) (t : Tile) :
    (setTileInCell s t).worldWidth = s.worldWidth := by
  unfold setTileInCell; split <;> [skip; rfl]; split <;> simp

@[simp] theorem setTileInCell_worldHeight (s : Display) (t : Tile) :
    (setTileInCell s t).worldHeight = s.worldHeight := by
  unfold setTileInCell; split <;> [skip; rfl]; split <;> simp

@[simp] theorem setTileInCell_autoRender (s : Display) (t : Tile) :
    (setTileInCell s t).autoRender = s.autoRender := by
  unfold setTileInCell; split <;> [skip; rfl]; split <;> simp

@[simp] theorem setTileInCell_tileIdCounter (s : Display) (t : Tile) :
    (setTileInCell s t).tileIdCounter = s.tileIdCounter := by
  unfold setTileInCell; split <;> [skip; rfl]; split <;> simp

@[simp] theorem setTileInCell_viewport (s : Display) (t : Tile) :
    (setTileInCell s t).viewport = s.viewport := by
  unfold setTileInCell; split <;> [skip; rfl]; split <;> simp

theorem gridWF_eq_of {s s' : Display} (h1 : s'.cells = s.cells)
    (h2 : s'.worldWidth = s.worldWidth) (h3 : s'.worldHeight = s.worldHeight) :
    gridWF s' = gridWF s := by
  unfold gridWF; rw [h1, h2, h3]

theorem gridWF_setTileInCell {s : Display} (t : Tile) (h : gridWF s = true) :
    gridWF (setTileInCell s t) = true := by
  unfold setTileInCell
  split <;> [skip; exact h]
  split <;> [skip; exact h]
  rw [gridWF_eq_of (addDirty_cells _ _) (addDirty_worldWidth _ _) (addDirty_worldHeight _ _)]
  exact gridWF_setCell _ _ _ h

theorem gridWF_renderIfAuto {s : Display} (h : gridWF s = true) :
    gridWF (renderIfAuto s) = true := by
  rw [gridWF_eq_of (renderIfAuto_cells s) (renderIfAuto_worldWidth s) (renderIfAuto_worldHeight s)]
  exact h

/-! ### Claim C6: equal z-index tiles render in FIFO insertion order -/

/-- **C6.** For every cell, two tiles of equal `zIndex` render in FIFO
insertion order: inserting `b` via `setTileInCell`'s z-ordered insertion
into a sorted cell list already containing the earlier-inserted `a` with
`b.zIndex = a.zIndex` places `b` strictly after `a`, and `renderCell`'s
stable sort (`sortTilesZ`) leaves the list unchanged, so the compositor
paints `a` before — and therefore visually under — `b`. -/
theorem equal_z_tiles_render_fifo (l : List Tile) (a b : Tile)
    (hs : zSorted l = true) (ha : a ∈ l) (hz : b.zIndex = a.zIndex) :
    sortTilesZ (insertTileZ b l) = insertTileZ b l ∧
    ∃ l1 l2, insertTileZ b l = l1 ++ b :: l2 ∧ a ∈ l1 := by
  constructor
  · exact sortTilesZ_eq_of_sorted (zSorted_insertTileZ hs b)
  · refine ⟨l.takeWhile (fun u => decide (u.zIndex ≤ b.zIndex)),
      l.dropWhile (fun u => decide (u.zIndex ≤ b.zIndex)), insertTileZ_eq_append b l, ?_⟩
    exact mem_takeWhile_z_le hs ha (by omega)

/-- Witness for C6 at a concrete input: a cell holding one tile of
z-index 1; a second tile of z-index 1 is inserted after it and the paint
order keeps the first tile first. -/
theorem equal_z_tiles_render_fifo_witness :
    (sortTilesZ (insertTileZ
        { id := 1, x := 0, y := 0, char := "b", color := "w", backgroundColor := "k",
          zIndex := 1, bgPercent := 1, fillDirection := FillDirection.BOTTOM }
        [{ id := 0, x := 0, y := 0, char := "a", color := "w", backgroundColor := "k",
           zIndex := 1, bgPercent := 1, fillDirection := FillDirection.BOTTOM }]) =
      insertTileZ
        { id := 1, x := 0, y := 0, char := "b", color := "w", backgroundColor := "k",
          zIndex := 1, bgPercent := 1, fillDirection := FillDirection.BOTTOM }
        [{ id := 0, x := 0, y := 0, char := "a", color := "w", backgroundColor := "k",
           zIndex := 1, bgPercent := 1, fillDirection := FillDirection.BOTTOM }]) ∧
    ∃ l1 l2, insertTileZ
        { id := 1, x := 0, y := 0, char := "b", color := "w", backgroundColor := "k",
          zIndex := 1, bgPercent := 1, fillDirection := FillDirection.BOTTOM }
        [{ id := 0, x := 0, y := 0, char := "a", color := "w", backgroundColor := "k",
           zIndex := 1, bgPercent := 1, fillDirection := FillDirection.BOTTOM }] =
      l1 ++ { id := 1, x := 0, y := 0, char := "b", color := "w", backgroundColor := "k",
              zIndex := 1, bgPercent := 1, fillDirection := FillDirection.BOTTOM } :: l2 ∧
      { id := 0, x := 0, y := 0, char := "a", color := "w", backgroundColor := "k",
        zIndex := 1, bgPercent := 1, fillDirection := FillDirection.BOTTOM } ∈ l1 :=
  equal_z_tiles_render_fifo _ _ _ (by decide) (by simp) (by decide)

/-! ### Claim C10: the no-throw propagation policy (violated by `setTiles`) -/

/-- **C10** (code bug): `setTiles(0, 10, [])` on a 10×10 world indexes
`cells[10]` with no bounds check; `cells[10]` is `undefined` in JS and
the subsequent `.tiles` assignment throws a `TypeError` (modelled as
`none`), contradicting the documented policy that per-call failures are
a no-op plus diagnostic. -/
theorem setTiles_out_of_bounds_throws :
    setTiles (initDisplay 10 10 5 5 false) 0 10 [] = none := by
  rfl

/-! ### Claim C5: `setViewport` clamps and re-dirties the viewport rectangle -/

theorem svFold_viewport (s1 : Display) (vx vy : Int) (h w : Nat) :
    ((List.range h).foldl
      (fun acc (vyi : Nat) => (List.range w).foldl
        (fun acc2 (vxi : Nat) => addDirty acc2 (vx + (vxi : Int), vy + (vyi : Int))) acc)
      s1).viewport = s1.viewport := by
  refine foldl_pres _ (fun d => d.viewport = s1.viewport) ?_ _ s1 rfl
  intro d a hd
  refine foldl_pres _ (fun d2 => d2.viewport = s1.viewport) ?_ _ d hd
  intro d2 b hd2
  show (addDirty d2 _).viewport = s1.viewport
  rw [addDirty_viewport]
  exact hd2

theorem svFold_autoRender (s1 : Display) (vx vy : Int) (h w : Nat) :
    ((List.range h).foldl
      (fun acc (vyi : Nat) => (List.range w).foldl
        (fun acc2 (vxi : Nat) => addDirty acc2 (vx + (vxi : Int), vy + (vyi : Int))) acc)
      s1).autoRender = s1.autoRender := by
  refine foldl_pres _ (fun d => d.autoRender = s1.autoRender) ?_ _ s1 rfl
  intro d a hd
  refine foldl_pres _ (fun d2 => d2.autoRender = s1.autoRender) ?_ _ d hd
  intro d2 b hd2
  show (addDirty d2 _).autoRender = s1.autoRender
  rw [addDirty_autoRender]
  exact hd2

theorem svFold_dirty_superset (s1 : Display) (vx vy : Int) (h w : Nat)
    (q : Int × Int) (hq : q ∈ s1.dirtyRects) :
    q ∈ ((List.range h).foldl
      (fun acc (vyi : Nat) => (List.range w).foldl
        (fun acc2 (vxi : Nat) => addDirty acc2 (vx + (vxi : Int), vy + (vyi : Int))) acc)
      s1).dirtyRects := by
  refine foldl_pres _ (fun d => q ∈ d.dirtyRects) ?_ _ s1 hq
  intro d a hd
  refine foldl_pres _ (fun d2 => q ∈ d2.dirtyRects) ?_ _ d hd
  intro d2 b hd2
  show q ∈ (addDirty d2 _).dirtyRects
  exact (mem_addDirty _ _ _).mpr (Or.inl hd2)

theorem svFold_mem (s1 : Display) (vx vy : Int) (h w : Nat) (i j : Nat)
    (hi : i < w) (hj : j < h) :
    (vx + (i : Int), vy + (j : Int)) ∈ ((List.range h).foldl
      (fun acc (vyi : Nat) => (List.range w).foldl
        (fun acc2 (vxi : Nat) => addDirty acc2 (vx + (vxi : Int), vy + (vyi : Int))) acc)
      s1).dirtyRects := by
  refine foldl_mem_dirty
    (fun acc (vyi : Nat) => (List.range w).foldl
      (fun acc2 (vxi : Nat) => addDirty acc2 (vx + (vxi : Int), vy + (vyi : Int))) acc)
    ?_ _ (List.range h) s1 j (List.mem_range.mpr hj) ?_
  · intro d a q hq
    refine foldl_pres _ (fun d2 => q ∈ d2.dirtyRects) ?_ _ d hq
    intro d2 b hd2
    show q ∈ (addDirty d2 _).dirtyRects
    exact (mem_addDirty _ _ _).mpr (Or.inl hd2)
  · intro s'
    refine foldl_mem_dirty
      (fun acc2 (vxi : Nat) => addDirty acc2 (vx + (vxi : Int), vy + (j : Int)))
      ?_ _ (List.range w) s' i (List.mem_range.mpr hi) ?_
    · intro d a q hq
      exact (mem_addDirty _ _ _).mpr (Or.inl hq)
    · intro s''
      exact (mem_addDirty _ _ _).mpr (Or.inr rfl)

/-- **C5.** `setViewport(x, y)` sets the viewport origin to
`(clamp(x, 0, worldWidth − viewportWidth), clamp(y, 0, worldHeight −
viewportHeight))`, keeps its size, retains every previously dirty
coordinate, and unconditionally adds every coordinate inside the
resulting viewport rectangle to the dirty set — with no precondition
relating the new position to the current one (dirty contents observed
with auto-render off, since an auto-triggered render immediately drains
the set it was just handed). -/
theorem setViewport_clamps_and_dirties_rectangle (s : Display) (x y : Int)
    (h : s.autoRender = false) :
    (setViewport s x y).viewport =
      { x := max 0 (min x (s.worldWidth - s.viewport.width)),
        y := max 0 (min y (s.worldHeight - s.viewport.height)),
        width := s.viewport.width, height := s.viewport.height } ∧
    (∀ q ∈ s.dirtyRects, q ∈ (setViewport s x y).dirtyRects) ∧
    (∀ i j : Nat, (i : Int) < s.viewport.width → (j : Int) < s.viewport.height →
      (max 0 (min x (s.worldWidth - s.viewport.width)) + (i : Int),
       max 0 (min y (s.worldHeight - s.viewport.height)) + (j : Int)) ∈
        (setViewport s x y).dirtyRects) := by
  refine ⟨?_, ?_, ?_⟩
  · show (renderIfAuto _).viewport = _
    rw [renderIfAuto_viewport]
    rw [svFold_viewport]
  · intro q hq
    show q ∈ (renderIfAuto _).dirtyRects
    rw [renderIfAuto_of_off _ (by rw [svFold_autoRender]; exact h)]
    exact svFold_dirty_superset _ _ _ _ _ q hq
  · intro i j hi hj
    show _ ∈ (renderIfAuto _).dirtyRects
    rw [renderIfAuto_of_off _ (by rw [svFold_autoRender]; exact h)]
    exact svFold_mem _ _ _ _ _ i j
      (show i < s.viewport.width.toNat by omega)
      (show j < s.viewport.height.toNat by omega)

/-- Witness for C5, reproducing the spec scenario: `setViewport(20, 20)`
on a 10×10 world with a 5×5 viewport clamps to `(5, 5)`, and the bottom
right visible cell `(9, 9)` is marked dirty. -/
theorem setViewport_clamps_witness :
    (setViewport (initDisplay 10 10 5 5 false) 20 20).viewport =
      { x := 5, y := 5, width := 5, height := 5 } ∧
    ((9 : Int), (9 : Int)) ∈ (setViewport (initDisplay 10 10 5 5 false) 20 20).dirtyRects := by
  have h := setViewport_clamps_and_dirties_rectangle (initDisplay 10 10 5 5 false) 20 20 rfl
  constructor
  · have h1 := h.1
    norm_num [initDisplay] at h1
    exact h1
  · have h2 := h.2.2 4 4 (by norm_num [initDisplay]) (by norm_num [initDisplay])
    norm_num [initDisplay] at h2
    exact h2

/-! ### Claim C4: out-of-bounds `createTile` -/

/-- **C4 counterexample.** `createTile(-1, 0, …)` on a 3×3 world is *not*
a no-op on the engine state as the claim requires: the tile index grows
from empty to one entry; and no diagnostic is emitted (`warnings = 0`).
(The tile lands in no cell: `occGrid = 0`.) -/
theorem createTile_oob_counterexample :
    ((createTile (initDisplay 3 3 3 3 false) (-1) 0 "a" "#FFFFFFFF" "#000000FF" 1 1
        FillDirection.BOTTOM).1.tileMap.length = 1) ∧
    ((createTile (initDisplay 3 3 3 3 false) (-1) 0 "a" "#FFFFFFFF" "#000000FF" 1 1
        FillDirection.BOTTOM).1.warnings = 0) ∧
    (occGrid (createTile (initDisplay 3 3 3 3 false) (-1) 0 "a" "#FFFFFFFF" "#000000FF" 1 1
        FillDirection.BOTTOM).1 0 = 0) :=
  ⟨rfl, rfl, rfl⟩

/-- **C4 amended.** For every `(x, y)` outside the world extent,
`createTile(x, y, …)` does not throw and leaves every cell's tiles list
and the dirty set unchanged, but it is not a full no-op and emits no
diagnostic: the tile (with its out-of-bounds stored position) is still
appended to the tile index and its fresh id is returned.  (Dirty set
observed with auto-render off.) -/
theorem createTile_oob_registers_without_diagnostic (s : Display) (x y : Int)
    (ch col bg : String) (z : Int) (bp : ℚ) (fd : FillDirection)
    (hb : inBounds s x y = false) (ha : s.autoRender = false) :
    ((createTile s x y ch col bg z bp fd).1.cells = s.cells) ∧
    ((createTile s x y ch col bg z bp fd).1.dirtyRects = s.dirtyRects) ∧
    ((createTile s x y ch col bg z bp fd).1.warnings = s.warnings) ∧
    ((createTile s x y ch col bg z bp fd).1.tileMap = s.tileMap ++
      [{ id := s.tileIdCounter, x := x, y := y, char := ch, color := col,
         backgroundColor := bg, zIndex := z, bgPercent := bp, fillDirection := fd }]) ∧
    ((createTile s x y ch col bg z bp fd).2 = s.tileIdCounter) := by
  have key : createTile s x y ch col bg z bp fd =
      (renderIfAuto (setTileInCell
        { s with
          tileIdCounter := s.tileIdCounter + 1,
          tileMap := s.tileMap ++
            [{ id := s.tileIdCounter, x := x, y := y, char := ch, color := col,
               backgroundColor := bg, zIndex := z, bgPercent := bp, fillDirection := fd }] }
        { id := s.tileIdCounter, x := x, y := y, char := ch, color := col,
          backgroundColor := bg, zIndex := z, bgPercent := bp, fillDirection := fd }),
       s.tileIdCounter) := rfl
  have hb1 : inBounds
      { s with
        tileIdCounter := s.tileIdCounter + 1,
        tileMap := s.tileMap ++
          [{ id := s.tileIdCounter, x := x, y := y, char := ch, color := col,
             backgroundColor := bg, zIndex := z, bgPercent := bp, fillDirection := fd }] }
      x y = false := hb
  have hset : setTileInCell
      { s with
        tileIdCounter := s.tileIdCounter + 1,
        tileMap := s.tileMap ++
          [{ id := s.tileIdCounter, x := x, y := y, char := ch, color := col,
             backgroundColor := bg, zIndex := z, bgPercent := bp, fillDirection := fd }] }
      { id := s.tileIdCounter, x := x, y := y, char := ch, color := col,
        backgroundColor := bg, zIndex := z, bgPercent := bp, fillDirection := fd } =
      { s with
        tileIdCounter := s.tileIdCounter + 1,
        tileMap := s.tileMap ++
          [{ id := s.tileIdCounter, x := x, y := y, char := ch, color := col,
             backgroundColor := bg, zIndex := z, bgPercent := bp, fillDirection := fd }] } := by
    unfold setTileInCell
    rw [if_neg (by simp [hb1])]
  have hauto : ({ s with
      tileIdCounter := s.tileIdCounter + 1,
      tileMap := s.tileMap ++
        [{ id := s.tileIdCounter, x := x, y := y, char := ch, color := col,
           backgroundColor := bg, zIndex := z, bgPercent := bp, fillDirection := fd }] } :
      Display).autoRender = false := ha
  rw [key, hset, renderIfAuto_of_off _ hauto]
  exact ⟨rfl, rfl, rfl, rfl, rfl⟩

theorem createTile_fst_tileMap (s : Display) (x y : Int) (ch col bg : String) (z : Int)
    (bp : ℚ) (fd : FillDirection) :
    (createTile s x y ch col bg z bp fd).1.tileMap = s.tileMap ++
      [{ id := s.tileIdCounter, x := x, y := y, char := ch, color := col,
         backgroundColor := bg, zIndex := z, bgPercent := bp, fillDirection := fd }] := by
  simp only [createTile]
  rw [renderIfAuto_tileMap, setTileInCell_tileMap]

theorem createTile_fst_worldWidth (s : Display) (x y : Int) (ch col bg : String) (z : Int)
    (bp : ℚ) (fd : FillDirection) :
    (createTile s x y ch col bg z bp fd).1.worldWidth = s.worldWidth := by
  simp only [createTile]
  rw [renderIfAuto_worldWidth, setTileInCell_worldWidth]

theorem createTile_fst_worldHeight (s : Display) (x y : Int) (ch col bg : String) (z : Int)
    (bp : ℚ) (fd : FillDirection) :
    (createTile s x y ch col bg z bp fd).1.worldHeight = s.worldHeight := by
  simp only [createTile]
  rw [renderIfAuto_worldHeight, setTileInCell_worldHeight]

theorem gridWF_createTile {s : Display} (x y : Int) (ch col bg : String) (z : Int)
    (bp : ℚ) (fd : FillDirection) (h : gridWF s = true) :
    gridWF (createTile s x y ch col bg z bp fd).1 = true := by
  simp only [createTile]
  exact gridWF_renderIfAuto (gridWF_setTileInCell _ h)

/-- Witness for C4 amended, at a 3×3 world and position `(-1, 0)`. -/
theorem createTile_oob_registers_witness :
    ((createTile (initDisplay 3 3 3 3 false) (-1) 0 "a" "#FFFFFFFF" "#000000FF" 1 1
        FillDirection.BOTTOM).1.cells = (initDisplay 3 3 3 3 false).cells) ∧
    ((createTile (initDisplay 3 3 3 3 false) (-1) 0 "a" "#FFFFFFFF" "#000000FF" 1 1
        FillDirection.BOTTOM).1.dirtyRects = (initDisplay 3 3 3 3 false).dirtyRects) ∧
    ((createTile (initDisplay 3 3 3 3 false) (-1) 0 "a" "#FFFFFFFF" "#000000FF" 1 1
        FillDirection.BOTTOM).1.warnings = (initDisplay 3 3 3 3 false).warnings) ∧
    ((createTile (initDisplay 3 3 3 3 false) (-1) 0 "a" "#FFFFFFFF" "#000000FF" 1 1
        FillDirection.BOTTOM).1.tileMap = (initDisplay 3 3 3 3 false).tileMap ++
      [{ id := (initDisplay 3 3 3 3 false).tileIdCounter, x := -1, y := 0, char := "a",
         color := "#FFFFFFFF", backgroundColor := "#000000FF", zIndex := 1, bgPercent := 1,
         fillDirection := FillDirection.BOTTOM }]) ∧
    ((createTile (initDisplay 3 3 3 3 false) (-1) 0 "a" "#FFFFFFFF" "#000000FF" 1 1
        FillDirection.BOTTOM).2 = (initDisplay 3 3 3 3 false).tileIdCounter) :=
  createTile_oob_registers_without_diagnostic (initDisplay 3 3 3 3 false) (-1) 0
    "a" "#FFFFFFFF" "#000000FF" 1 1 FillDirection.BOTTOM (by decide) rfl

/-! ### Occurrence bookkeeping across the grid -/

theorem sum_le_of_getElem? {α : Type _} (f : α → Nat) :
    ∀ (l : List α) (i : Nat) (a : α), l[i]? = some a → f a ≤ (l.map f).sum := by
  intro l
  induction l with
  | nil => intro i a h; simp at h
  | cons x l ih =>
    intro i a h
    cases i with
    | zero =>
      simp only [List.getElem?_cons_zero, Option.some.injEq] at h
      subst h
      simp
    | succ n =>
      simp only [List.getElem?_cons_succ] at h
      have := ih n a h
      simp only [List.map_cons, List.sum_cons]
      omega

theorem sum_pair_le_of_getElem? {α : Type _} (f : α → Nat) :
    ∀ (l : List α) (i j : Nat) (a b : α), i ≠ j → l[i]? = some a → l[j]? = some b →
      f a + f b ≤ (l.map f).sum := by
  intro l
  induction l with
  | nil => intro i j a b _ h; simp at h
  | cons x l ih =>
    intro i j a b hij ha hb
    cases i with
    | zero =>
      simp only [List.getElem?_cons_zero, Option.some.injEq] at ha
      subst ha
      cases j with
      | zero => exact absurd rfl hij
      | succ n =>
        simp only [List.getElem?_cons_succ] at hb
        have := sum_le_of_getElem? f l n b hb
        simp only [List.map_cons, List.sum_cons]
        omega
    | succ m =>
      cases j with
      | zero =>
        simp only [List.getElem?_cons_zero, Option.some.injEq] at hb
        subst hb
        simp only [List.getElem?_cons_succ] at ha
        have := sum_le_of_getElem? f l m a ha
        simp only [List.map_cons, List.sum_cons]
        omega
      | succ n =>
        simp only [List.getElem?_cons_succ] at ha hb
        have := ih m n a b (by omega) ha hb
        simp only [List.map_cons, List.sum_cons]
        omega

theorem cellAt_natCast (s : Display) (i j : Nat) :
    cellAt s (j : Int) (i : Int) = (s.cells.get? i).bind (fun row => row.get? j) := by
  unfold cellAt
  rw [if_pos ⟨Int.natCast_nonneg i, Int.natCast_nonneg j⟩, Int.toNat_natCast, Int.toNat_natCast]

theorem occ_le_occRow {row : List Cell} {j : Nat} {c : Cell} (h : row[j]? = some c)
    (tileId : Nat) : occ c.tiles tileId ≤ occRow row tileId :=
  sum_le_of_getElem? (fun c => occ c.tiles tileId) row j c h

theorem occRow_le_occGrid {s : Display} {i : Nat} {row : List Cell} (h : s.cells[i]? = some row)
    (tileId : Nat) : occRow row tileId ≤ occGrid s tileId :=
  sum_le_of_getElem? (fun row => occRow row tileId) s.cells i row h

theorem occ_le_occGrid {s : Display} {x y : Int} {c : Cell} (h : cellAt s x y = some c)
    (tileId : Nat) : occ c.tiles tileId ≤ occGrid s tileId := by
  unfold cellAt at h
  split at h
  · obtain ⟨row, hrow, hc⟩ := Option.bind_eq_some.mp h
    rw [List.get?_eq_getElem?] at hrow hc
    exact le_trans (occ_le_occRow hc tileId) (occRow_le_occGrid hrow tileId)
  · exact absurd h (by simp)

/-- When every occurrence of `tileId` lives in cell `(x, y)`, every other
cell holds none. -/
theorem occ_other_zero {s : Display} {tileId : Nat} {x y : Int} {c : Cell}
    (hc : cellAt s x y = some c) (hall : occGrid s tileId = occ c.tiles tileId) :
    ∀ x' y' c', cellAt s x' y' = some c' → ¬(x' = x ∧ y' = y) → occ c'.tiles tileId = 0 := by
  intro x' y' c' hc' hne
  unfold cellAt at hc hc'
  split at hc <;> [skip; exact absurd hc (by simp)]
  split at hc' <;> [skip; exact absurd hc' (by simp)]
  rename_i hxy hxy'
  obtain ⟨row, hrow, hcol⟩ := Option.bind_eq_some.mp hc
  obtain ⟨row', hrow', hcol'⟩ := Option.bind_eq_some.mp hc'
  rw [List.get?_eq_getElem?] at hrow hcol hrow' hcol'
  by_cases hy : y'.toNat = y.toNat
  · have hyy : y' = y := by omega
    have hxx : x'.toNat ≠ x.toNat := by
      intro hEq
      exact hne ⟨by omega, hyy⟩
    rw [hy, hrow] at hrow'
    have hrr : row = row' := by simpa using hrow'
    subst hrr
    have hp := sum_pair_le_of_getElem? (fun cc => occ cc.tiles tileId) row
      x.toNat x'.toNat c c' (fun hEq => hxx hEq.symm) hcol hcol'
    simp only at hp
    have h1 := occRow_le_occGrid hrow tileId
    unfold occRow at h1
    omega
  · have hp := sum_pair_le_of_getElem? (fun r => occRow r tileId) s.cells
      y.toNat y'.toNat row row' (fun hEq => hy hEq.symm) hrow hrow'
    simp only at hp
    have h1 := occ_le_occRow hcol tileId
    have h2 := occ_le_occRow hcol' tileId
    unfold occGrid at hall
    omega

theorem cellAt_eq_of_cells {s s' : Display} (h : s'.cells = s.cells) (x y : Int) :
    cellAt s' x y = cellAt s x y := by
  unfold cellAt
  rw [h]

/-- If no cell holds an occurrence of `tileId`, replacing the shared tile
object leaves every cell array untouched. -/
theorem replaceTileEverywhere_cells_id {s : Display} {tileId : Nat}
    (h : ∀ x y c, cellAt s x y = some c → occ c.tiles tileId = 0) (t' : Tile) :
    (replaceTileEverywhere s tileId t').cells = s.cells := by
  show s.cells.map _ = s.cells
  apply List.ext_getElem?
  intro i
  rw [List.getElem?_map]
  cases hrow : s.cells[i]? with
  | none => rfl
  | some row =>
    show some _ = some row
    congr 1
    apply List.ext_getElem?
    intro j
    rw [List.getElem?_map]
    cases hcell : row[j]? with
    | none => rfl
    | some c =>
      show some _ = some c
      have hc : cellAt s (j : Int) (i : Int) = some c := by
        rw [cellAt_natCast, List.get?_eq_getElem?, hrow]
        simp only [Option.some_bind]
        rw [List.get?_eq_getElem?, hcell]
      have h0 := h _ _ _ hc
      simp only
      rw [replaceTile_of_occ_zero h0]

/-! ### `moveTile` and `setTileInCell` unfoldings -/

theorem inBounds_iff {s : Display} {x y : Int} :
    inBounds s x y = true ↔ 0 ≤ x ∧ x < s.worldWidth ∧ 0 ≤ y ∧ y < s.worldHeight := by
  unfold inBounds
  simp only [Bool.and_eq_true, decide_eq_true_eq]
  tauto

theorem setTileInCell_eq {s : Display} {t : Tile} {c : Cell}
    (hb : inBounds s t.x t.y = true) (hc : cellAt s t.x t.y = some c) :
    setTileInCell s t =
      addDirty (setCell s t.x t.y { c with tiles := insertTileZ t c.tiles, isDirty := true })
        (t.x, t.y) := by
  unfold setTileInCell
  rw [if_pos hb, hc]

theorem moveTile_pos_eq {s : Display} {tileId : Nat} {nx ny : Int} {t : Tile} {oc : Cell}
    (hlook : lookupTile s tileId = some t)
    (hb : ¬(nx < 0 ∨ nx ≥ s.worldWidth ∨ ny < 0 ∨ ny ≥ s.worldHeight))
    (hoc : cellAt s t.x t.y = some oc) :
    moveTile s tileId nx ny = some (renderIfAuto (setTileInCell
      (replaceTileEverywhere
        (addDirty (setCell s t.x t.y
          { oc with tiles := oc.tiles.filter (fun u => u.id != tileId), isDirty := true })
          (t.x, t.y))
        tileId { t with x := nx, y := ny })
      { t with x := nx, y := ny })) := by
  unfold moveTile
  rw [hlook]
  simp only [if_neg hb]
  have hoc2 : cellAt s t.x t.y = some oc := hoc
  rw [hoc2]

theorem moveTile_unknown {s : Display} {tileId : Nat} (nx ny : Int)
    (h : lookupTile s tileId = none) : moveTile s tileId nx ny = some (warn s) := by
  unfold moveTile
  rw [h]

theorem moveTile_oob {s : Display} {tileId : Nat} {nx ny : Int} {t : Tile}
    (hlook : lookupTile s tileId = some t) (hb : inBounds s nx ny = false) :
    moveTile s tileId nx ny = some (warn s) := by
  unfold moveTile
  rw [hlook]
  have : nx < 0 ∨ nx ≥ s.worldWidth ∨ ny < 0 ∨ ny ≥ s.worldHeight := by
    by_contra hcon
    rw [inBounds_iff.mpr (by omega)] at hb
    exact Bool.noConfusion hb
  simp only [if_pos this]

theorem tilesAt_of_cellAt {s : Display} {x y : Int} {c : Cell} (h : cellAt s x y = some c) :
    tilesAt s x y = c.tiles := by
  unfold tilesAt
  rw [h]
  rfl

theorem tilesAt_eq_of_cells {s s' : Display} (h : s'.cells = s.cells) (x y : Int) :
    tilesAt s' x y = tilesAt s x y := by
  unfold tilesAt
  rw [cellAt_eq_of_cells h]

theorem tilesAt_congr {s s' : Display} {x y : Int} (h : cellAt s' x y = cellAt s x y) :
    tilesAt s' x y = tilesAt s x y := by
  unfold tilesAt
  rw [h]

/-- Full characterization of a successful `moveTile` call: old cell
filtered, stored position updated, z-ordered insertion at the
destination, both coordinates dirtied, nothing else touched. -/
theorem moveTile_char {s : Display} {tileId : Nat} {nx ny : Int} {t : Tile}
    (hwf : gridWF s = true)
    (hlook : lookupTile s tileId = some t)
    (hdst : inBounds s nx ny = true)
    (hsrc : inBounds s t.x t.y = true)
    (hall : occGrid s tileId = occ (tilesAt s t.x t.y) tileId) :
    ∃ s', moveTile s tileId nx ny = some s' ∧
      s'.tileMap = replaceTile tileId { t with x := nx, y := ny } s.tileMap ∧
      lookupTile s' tileId = some { t with x := nx, y := ny } ∧
      ((nx, ny) = (t.x, t.y) →
        tilesAt s' nx ny =
          insertTileZ { t with x := nx, y := ny }
            ((tilesAt s t.x t.y).filter (fun u => u.id != tileId))) ∧
      ((nx, ny) ≠ (t.x, t.y) →
        tilesAt s' t.x t.y = (tilesAt s t.x t.y).filter (fun u => u.id != tileId) ∧
        tilesAt s' nx ny = insertTileZ { t with x := nx, y := ny } (tilesAt s nx ny)) ∧
      (∀ qx qy : Int, ¬(qx = t.x ∧ qy = t.y) → ¬(qx = nx ∧ qy = ny) →
        tilesAt s' qx qy = tilesAt s qx qy) ∧
      (s.autoRender = false → ∀ p : Int × Int,
        (p ∈ s'.dirtyRects ↔ p ∈ s.dirtyRects ∨ p = (t.x, t.y) ∨ p = (nx, ny))) ∧
      s'.warnings = s.warnings := by
  have hoc := cellAt_isSome_of_WF hwf hsrc
  obtain ⟨oc, hoc⟩ := Option.isSome_iff_exists.mp hoc
  have htiles : tilesAt s t.x t.y = oc.tiles := tilesAt_of_cellAt hoc
  have hbnot : ¬(nx < 0 ∨ nx ≥ s.worldWidth ∨ ny < 0 ∨ ny ≥ s.worldHeight) := by
    have := inBounds_iff.mp hdst
    omega
  have htid : t.id = tileId := lookupTile_id hlook
  rw [moveTile_pos_eq hlook hbnot hoc]
  set t' : Tile := { t with x := nx, y := ny } with ht'
  set fc : Cell :=
    { oc with tiles := oc.tiles.filter (fun u => u.id != tileId), isDirty := true } with hfc
  set s1 : Display := setCell s t.x t.y fc with hs1
  set s2 : Display := addDirty s1 (t.x, t.y) with hs2
  set s3 : Display := replaceTileEverywhere s2 tileId t' with hs3
  have hs2cells : s2.cells = s1.cells := addDirty_cells _ _
  have hzero : ∀ x y c, cellAt s2 x y = some c → occ c.tiles tileId = 0 := by
    intro x' y' c' hc'
    rw [cellAt_eq_of_cells hs2cells] at hc'
    by_cases hxy' : x' = t.x ∧ y' = t.y
    · obtain ⟨rfl, rfl⟩ := hxy'
      rw [cellAt_setCell_same hoc fc] at hc'
      have : fc = c' := by simpa using hc'
      subst this
      exact occ_filter_ne _ _
    · rw [cellAt_setCell_ne s t.x t.y x' y' fc hxy'] at hc'
      exact occ_other_zero hoc (htiles ▸ hall) x' y' c' hc' hxy'
  have hs3cells : s3.cells = s2.cells := replaceTileEverywhere_cells_id hzero t'
  have hs3map : s3.tileMap = replaceTile tileId t' s.tileMap := by
    rw [hs3, replaceTileEverywhere_tileMap, hs2, addDirty_tileMap, hs1, setCell_tileMap]
  have hs3ww : s3.worldWidth = s.worldWidth := by
    rw [hs3, replaceTileEverywhere_worldWidth, hs2, addDirty_worldWidth, hs1, setCell_worldWidth]
  have hs3wh : s3.worldHeight = s.worldHeight := by
    rw [hs3, replaceTileEverywhere_worldHeight, hs2, addDirty_worldHeight, hs1, setCell_worldHeight]
  have hb3 : inBounds s3 nx ny = true := by
    rw [inBounds_eq_of_dims hs3ww hs3wh]
    exact hdst
  -- the destination cell before the final insertion
  have hdcEx : ∃ dc, cellAt s3 nx ny = some dc ∧
      ((nx, ny) = (t.x, t.y) → dc = fc) ∧
      ((nx, ny) ≠ (t.x, t.y) → cellAt s nx ny = some dc) := by
    by_cases hsame : (nx, ny) = (t.x, t.y)
    · have hx : nx = t.x := congrArg Prod.fst hsame
      have hy : ny = t.y := congrArg Prod.snd hsame
      refine ⟨fc, ?_, fun _ => rfl, fun hne => absurd hsame hne⟩
      rw [cellAt_eq_of_cells hs3cells, cellAt_eq_of_cells hs2cells, hs1, hx, hy]
      exact cellAt_setCell_same hoc fc
    · have hne2 : ¬(nx = t.x ∧ ny = t.y) := by
        rintro ⟨h1, h2⟩
        exact hsame (by rw [h1, h2])
      have hq := cellAt_isSome_of_WF hwf hdst
      obtain ⟨dc, hdc0⟩ := Option.isSome_iff_exists.mp hq
      refine ⟨dc, ?_, fun hcon => absurd hcon hsame, fun _ => hdc0⟩
      rw [cellAt_eq_of_cells hs3cells, cellAt_eq_of_cells hs2cells, hs1,
        cellAt_setCell_ne s t.x t.y nx ny fc hne2]
      exact hdc0
  obtain ⟨dc, hdc, hdcSame, hdcNe⟩ := hdcEx
  have hsic : setTileInCell s3 t' =
      addDirty (setCell s3 nx ny { dc with tiles := insertTileZ t' dc.tiles, isDirty := true })
        (nx, ny) :=
    setTileInCell_eq hb3 hdc
  refine ⟨_, rfl, ?_, ?_, ?_, ?_, ?_, ?_, ?_⟩
  · -- tileMap
    rw [renderIfAuto_tileMap, setTileInCell_tileMap, hs3map]
  · -- lookup of the moved tile
    show lookupTile _ tileId = some t'
    unfold lookupTile
    rw [renderIfAuto_tileMap, setTileInCell_tileMap, hs3map]
    exact find?_id_replaceTile hlook (by rw [ht']; exact htid)
  · -- same-cell move: re-inserted into the filtered old cell
    intro hsame
    have hdceq := hdcSame hsame
    rw [hsic,
      tilesAt_eq_of_cells (renderIfAuto_cells _) nx ny,
      tilesAt_eq_of_cells (addDirty_cells _ _) nx ny,
      tilesAt_of_cellAt (cellAt_setCell_same hdc _),
      hdceq, hfc, htiles]
  · -- distinct-cell move: old cell filtered, destination cell gains the tile
    intro hne
    have hneOld : ¬(t.x = nx ∧ t.y = ny) := by
      rintro ⟨h1, h2⟩
      exact hne (by rw [h1, h2])
    constructor
    · rw [hsic,
        tilesAt_eq_of_cells (renderIfAuto_cells _) t.x t.y,
        tilesAt_eq_of_cells (addDirty_cells _ _) t.x t.y,
        tilesAt_congr (cellAt_setCell_ne s3 nx ny t.x t.y _ hneOld),
        tilesAt_eq_of_cells hs3cells t.x t.y,
        tilesAt_eq_of_cells hs2cells t.x t.y, hs1,
        tilesAt_of_cellAt (cellAt_setCell_same hoc fc),
        hfc, htiles]
    · rw [hsic,
        tilesAt_eq_of_cells (renderIfAuto_cells _) nx ny,
        tilesAt_eq_of_cells (addDirty_cells _ _) nx ny,
        tilesAt_of_cellAt (cellAt_setCell_same hdc _),
        tilesAt_of_cellAt (hdcNe hne)]
  · -- every other cell untouched
    intro qx qy hold hnew
    rw [hsic,
      tilesAt_eq_of_cells (renderIfAuto_cells _) qx qy,
      tilesAt_eq_of_cells (addDirty_cells _ _) qx qy,
      tilesAt_congr (cellAt_setCell_ne s3 nx ny qx qy _ hnew),
      tilesAt_eq_of_cells hs3cells qx qy,
      tilesAt_eq_of_cells hs2cells qx qy, hs1,
      tilesAt_congr (cellAt_setCell_ne s t.x t.y qx qy fc hold)]
  · -- dirty set gains exactly the old and new coordinates (observable
    -- when auto-render is off)
    intro ha p
    have hs3auto : s3.autoRender = false := by
      rw [hs3, replaceTileEverywhere_autoRender, hs2, addDirty_autoRender, hs1, setCell_autoRender]
      exact ha
    have hautoF : (addDirty (setCell s3 nx ny
        { dc with tiles := insertTileZ t' dc.tiles, isDirty := true }) (nx, ny)).autoRender =
        false := by
      rw [addDirty_autoRender, setCell_autoRender]
      exact hs3auto
    rw [hsic, renderIfAuto_of_off _ hautoF, mem_addDirty, setCell_dirtyRects, hs3,
      replaceTileEverywhere_dirtyRects, hs2, mem_addDirty, hs1, setCell_dirtyRects]
    tauto
  · -- no diagnostic on the success path
    rw [renderIfAuto_warnings, setTileInCell_warnings, hs3, replaceTileEverywhere_warnings,
      hs2, addDirty_warnings, hs1, setCell_warnings]

/-! ### Claim C3: the `moveTile` contract -/

/-- **C3 counterexample.** Tile id 0 is known to the tile index (it was
created, out of bounds, at `(-1, 0)`) and the destination `(0, 0)` is in
bounds, yet `moveTile` neither performs the documented move nor the
documented no-op: reading `cells[0][-1]` throws (`none`). -/
theorem moveTile_known_id_in_bounds_dest_throws :
    ((getTile (createTile (initDisplay 3 3 3 3 false) (-1) 0 "a" "#FFFFFFFF" "#000000FF" 1 1
        FillDirection.BOTTOM).1 0).isSome = true) ∧
    (inBounds (createTile (initDisplay 3 3 3 3 false) (-1) 0 "a" "#FFFFFFFF" "#000000FF" 1 1
        FillDirection.BOTTOM).1 0 0 = true) ∧
    (moveTile (createTile (initDisplay 3 3 3 3 false) (-1) 0 "a" "#FFFFFFFF" "#000000FF" 1 1
        FillDirection.BOTTOM).1 0 0 0 = none) := by
  refine ⟨by decide, by decide, by decide⟩

/-- **C3 amended.** For every tileId known to the tile index *whose
stored position lies inside the world grid* and every in-bounds
destination, `moveTile` removes the tile from its old cell's list,
stores the new position, re-inserts at the z-order-preserving position
of the destination cell, and adds both old and new coordinates to the
dirty set (observed with auto-render off), leaving every other cell, the
rest of the index, and the warning count untouched; if the id is unknown
or the destination is out of bounds it is a no-op except for one
diagnostic.  (Tiles with out-of-bounds stored positions instead throw —
see the counterexample.) -/
theorem moveTile_contract :
    (∀ (s : Display) (tileId : Nat) (nx ny : Int) (t : Tile),
      gridWF s = true → s.autoRender = false →
      lookupTile s tileId = some t →
      inBounds s nx ny = true → inBounds s t.x t.y = true →
      occGrid s tileId = occ (tilesAt s t.x t.y) tileId →
      ∃ s', moveTile s tileId nx ny = some s' ∧
        lookupTile s' tileId = some { t with x := nx, y := ny } ∧
        ((nx, ny) = (t.x, t.y) →
          tilesAt s' nx ny =
            insertTileZ { t with x := nx, y := ny }
              ((tilesAt s t.x t.y).filter (fun u => u.id != tileId))) ∧
        ((nx, ny) ≠ (t.x, t.y) →
          tilesAt s' t.x t.y = (tilesAt s t.x t.y).filter (fun u => u.id != tileId) ∧
          tilesAt s' nx ny = insertTileZ { t with x := nx, y := ny } (tilesAt s nx ny)) ∧
        (∀ qx qy : Int, ¬(qx = t.x ∧ qy = t.y) → ¬(qx = nx ∧ qy = ny) →
          tilesAt s' qx qy = tilesAt s qx qy) ∧
        (∀ p : Int × Int, p ∈ s'.dirtyRects ↔ p ∈ s.dirtyRects ∨ p = (t.x, t.y) ∨ p = (nx, ny)) ∧
        s'.warnings = s.warnings) ∧
    (∀ (s : Display) (tileId : Nat) (nx ny : Int),
      lookupTile s tileId = none → moveTile s tileId nx ny = some (warn s)) ∧
    (∀ (s : Display) (tileId : Nat) (nx ny : Int) (t : Tile),
      lookupTile s tileId = some t → inBounds s nx ny = false →
      moveTile s tileId nx ny = some (warn s)) := by
  refine ⟨?_, ?_, ?_⟩
  · intro s tileId nx ny t hwf ha hlook hdst hsrc hall
    obtain ⟨s', h1, _, h3, h4, h5, h6, h7, h8⟩ := moveTile_char hwf hlook hdst hsrc hall
    exact ⟨s', h1, h3, h4, h5, h6, h7 ha, h8⟩
  · intro s tileId nx ny h
    exact moveTile_unknown nx ny h
  · intro s tileId nx ny t hlook hb
    exact moveTile_oob hlook hb

/-- A 3×3 world (auto-render off) holding one tile, id 0, at `(0, 0)`. -/
def moveDemo : Display :=
  (createTile (initDisplay 3 3 3 3 false) 0 0 "a" "#FFFFFFFF" "#000000FF" 1 1
    FillDirection.BOTTOM).1

/-- The tile stored in `moveDemo`. -/
def moveDemoTile : Tile :=
  { id := 0, x := 0, y := 0, char := "a", color := "#FFFFFFFF",
    backgroundColor := "#000000FF", zIndex := 1, bgPercent := 1,
    fillDirection := FillDirection.BOTTOM }

/-- Witness for C3: a successful move from `(0, 0)` to `(1, 1)`, a
no-op on the unknown id 99, and a no-op on the out-of-bounds destination
`(5, 5)`. -/
theorem moveTile_contract_witness :
    (∃ s', moveTile moveDemo 0 1 1 = some s' ∧
      lookupTile s' 0 = some { moveDemoTile with x := 1, y := 1 } ∧
      (((1 : Int), (1 : Int)) = (moveDemoTile.x, moveDemoTile.y) →
        tilesAt s' 1 1 = insertTileZ { moveDemoTile with x := 1, y := 1 }
          ((tilesAt moveDemo moveDemoTile.x moveDemoTile.y).filter (fun u => u.id != 0))) ∧
      (((1 : Int), (1 : Int)) ≠ (moveDemoTile.x, moveDemoTile.y) →
        tilesAt s' moveDemoTile.x moveDemoTile.y =
          (tilesAt moveDemo moveDemoTile.x moveDemoTile.y).filter (fun u => u.id != 0) ∧
        tilesAt s' 1 1 =
          insertTileZ { moveDemoTile with x := 1, y := 1 } (tilesAt moveDemo 1 1)) ∧
      (∀ qx qy : Int, ¬(qx = moveDemoTile.x ∧ qy = moveDemoTile.y) → ¬(qx = 1 ∧ qy = 1) →
        tilesAt s' qx qy = tilesAt moveDemo qx qy) ∧
      (∀ p : Int × Int, p ∈ s'.dirtyRects ↔
        p ∈ moveDemo.dirtyRects ∨ p = (moveDemoTile.x, moveDemoTile.y) ∨ p = (1, 1)) ∧
      s'.warnings = moveDemo.warnings) ∧
    moveTile moveDemo 99 1 1 = some (warn moveDemo) ∧
    moveTile moveDemo 0 5 5 = some (warn moveDemo) := by
  refine ⟨?_, ?_, ?_⟩
  · exact moveTile_contract.1 moveDemo 0 1 1 moveDemoTile (by decide) (by decide) (by decide)
      (by decide) (by decide) (by decide)
  · exact moveTile_contract.2.1 moveDemo 99 1 1 (by decide)
  · exact moveTile_contract.2.2 moveDemo 0 5 5 moveDemoTile (by decide) (by decide)

/-! ### Per-move lemmas for the text-layout loops -/

theorem createTile_fst_tileIdCounter (s : Display) (x y : Int) (ch col bg : String) (z : Int)
    (bp : ℚ) (fd : FillDirection) :
    (createTile s x y ch col bg z bp fd).1.tileIdCounter = s.tileIdCounter + 1 := by
  simp only [createTile]
  rw [renderIfAuto_tileIdCounter, setTileInCell_tileIdCounter]

theorem createTile_fst_autoRender (s : Display) (x y : Int) (ch col bg : String) (z : Int)
    (bp : ℚ) (fd : FillDirection) :
    (createTile s x y ch col bg z bp fd).1.autoRender = s.autoRender := by
  simp only [createTile]
  rw [renderIfAuto_autoRender, setTileInCell_autoRender]

theorem createTile_snd (s : Display) (x y : Int) (ch col bg : String) (z : Int)
    (bp : ℚ) (fd : FillDirection) :
    (createTile s x y ch col bg z bp fd).2 = s.tileIdCounter := rfl

theorem find?_id_append_ne {l : List Tile} {t : Tile} {i : Nat} (h : t.id ≠ i) :
    (l ++ [t]).find? (fun u => u.id == i) = l.find? (fun u => u.id == i) := by
  induction l with
  | nil =>
    show List.find? _ [t] = none
    rw [List.find?_cons_of_neg _ (by simpa using h)]
    rfl
  | cons u l ih =>
    by_cases hu : (u.id == i) = true
    · rw [List.cons_append, List.find?_cons, List.find?_cons, hu]
    · rw [Bool.not_eq_true] at hu
      rw [List.cons_append, List.find?_cons, List.find?_cons, hu]
      exact ih

theorem find?_id_replaceTile_ne {l : List Tile} {i i' : Nat} {t' : Tile} (ht' : t'.id = i)
    (hne : i' ≠ i) :
    (replaceTile i t' l).find? (fun u => u.id == i') = l.find? (fun u => u.id == i') := by
  induction l with
  | nil => rfl
  | cons u l ih =>
    unfold replaceTile at ih ⊢
    simp only [List.map_cons]
    by_cases hu : u.id = i
    · rw [if_pos hu]
      have h1 : (t'.id == i') = false := by rw [beq_eq_false_iff_ne, ht']; omega
      have h2 : (u.id == i') = false := by rw [beq_eq_false_iff_ne, hu]; omega
      rw [List.find?_cons, List.find?_cons, h1, h2]
      exact ih
    · rw [if_neg hu]
      by_cases hui : (u.id == i') = true
      · rw [List.find?_cons, List.find?_cons, hui]
      · rw [Bool.not_eq_true] at hui
        rw [List.find?_cons, List.find?_cons, hui]
        exact ih

theorem gridWF_replaceTileEverywhere {s : Display} (i : Nat) (t' : Tile)
    (h : gridWF s = true) : gridWF (replaceTileEverywhere s i t') = true := by
  unfold gridWF at h ⊢
  simp only [Bool.and_eq_true, beq_iff_eq, List.all_eq_true] at h ⊢
  obtain ⟨hlen, hrows⟩ := h
  refine ⟨?_, ?_⟩
  · show (s.cells.map _).length = _
    rw [List.length_map]
    exact hlen
  · intro r hr
    show r.length = _
    obtain ⟨row, hrow, rfl⟩ := List.mem_map.mp hr
    rw [List.length_map]
    exact hrows row hrow

theorem moveTile_lookup_self {s : Display} {tileId : Nat} {nx ny : Int} {t : Tile}
    (hwf : gridWF s = true) (hlook : lookupTile s tileId = some t)
    (hdst : inBounds s nx ny = true) (hsrc : inBounds s t.x t.y = true) :
    ∃ s', moveTile s tileId nx ny = some s' ∧
      lookupTile s' tileId = some { t with x := nx, y := ny } ∧
      (∀ i', i' ≠ tileId → lookupTile s' i' = lookupTile s i') ∧
      gridWF s' = true ∧ s'.worldWidth = s.worldWidth ∧ s'.worldHeight = s.worldHeight ∧
      s'.tileIdCounter = s.tileIdCounter ∧ s'.autoRender = s.autoRender := by
  have htid : t.id = tileId := lookupTile_id hlook
  obtain ⟨oc, hoc⟩ := Option.isSome_iff_exists.mp (cellAt_isSome_of_WF hwf hsrc)
  have hbnot : ¬(nx < 0 ∨ nx ≥ s.worldWidth ∨ ny < 0 ∨ ny ≥ s.worldHeight) := by
    have := inBounds_iff.mp hdst
    omega
  rw [moveTile_pos_eq hlook hbnot hoc]
  refine ⟨_, rfl, ?_, ?_, ?_, ?_, ?_, ?_, ?_⟩
  · unfold lookupTile
    rw [renderIfAuto_tileMap, setTileInCell_tileMap, replaceTileEverywhere_tileMap,
      addDirty_tileMap, setCell_tileMap]
    exact find?_id_replaceTile hlook htid
  · intro i' hi'
    unfold lookupTile
    rw [renderIfAuto_tileMap, setTileInCell_tileMap, replaceTileEverywhere_tileMap,
      addDirty_tileMap, setCell_tileMap]
    exact find?_id_replaceTile_ne htid hi'
  · exact gridWF_renderIfAuto (gridWF_setTileInCell _
      (gridWF_replaceTileEverywhere _ _ (by
        rw [gridWF_eq_of (addDirty_cells _ _) (addDirty_worldWidth _ _) (addDirty_worldHeight _ _)]
        exact gridWF_setCell _ _ _ hwf)))
  · rw [renderIfAuto_worldWidth, setTileInCell_worldWidth, replaceTileEverywhere_worldWidth,
      addDirty_worldWidth, setCell_worldWidth]
  · rw [renderIfAuto_worldHeight, setTileInCell_worldHeight, replaceTileEverywhere_worldHeight,
      addDirty_worldHeight, setCell_worldHeight]
  · rw [renderIfAuto_tileIdCounter, setTileInCell_tileIdCounter,
      replaceTileEverywhere_tileIdCounter, addDirty_tileIdCounter, setCell_tileIdCounter]
  · rw [renderIfAuto_autoRender, setTileInCell_autoRender, replaceTileEverywhere_autoRender,
      addDirty_autoRender, setCell_autoRender]

theorem moveTile_samepos_step {d : Display} {tileId : Nat} {t : Tile}
    (hwf : gridWF d = true) (hlook : lookupTile d tileId = some t) (nx ny : Int)
    (hx : t.x = nx) (hy : t.y = ny) :
    ∃ d', moveTile d tileId nx ny = some d' ∧
      gridWF d' = true ∧ d'.worldWidth = d.worldWidth ∧ d'.worldHeight = d.worldHeight ∧
      d'.tileIdCounter = d.tileIdCounter ∧ d'.autoRender = d.autoRender ∧
      (∀ i u, lookupTile d i = some u →
        ∃ u', lookupTile d' i = some u' ∧ u'.x = u.x ∧ u'.y = u.y) := by
  by_cases hb : inBounds d nx ny = true
  · have hsrc : inBounds d t.x t.y = true := by rw [hx, hy]; exact hb
    obtain ⟨d', h1, h2, h3, h4, h5, h6, h7, h8⟩ := moveTile_lookup_self hwf hlook hb hsrc
    refine ⟨d', h1, h4, h5, h6, h7, h8, ?_⟩
    intro i u hu
    by_cases hi : i = tileId
    · subst hi
      rw [hu] at hlook
      have : t = u := by simpa using hlook.symm
      subst this
      exact ⟨{ t with x := nx, y := ny }, h2, by rw [hx], by rw [hy]⟩
    · exact ⟨u, by rw [h3 i hi]; exact hu, rfl, rfl⟩
  · rw [moveTile_oob hlook (by simpa using hb)]
    exact ⟨warn d, rfl, hwf, rfl, rfl, rfl, rfl, fun i u hu => ⟨u, hu, rfl, rfl⟩⟩

/-- The per-character creation loop of a word: appends `|cs|` fresh ids,
creates one tile per character at consecutive columns starting from
`cx + |acc0|`, and leaves previously indexed tiles untouched. -/
theorem wrapCreate_fold_spec (cy zi : Int) (tbg color : String) (cx : Int) :
    ∀ (cs : List Char) (d0 : Display) (acc0 : List Nat),
      gridWF d0 = true →
      (∀ u ∈ d0.tileMap, u.id < d0.tileIdCounter) →
      ((cs.foldl (wrapCreateStep cy zi tbg color cx) (d0, acc0)).2 =
        acc0 ++ (List.range cs.length).map (fun k => d0.tileIdCounter + k)) ∧
      ((cs.foldl (wrapCreateStep cy zi tbg color cx) (d0, acc0)).1.tileIdCounter =
        d0.tileIdCounter + cs.length) ∧
      ((cs.foldl (wrapCreateStep cy zi tbg color cx) (d0, acc0)).1.worldWidth = d0.worldWidth) ∧
      ((cs.foldl (wrapCreateStep cy zi tbg color cx) (d0, acc0)).1.worldHeight = d0.worldHeight) ∧
      ((cs.foldl (wrapCreateStep cy zi tbg color cx) (d0, acc0)).1.autoRender = d0.autoRender) ∧
      (gridWF (cs.foldl (wrapCreateStep cy zi tbg color cx) (d0, acc0)).1 = true) ∧
      (∀ u ∈ (cs.foldl (wrapCreateStep cy zi tbg color cx) (d0, acc0)).1.tileMap,
        u.id < (cs.foldl (wrapCreateStep cy zi tbg color cx) (d0, acc0)).1.tileIdCounter) ∧
      (∀ k : Nat, k < cs.length →
        ∃ u, lookupTile (cs.foldl (wrapCreateStep cy zi tbg color cx) (d0, acc0)).1
            (d0.tileIdCounter + k) = some u ∧
          u.x = cx + ((acc0.length : Int) + (k : Int)) ∧ u.y = cy) ∧
      (∀ i : Nat, i < d0.tileIdCounter →
        lookupTile (cs.foldl (wrapCreateStep cy zi tbg color cx) (d0, acc0)).1 i =
          lookupTile d0 i) := by
  intro cs
  induction cs with
  | nil =>
    intro d0 acc0 hwf hfresh
    refine ⟨by simp, by simp, rfl, rfl, rfl, hwf, hfresh, ?_, fun i _ => rfl⟩
    intro k hk
    exact absurd hk (by simp)
  | cons c cs ih =>
    intro d0 acc0 hwf hfresh
    rw [List.foldl_cons]
    have hstep : wrapCreateStep cy zi tbg color cx (d0, acc0) c =
        ((createTile d0 (cx + (acc0.length : Int)) cy (String.singleton c) color tbg zi 1
          FillDirection.BOTTOM).1, acc0 ++ [d0.tileIdCounter]) := rfl
    rw [hstep]
    have hmap1 := createTile_fst_tileMap d0 (cx + (acc0.length : Int)) cy
      (String.singleton c) color tbg zi 1 FillDirection.BOTTOM
    have hcnt1 := createTile_fst_tileIdCounter d0 (cx + (acc0.length : Int)) cy
      (String.singleton c) color tbg zi 1 FillDirection.BOTTOM
    have hww1 := createTile_fst_worldWidth d0 (cx + (acc0.length : Int)) cy
      (String.singleton c) color tbg zi 1 FillDirection.BOTTOM
    have hwh1 := createTile_fst_worldHeight d0 (cx + (acc0.length : Int)) cy
      (String.singleton c) color tbg zi 1 FillDirection.BOTTOM
    have hau1 := createTile_fst_autoRender d0 (cx + (acc0.length : Int)) cy
      (String.singleton c) color tbg zi 1 FillDirection.BOTTOM
    have hwf1 := gridWF_createTile (cx + (acc0.length : Int)) cy
      (String.singleton c) color tbg zi 1 FillDirection.BOTTOM hwf
    have hfresh1 : ∀ u ∈ (createTile d0 (cx + (acc0.length : Int)) cy (String.singleton c)
        color tbg zi 1 FillDirection.BOTTOM).1.tileMap,
        u.id < (createTile d0 (cx + (acc0.length : Int)) cy (String.singleton c)
          color tbg zi 1 FillDirection.BOTTOM).1.tileIdCounter := by
      intro u hu
      rw [hmap1] at hu
      rw [hcnt1]
      rcases List.mem_append.mp hu with h2 | h2
      · have := hfresh u h2
        omega
      · rw [List.mem_singleton.mp h2]
        show d0.tileIdCounter < d0.tileIdCounter + 1
        omega
    obtain ⟨H1, H2, H3, H4, H5, H6, H7, H8, H9⟩ := ih _ (acc0 ++ [d0.tileIdCounter]) hwf1 hfresh1
    have hLnew : lookupTile (createTile d0 (cx + (acc0.length : Int)) cy (String.singleton c)
        color tbg zi 1 FillDirection.BOTTOM).1 d0.tileIdCounter =
        some { id := d0.tileIdCounter, x := cx + (acc0.length : Int), y := cy,
               char := String.singleton c, color := color, backgroundColor := tbg,
               zIndex := zi, bgPercent := 1, fillDirection := FillDirection.BOTTOM } := by
      unfold lookupTile
      rw [hmap1]
      rw [find?_id_append_of_none (by
        rw [List.find?_eq_none]
        intro u hu
        have := hfresh u hu
        simp only [beq_iff_eq]
        omega)]
      exact List.find?_cons_of_pos _ (by simp)
    have hLold : ∀ i : Nat, i < d0.tileIdCounter →
        lookupTile (createTile d0 (cx + (acc0.length : Int)) cy (String.singleton c)
          color tbg zi 1 FillDirection.BOTTOM).1 i = lookupTile d0 i := by
      intro i hi
      unfold lookupTile
      rw [hmap1]
      exact find?_id_append_ne (by simp only; omega)
    refine ⟨?_, ?_, ?_, ?_, ?_, H6, H7, ?_, ?_⟩
    · rw [H1, hcnt1, List.length_cons, List.range_succ_eq_map]
      simp only [List.map_cons, List.map_map]
      rw [List.append_assoc, List.singleton_append]
      congr 2
      apply List.map_congr_left
      intro a _
      simp only [Function.comp_apply, Nat.succ_eq_add_one]
      omega
    · rw [H2, hcnt1, List.length_cons]
      omega
    · rw [H3, hww1]
    · rw [H4, hwh1]
    · rw [H5, hau1]
    · intro k hk
      cases k with
      | zero =>
        have hl0 : lookupTile (cs.foldl (wrapCreateStep cy zi tbg color cx)
            ((createTile d0 (cx + (acc0.length : Int)) cy (String.singleton c) color tbg zi 1
              FillDirection.BOTTOM).1, acc0 ++ [d0.tileIdCounter])).1
            (d0.tileIdCounter + 0) = some
            { id := d0.tileIdCounter, x := cx + (acc0.length : Int), y := cy,
              char := String.singleton c, color := color, backgroundColor := tbg,
              zIndex := zi, bgPercent := 1, fillDirection := FillDirection.BOTTOM } := by
          rw [Nat.add_zero, H9 d0.tileIdCounter (by rw [hcnt1]; omega)]
          exact hLnew
        exact ⟨_, hl0, by simp, rfl⟩
      | succ k' =>
        rw [List.length_cons] at hk
        obtain ⟨u, hu1, hu2, hu3⟩ := H8 k' (by omega)
        refine ⟨u, ?_, ?_, hu3⟩
        · rw [show d0.tileIdCounter + (k' + 1) = (createTile d0 (cx + (acc0.length : Int)) cy
            (String.singleton c) color tbg zi 1 FillDirection.BOTTOM).1.tileIdCounter + k' by
              rw [hcnt1]; omega]
          exact hu1
        · rw [hu2]
          simp only [List.length_append, List.length_cons, List.length_nil]
          push_cast
          ring
    · intro i hi
      rw [H9 i (by rw [hcnt1]; omega), hLold i hi]

/-- Moving every listed tile to its already-current position succeeds and
preserves every tile's looked-up position (the cell-order effects are
handled separately). -/
theorem moveFold_samepos (cx cy : Int) :
    ∀ (ps : List (Nat × Nat)) (d : Display),
      gridWF d = true →
      (∀ p ∈ ps, ∃ u, lookupTile d p.2 = some u ∧ u.x = cx + (p.1 : Int) ∧ u.y = cy) →
      ∃ d', ps.foldlM (wrapMoveStep cx cy) d = some d' ∧
        gridWF d' = true ∧ d'.worldWidth = d.worldWidth ∧ d'.worldHeight = d.worldHeight ∧
        d'.tileIdCounter = d.tileIdCounter ∧ d'.autoRender = d.autoRender ∧
        (∀ i u, lookupTile d i = some u →
          ∃ u', lookupTile d' i = some u' ∧ u'.x = u.x ∧ u'.y = u.y) := by
  intro ps
  induction ps with
  | nil =>
    intro d hwf _
    exact ⟨d, rfl, hwf, rfl, rfl, rfl, rfl, fun i u hu => ⟨u, hu, rfl, rfl⟩⟩
  | cons p ps ih =>
    intro d hwf hall
    obtain ⟨u, hu, hux, huy⟩ := hall p (by simp)
    obtain ⟨d1, hm, hwf1, hW1, hH1, hC1, hA1, hpres1⟩ :=
      moveTile_samepos_step hwf hu (cx + (p.1 : Int)) cy hux huy
    have hstep : (p :: ps).foldlM (wrapMoveStep cx cy) d = ps.foldlM (wrapMoveStep cx cy) d1 := by
      rw [List.foldlM_cons]
      show (wrapMoveStep cx cy d p).bind _ = _
      rw [show wrapMoveStep cx cy d p = some d1 from hm]
      rfl
    obtain ⟨d', hfold, hwf', hW', hH', hC', hA', hpres'⟩ := ih d1 hwf1 (by
      intro q hq
      obtain ⟨v, hv, hvx, hvy⟩ := hall q (by simp [hq])
      obtain ⟨v', hv', hvx', hvy'⟩ := hpres1 q.2 v hv
      exact ⟨v', hv', by rw [hvx', hvx], by rw [hvy', hvy]⟩)
    refine ⟨d', by rw [hstep]; exact hfold, hwf', by rw [hW', hW1], by rw [hH', hH1],
      by rw [hC', hC1], by rw [hA', hA1], ?_⟩
    intro i v hv
    obtain ⟨v1, hv1, h1x, h1y⟩ := hpres1 i v hv
    obtain ⟨v2, hv2, h2x, h2y⟩ := hpres' i v1 hv1
    exact ⟨v2, hv2, by rw [h2x, h1x], by rw [h2y, h1y]⟩

/-- Moving the listed (distinct) tiles to the positions `(cx + k, cy)`
succeeds when both the stored and the destination positions are in
bounds, and afterwards each listed tile is stored at its destination. -/
theorem moveFold_move (cx cy : Int) :
    ∀ (ps : List (Nat × Nat)) (d : Display),
      gridWF d = true →
      (ps.map Prod.snd).Nodup →
      (∀ p ∈ ps, ∃ u, lookupTile d p.2 = some u ∧
        inBounds d u.x u.y = true ∧ inBounds d (cx + (p.1 : Int)) cy = true) →
      ∃ d', ps.foldlM (wrapMoveStep cx cy) d = some d' ∧
        gridWF d' = true ∧ d'.worldWidth = d.worldWidth ∧ d'.worldHeight = d.worldHeight ∧
        d'.tileIdCounter = d.tileIdCounter ∧ d'.autoRender = d.autoRender ∧
        (∀ p ∈ ps, ∃ u, lookupTile d' p.2 = some u ∧ u.x = cx + (p.1 : Int) ∧ u.y = cy) ∧
        (∀ i : Nat, i ∉ ps.map Prod.snd → lookupTile d' i = lookupTile d i) := by
  intro ps
  induction ps with
  | nil =>
    intro d hwf _ _
    exact ⟨d, rfl, hwf, rfl, rfl, rfl, rfl, by simp, fun i _ => rfl⟩
  | cons p ps ih =>
    intro d hwf hnd hall
    obtain ⟨u, hu, hsrcB, hdstB⟩ := hall p (by simp)
    obtain ⟨d1, hm, hself, hothers, hwf1, hW1, hH1, hC1, hA1⟩ :=
      moveTile_lookup_self hwf hu hdstB hsrcB
    have hnd' := hnd
    rw [List.map_cons, List.nodup_cons] at hnd'
    obtain ⟨hpnot, hndtail⟩ := hnd'
    have hstep : (p :: ps).foldlM (wrapMoveStep cx cy) d = ps.foldlM (wrapMoveStep cx cy) d1 := by
      rw [List.foldlM_cons]
      show (wrapMoveStep cx cy d p).bind _ = _
      rw [show wrapMoveStep cx cy d p = some d1 from hm]
      rfl
    obtain ⟨d', hfold, hwf', hW', hH', hC', hA', hpos', hpre'⟩ := ih d1 hwf1 hndtail (by
      intro q hq
      have hqne : q.2 ≠ p.2 := by
        intro hEq
        exact hpnot (hEq ▸ List.mem_map.mpr ⟨q, hq, rfl⟩)
      obtain ⟨v, hv, hvsrc, hvdst⟩ := hall q (by simp [hq])
      refine ⟨v, by rw [hothers q.2 hqne]; exact hv, ?_, ?_⟩
      · rw [inBounds_eq_of_dims hW1 hH1]
        exact hvsrc
      · rw [inBounds_eq_of_dims hW1 hH1]
        exact hvdst)
    refine ⟨d', by rw [hstep]; exact hfold, hwf', by rw [hW', hW1], by rw [hH', hH1],
      by rw [hC', hC1], by rw [hA', hA1], ?_, ?_⟩
    · intro q hq
      rcases List.mem_cons.mp hq with rfl | hq2
      · refine ⟨{ u with x := cx + (q.1 : Int), y := cy }, ?_, rfl, rfl⟩
        rw [hpre' q.2 hpnot]
        exact hself
      · exact hpos' q hq2
    · intro i hi
      rw [List.map_cons] at hi
      have hi1 : i ≠ p.2 := fun hEq => hi (hEq ▸ List.mem_cons_self _ _)
      have hi2 : i ∉ ps.map Prod.snd := fun hmem => hi (List.mem_cons_of_mem _ hmem)
      rw [hpre' i hi2, hothers i hi1]

/-! ### Claim C7: greedy word wrapping -/

/-- **C7.** The word-placement step of `createWrappedString` packs
greedily: a word is kept on the current line whenever
`currentColumn − lineStartColumn + wordLength ≤ width` *or* the line is
still empty, its tiles landing at columns `currentX … currentX+len−1` of
the current row; when the word would overflow a non-empty line the step
advances to the next row and resets the column to `x`, the tiles landing
at `x … x+len−1` of row `currentY + 1`.  In particular a single word
longer than `width` on an empty line is placed whole — all its tiles on
one row, never broken mid-word — and its last tile's column
`x + len − 1` reaches at least `x + width`, overflowing the box. -/
theorem createWrappedString_greedy_wrap (x width zi : Int) (tbg color : String)
    (w : String) (st : WrapState)
    (hwf : gridWF st.disp = true)
    (hfresh : ∀ u ∈ st.disp.tileMap, u.id < st.disp.tileIdCounter)
    (hls : st.lineStart = x)
    (hw : w.length ≠ 0) :
    ((st.currentX - x + (w.length : Int) ≤ width ∨ st.lineWords = []) →
      ∃ st', wrapWord x width zi tbg color w st = some st' ∧
        st'.currentY = st.currentY ∧
        st'.currentX = st.currentX + (w.length : Int) ∧
        (∀ k : Nat, k < w.length →
          ∃ u, lookupTile st'.disp (st.disp.tileIdCounter + k) = some u ∧
            u.x = st.currentX + (k : Int) ∧ u.y = st.currentY)) ∧
    ((st.currentX - x + (w.length : Int) > width ∧ st.lineWords ≠ []) →
      (∀ k : Nat, k < w.length →
        inBounds st.disp (st.currentX + (k : Int)) st.currentY = true) →
      (∀ k : Nat, k < w.length →
        inBounds st.disp (x + (k : Int)) (st.currentY + 1) = true) →
      ∃ st', wrapWord x width zi tbg color w st = some st' ∧
        st'.currentY = st.currentY + 1 ∧
        st'.currentX = x + (w.length : Int) ∧
        (∀ k : Nat, k < w.length →
          ∃ u, lookupTile st'.disp (st.disp.tileIdCounter + k) = some u ∧
            u.x = x + (k : Int) ∧ u.y = st.currentY + 1)) ∧
    (((w.length : Int) > width ∧ st.lineWords = [] ∧ st.currentX = x) →
      ∃ st', wrapWord x width zi tbg color w st = some st' ∧
        st'.currentY = st.currentY ∧
        (∀ k : Nat, k < w.length →
          ∃ u, lookupTile st'.disp (st.disp.tileIdCounter + k) = some u ∧
            u.x = x + (k : Int) ∧ u.y = st.currentY) ∧
        x + ((w.length : Int) - 1) ≥ x + width) := by
  have hlen : w.toList.length = w.length := rfl
  obtain ⟨H1, H2, H3, H4, H5, H6, H7, H8, H9⟩ :=
    wrapCreate_fold_spec st.currentY zi tbg color st.currentX w.toList st.disp [] hwf hfresh
  have hids : (w.toList.foldl (wrapCreateStep st.currentY zi tbg color st.currentX)
      (st.disp, [])).2 =
      (List.range w.length).map (fun k => st.disp.tileIdCounter + k) := by
    rw [H1, hlen, List.nil_append]
  have hmemEnum : ∀ p : Nat × Nat,
      p ∈ ((List.range w.length).map (fun k => st.disp.tileIdCounter + k)).enum →
      p.1 < w.length ∧ p.2 = st.disp.tileIdCounter + p.1 := by
    intro p hp
    have h := List.mem_enum_iff_getElem?.mp hp
    rw [List.getElem?_map] at h
    by_cases hlt : p.1 < w.length
    · rw [List.getElem?_range hlt] at h
      simp only [Option.map_some'] at h
      exact ⟨hlt, by simpa using h.symm⟩
    · rw [List.getElem?_eq_none (by simpa using hlt)] at h
      exact absurd h (by simp)
  have partA : (st.currentX - x + (w.length : Int) ≤ width ∨ st.lineWords = []) →
      ∃ st', wrapWord x width zi tbg color w st = some st' ∧
        st'.currentY = st.currentY ∧
        st'.currentX = st.currentX + (w.length : Int) ∧
        (∀ k : Nat, k < w.length →
          ∃ u, lookupTile st'.disp (st.disp.tileIdCounter + k) = some u ∧
            u.x = st.currentX + (k : Int) ∧ u.y = st.currentY) := by
    intro hcase
    have hcond : (decide (st.currentX - st.lineStart + (w.length : Int) > width) &&
        !st.lineWords.isEmpty) = false := by
      rcases hcase with h | h
      · rw [hls]
        rw [decide_eq_false (by omega)]
        rw [Bool.false_and]
      · rw [h]
        simp
    obtain ⟨d', hfold, hwf', hW', hH', hC', hA', hpres'⟩ :=
      moveFold_samepos st.currentX st.currentY
        ((w.toList.foldl (wrapCreateStep st.currentY zi tbg color st.currentX)
          (st.disp, [])).2.enum)
        (w.toList.foldl (wrapCreateStep st.currentY zi tbg color st.currentX)
          (st.disp, [])).1
        H6 (by
          intro p hp
          rw [hids] at hp
          obtain ⟨hp1, hp2⟩ := hmemEnum p hp
          obtain ⟨u, hu, hux, huy⟩ := H8 p.1 (by rw [hlen]; exact hp1)
          refine ⟨u, by rw [hp2]; exact hu, ?_, huy⟩
          rw [hux]
          simp)
    have hposs : ∀ k : Nat, k < w.length →
        ∃ u, lookupTile d' (st.disp.tileIdCounter + k) = some u ∧
          u.x = st.currentX + (k : Int) ∧ u.y = st.currentY := by
      intro k hk
      obtain ⟨u, hu, hux, huy⟩ := H8 k (by rw [hlen]; exact hk)
      obtain ⟨u', hu', hux', huy'⟩ := hpres' _ u hu
      exact ⟨u', hu', by rw [hux', hux]; simp, by rw [huy', huy]⟩
    refine ⟨⟨d', st.currentX + (w.length : Int), st.currentY, st.lineStart,
      st.lineWords ++ [((w.toList.foldl (wrapCreateStep st.currentY zi tbg color st.currentX)
        (st.disp, [])).2, w)],
      st.ids ++ (w.toList.foldl (wrapCreateStep st.currentY zi tbg color st.currentX)
        (st.disp, [])).2⟩, ?_, rfl, rfl, hposs⟩
    unfold wrapWord
    rw [if_neg hw]
    dsimp only
    rw [hcond]
    simp only [Bool.false_eq_true, if_false]
    rw [hfold]
  refine ⟨partA, ?_, ?_⟩
  · intro hcase hinbOld hinbNew
    have hcond : (decide (st.currentX - st.lineStart + (w.length : Int) > width) &&
        !st.lineWords.isEmpty) = true := by
      rw [hls, decide_eq_true hcase.1, Bool.true_and, Bool.not_eq_true',
        ← Bool.not_eq_true, List.isEmpty_iff]
      exact hcase.2
    have hnodup : (((w.toList.foldl (wrapCreateStep st.currentY zi tbg color st.currentX)
        (st.disp, [])).2.enum).map Prod.snd).Nodup := by
      rw [List.enum_map_snd, hids]
      exact List.Nodup.map (fun a b hab => by omega) (List.nodup_range _)
    obtain ⟨d', hfold, hwf', hW', hH', hC', hA', hpos', hpre'⟩ :=
      moveFold_move x (st.currentY + 1)
        ((w.toList.foldl (wrapCreateStep st.currentY zi tbg color st.currentX)
          (st.disp, [])).2.enum)
        (w.toList.foldl (wrapCreateStep st.currentY zi tbg color st.currentX)
          (st.disp, [])).1
        H6 hnodup (by
          intro p hp
          rw [hids] at hp
          obtain ⟨hp1, hp2⟩ := hmemEnum p hp
          obtain ⟨u, hu, hux, huy⟩ := H8 p.1 (by rw [hlen]; exact hp1)
          refine ⟨u, by rw [hp2]; exact hu, ?_, ?_⟩
          · rw [hux, huy, inBounds_eq_of_dims H3 H4]
            have := hinbOld p.1 hp1
            simpa using this
          · rw [inBounds_eq_of_dims H3 H4]
            exact hinbNew p.1 hp1)
    have hposs : ∀ k : Nat, k < w.length →
        ∃ u, lookupTile d' (st.disp.tileIdCounter + k) = some u ∧
          u.x = x + (k : Int) ∧ u.y = st.currentY + 1 := by
      intro k hk
      have hmem : (k, st.disp.tileIdCounter + k) ∈
          ((w.toList.foldl (wrapCreateStep st.currentY zi tbg color st.currentX)
            (st.disp, [])).2.enum) := by
        rw [hids]
        rw [List.mem_enum_iff_getElem?]
        show ((List.range w.length).map (fun k => st.disp.tileIdCounter + k))[k]? = _
        rw [List.getElem?_map, List.getElem?_range hk]
        rfl
      obtain ⟨u, hu, hux, huy⟩ := hpos' _ hmem
      exact ⟨u, hu, hux, huy⟩
    refine ⟨⟨d', x + (w.length : Int), st.currentY + 1, x,
      [] ++ [((w.toList.foldl (wrapCreateStep st.currentY zi tbg color st.currentX)
        (st.disp, [])).2, w)],
      st.ids ++ (w.toList.foldl (wrapCreateStep st.currentY zi tbg color st.currentX)
        (st.disp, [])).2⟩, ?_, rfl, rfl, hposs⟩
    unfold wrapWord
    rw [if_neg hw]
    simp only [hcond, if_true]
    rw [hfold]
  · rintro ⟨hlong, hempty, hcx⟩
    obtain ⟨st', h1, h2, h3, h4⟩ := partA (Or.inr hempty)
    refine ⟨st', h1, h2, ?_, by omega⟩
    intro k hk
    obtain ⟨u, hu, hux, huy⟩ := h4 k hk
    exact ⟨u, hu, by rw [hux, hcx], huy⟩

/-- Witness for C7: the 8-character word `"abcdefgh"` in a width-3 box on
an empty line is laid out whole on row 0, columns 0–7, overflowing past
`x + width = 3`. -/
theorem createWrappedString_greedy_wrap_witness :
    ∃ st', wrapWord 0 3 1 "#00000000" "#FFFFFFFF" "abcdefgh"
        { disp := initDisplay 5 5 5 5 false, currentX := 0, currentY := 0, lineStart := 0,
          lineWords := [], ids := [] } = some st' ∧
      st'.currentY = 0 ∧
      (∀ k : Nat, k < ("abcdefgh" : String).length →
        ∃ u, lookupTile st'.disp (0 + k) = some u ∧ u.x = 0 + (k : Int) ∧ u.y = 0) ∧
      (0 : Int) + ((("abcdefgh" : String).length : Int) - 1) ≥ 0 + 3 :=
  (createWrappedString_greedy_wrap 0 3 1 "#00000000" "#FFFFFFFF" "abcdefgh"
    { disp := initDisplay 5 5 5 5 false, currentX := 0, currentY := 0, lineStart := 0,
      lineWords := [], ids := [] }
    (by decide) (by decide) rfl (by decide)).2.2 ⟨by decide, rfl, rfl⟩

/-! ### Claim C9: same-position move -/

theorem occ_pos_of_mem {l : List Tile} {t : Tile} (ht : t ∈ l) {i : Nat} (hti : t.id = i) :
    0 < occ l i := by
  induction l with
  | nil => cases ht
  | cons u l ih =>
    rcases List.mem_cons.mp ht with rfl | h2
    · rw [occ_cons, if_pos hti]
      omega
    · have := ih h2
      rw [occ_cons]
      split <;> omega

theorem perm_cons_filter_of_single_occ {l : List Tile} {i : Nat} {t : Tile}
    (ht : t ∈ l) (hti : t.id = i) (h1 : occ l i = 1) :
    l.Perm (t :: l.filter (fun u => u.id != i)) := by
  induction l with
  | nil => cases ht
  | cons u l ih =>
    rw [occ_cons] at h1
    rcases List.mem_cons.mp ht with rfl | h2
    · rw [if_pos hti] at h1
      have h0 : occ l i = 0 := by omega
      rw [List.filter_cons, if_neg (by simpa using hti), filter_ne_of_occ_zero h0]
    · have hpos := occ_pos_of_mem h2 hti
      have hu : ¬ u.id = i := by
        intro hui
        rw [if_pos hui] at h1
        omega
      rw [List.filter_cons, if_pos (by simpa using hu)]
      have hl1 : occ l i = 1 := by
        rw [if_neg hu] at h1
        omega
      exact List.Perm.trans (List.Perm.cons u (ih h2 hl1))
        (List.Perm.swap t u (l.filter (fun v => v.id != i)))

theorem replaceTile_eq_self {l : List Tile} {i : Nat} {t' : Tile}
    (h : ∀ u ∈ l, u.id = i → u = t') : replaceTile i t' l = l := by
  induction l with
  | nil => rfl
  | cons u l ih =>
    unfold replaceTile at ih ⊢
    simp only [List.map_cons]
    by_cases hu : u.id = i
    · rw [if_pos hu, ih (fun v hv hvi => h v (by simp [hv]) hvi), h u (by simp) hu]
    · rw [if_neg hu, ih (fun v hv hvi => h v (by simp [hv]) hvi)]

/-- **C9 counterexample.** Two tiles with equal z-index sit in cell
`(0, 0)` in insertion order `[0, 1]`; moving tile 0 to its *current*
position re-inserts it at the end of the equal-z block, so the cell's
order changes to `[1, 0]` — the move is not idempotent on cell contents
as the claim states. -/
theorem moveTile_same_pos_reorders_counterexample :
    ((tilesAt (createTile
        (createTile (initDisplay 3 3 3 3 false) 0 0 "a" "#FFFFFFFF" "#000000FF" 1 1
          FillDirection.BOTTOM).1
        0 0 "b" "#FFFFFFFF" "#000000FF" 1 1 FillDirection.BOTTOM).1 0 0).map
      (fun t => t.id) = [0, 1]) ∧
    ((moveTile (createTile
        (createTile (initDisplay 3 3 3 3 false) 0 0 "a" "#FFFFFFFF" "#000000FF" 1 1
          FillDirection.BOTTOM).1
        0 0 "b" "#FFFFFFFF" "#000000FF" 1 1 FillDirection.BOTTOM).1 0 0 0).map
      (fun s => (tilesAt s 0 0).map (fun t => t.id)) = some [1, 0]) := by
  refine ⟨by decide, by decide⟩

/-- **C9 amended.** Moving a tile (with in-bounds stored position) to its
current position leaves the tile index, the warning count, and every
other cell unchanged, and leaves its own cell's contents unchanged *as a
multiset* and still z-sorted — the tile is re-inserted at the end of its
equal-z-index block, so only the relative order of equal-z-index tiles
can change (exactly the reorder the counterexample exhibits); the dirty
set is unchanged except that `(t.x, t.y)` is (re-)added. -/
theorem moveTile_same_position_idempotent_up_to_equal_z (s : Display) (tileId : Nat) (t : Tile)
    (hwf : gridWF s = true) (ha : s.autoRender = false)
    (hlook : lookupTile s tileId = some t)
    (hsrc : inBounds s t.x t.y = true)
    (hall : occGrid s tileId = occ (tilesAt s t.x t.y) tileId)
    (hocc1 : occ (tilesAt s t.x t.y) tileId = 1)
    (hmem : t ∈ tilesAt s t.x t.y)
    (hsorted : zSorted (tilesAt s t.x t.y) = true)
    (hdup : ∀ u ∈ s.tileMap, u.id = tileId → u = t) :
    ∃ s', moveTile s tileId t.x t.y = some s' ∧
      s'.tileMap = s.tileMap ∧
      (tilesAt s' t.x t.y).Perm (tilesAt s t.x t.y) ∧
      zSorted (tilesAt s' t.x t.y) = true ∧
      tilesAt s' t.x t.y =
        ((tilesAt s t.x t.y).filter (fun u => u.id != tileId)).takeWhile
          (fun u => decide (u.zIndex ≤ t.zIndex)) ++
        t :: ((tilesAt s t.x t.y).filter (fun u => u.id != tileId)).dropWhile
          (fun u => decide (u.zIndex ≤ t.zIndex)) ∧
      (∀ qx qy : Int, ¬(qx = t.x ∧ qy = t.y) → tilesAt s' qx qy = tilesAt s qx qy) ∧
      (∀ p : Int × Int, p ∈ s'.dirtyRects ↔ p ∈ s.dirtyRects ∨ p = (t.x, t.y)) ∧
      s'.warnings = s.warnings := by
  have htid : t.id = tileId := lookupTile_id hlook
  have hteta : ({ t with x := t.x, y := t.y } : Tile) = t := rfl
  obtain ⟨s', h1, h2, _, h4, _, h6, h7, h8⟩ := moveTile_char hwf hlook hsrc hsrc hall
  have hcell := h4 rfl
  rw [hteta] at hcell h2
  have hfilterSorted : zSorted ((tilesAt s t.x t.y).filter (fun u => u.id != tileId)) = true :=
    zSorted_filter hsorted _
  refine ⟨s', h1, ?_, ?_, ?_, ?_, ?_, ?_, h8⟩
  · rw [h2]
    exact replaceTile_eq_self hdup
  · rw [hcell]
    refine List.Perm.trans (insertTileZ_perm t _) ?_
    exact (perm_cons_filter_of_single_occ hmem htid hocc1).symm
  · rw [hcell]
    exact zSorted_insertTileZ hfilterSorted t
  · rw [hcell]
    exact insertTileZ_eq_append t _
  · intro qx qy hq
    exact h6 qx qy hq hq
  · intro p
    rw [h7 ha p]
    tauto

/-- Witness for C9: the `moveDemo`-like single-tile world; moving the
tile to its own cell re-adds `(0, 0)` to the dirty set and leaves
everything else unchanged. -/
theorem moveTile_same_position_witness :
    ∃ s', moveTile (createTile (initDisplay 3 3 3 3 false) 0 0 "a" "#FFFFFFFF" "#000000FF" 1 1
        FillDirection.BOTTOM).1 0
      ({ id := 0, x := 0, y := 0, char := "a", color := "#FFFFFFFF",
         backgroundColor := "#000000FF", zIndex := 1, bgPercent := 1,
         fillDirection := FillDirection.BOTTOM } : Tile).x
      ({ id := 0, x := 0, y := 0, char := "a", color := "#FFFFFFFF",
         backgroundColor := "#000000FF", zIndex := 1, bgPercent := 1,
         fillDirection := FillDirection.BOTTOM } : Tile).y = some s' ∧
      s'.tileMap = (createTile (initDisplay 3 3 3 3 false) 0 0 "a" "#FFFFFFFF" "#000000FF" 1 1
        FillDirection.BOTTOM).1.tileMap ∧
      (tilesAt s' 0 0).Perm (tilesAt (createTile (initDisplay 3 3 3 3 false) 0 0 "a"
        "#FFFFFFFF" "#000000FF" 1 1 FillDirection.BOTTOM).1 0 0) ∧
      zSorted (tilesAt s' 0 0) = true ∧
      tilesAt s' 0 0 =
        ((tilesAt (createTile (initDisplay 3 3 3 3 false) 0 0 "a" "#FFFFFFFF" "#000000FF" 1 1
          FillDirection.BOTTOM).1 0 0).filter (fun u => u.id != 0)).takeWhile
            (fun u => decide (u.zIndex ≤ 1)) ++
        ({ id := 0, x := 0, y := 0, char := "a", color := "#FFFFFFFF",
           backgroundColor := "#000000FF", zIndex := 1, bgPercent := 1,
           fillDirection := FillDirection.BOTTOM } : Tile) ::
        ((tilesAt (createTile (initDisplay 3 3 3 3 false) 0 0 "a" "#FFFFFFFF" "#000000FF" 1 1
          FillDirection.BOTTOM).1 0 0).filter (fun u => u.id != 0)).dropWhile
            (fun u => decide (u.zIndex ≤ 1)) ∧
      (∀ qx qy : Int, ¬(qx = 0 ∧ qy = 0) → tilesAt s' qx qy =
        tilesAt (createTile (initDisplay 3 3 3 3 false) 0 0 "a" "#FFFFFFFF" "#000000FF" 1 1
          FillDirection.BOTTOM).1 qx qy) ∧
      (∀ p : Int × Int, p ∈ s'.dirtyRects ↔
        p ∈ (createTile (initDisplay 3 3 3 3 false) 0 0 "a" "#FFFFFFFF" "#000000FF" 1 1
          FillDirection.BOTTOM).1.dirtyRects ∨ p = (0, 0)) ∧
      s'.warnings = (createTile (initDisplay 3 3 3 3 false) 0 0 "a" "#FFFFFFFF" "#000000FF" 1 1
        FillDirection.BOTTOM).1.warnings :=
  moveTile_same_position_idempotent_up_to_equal_z _ 0 _ (by decide) (by decide) (by decide)
    (by decide) (by decide) (by decide) (by decide) (by decide) (by decide)

/-! ### Claim C8: create/get/remove round trip -/

/-- **C8.** For every in-bounds `(x, y)` and attribute tuple, the id
returned by `createTile` satisfies: `getTile(id)` returns a tile whose
attributes are exactly the arguments passed in; and after
`removeTile(id)`, `getTile(id)` returns `undefined` (`none`).
Hypotheses: a well-formed grid and a tile index whose ids are all below
the id counter — both hold in every engine-reachable state. -/
theorem createTile_getTile_removeTile_roundtrip (s : Display) (x y : Int)
    (ch col bg : String) (z : Int) (bp : ℚ) (fd : FillDirection)
    (hb : inBounds s x y = true) (hwf : gridWF s = true)
    (hfresh : ∀ t ∈ s.tileMap, t.id < s.tileIdCounter) :
    getTile (createTile s x y ch col bg z bp fd).1 (createTile s x y ch col bg z bp fd).2 =
      some { id := (createTile s x y ch col bg z bp fd).2, x := x, y := y, char := ch,
             color := col, backgroundColor := bg, zIndex := z, bgPercent := bp,
             fillDirection := fd } ∧
    ∃ s2, removeTile (createTile s x y ch col bg z bp fd).1
        (createTile s x y ch col bg z bp fd).2 = some s2 ∧
      getTile s2 (createTile s x y ch col bg z bp fd).2 = none := by
  have hnone : s.tileMap.find? (fun t => t.id == s.tileIdCounter) = none := by
    rw [List.find?_eq_none]
    intro t ht
    have := hfresh t ht
    simp only [beq_iff_eq]
    omega
  have hmap := createTile_fst_tileMap s x y ch col bg z bp fd
  have hlookup : lookupTile (createTile s x y ch col bg z bp fd).1 s.tileIdCounter =
      some { id := s.tileIdCounter, x := x, y := y, char := ch, color := col,
             backgroundColor := bg, zIndex := z, bgPercent := bp, fillDirection := fd } := by
    unfold lookupTile
    rw [hmap, find?_id_append_of_none hnone]
    exact List.find?_cons_of_pos _ (by simp)
  constructor
  · exact hlookup
  · have hwf1 : gridWF (createTile s x y ch col bg z bp fd).1 = true :=
      gridWF_createTile x y ch col bg z bp fd hwf
    have hb1 : inBounds (createTile s x y ch col bg z bp fd).1 x y = true := by
      rw [inBounds_eq_of_dims (createTile_fst_worldWidth s x y ch col bg z bp fd)
        (createTile_fst_worldHeight s x y ch col bg z bp fd)]
      exact hb
    have hcell := cellAt_isSome_of_WF hwf1 hb1
    obtain ⟨c, hc⟩ := Option.isSome_iff_exists.mp hcell
    show ∃ s2, removeTile _ s.tileIdCounter = some s2 ∧ getTile s2 s.tileIdCounter = none
    unfold removeTile
    rw [hlookup]
    simp only
    rw [show cellAt (createTile s x y ch col bg z bp fd).1 x y = some c from hc]
    simp only
    refine ⟨_, rfl, ?_⟩
    unfold getTile lookupTile
    rw [renderIfAuto_tileMap]
    show ((addDirty _ _).tileMap.filter _).find? _ = none
    rw [addDirty_tileMap, setCell_tileMap]
    exact find?_id_filter_ne _ _

/-- Witness for C8 at a 3×3 world, position `(2, 2)`. -/
theorem createTile_roundtrip_witness :
    getTile (createTile (initDisplay 3 3 3 3 false) 2 2 "@" "#FFFFFFFF" "#000000FF" 1 1
        FillDirection.BOTTOM).1
      (createTile (initDisplay 3 3 3 3 false) 2 2 "@" "#FFFFFFFF" "#000000FF" 1 1
        FillDirection.BOTTOM).2 =
      some { id := (createTile (initDisplay 3 3 3 3 false) 2 2 "@" "#FFFFFFFF" "#000000FF" 1 1
               FillDirection.BOTTOM).2, x := 2, y := 2, char := "@", color := "#FFFFFFFF",
             backgroundColor := "#000000FF", zIndex := 1, bgPercent := 1,
             fillDirection := FillDirection.BOTTOM } ∧
    ∃ s2, removeTile (createTile (initDisplay 3 3 3 3 false) 2 2 "@" "#FFFFFFFF" "#000000FF" 1 1
        FillDirection.BOTTOM).1
      (createTile (initDisplay 3 3 3 3 false) 2 2 "@" "#FFFFFFFF" "#000000FF" 1 1
        FillDirection.BOTTOM).2 = some s2 ∧
      getTile s2 (createTile (initDisplay 3 3 3 3 false) 2 2 "@" "#FFFFFFFF" "#000000FF" 1 1
        FillDirection.BOTTOM).2 = none :=
  createTile_getTile_removeTile_roundtrip (initDisplay 3 3 3 3 false) 2 2
    "@" "#FFFFFFFF" "#000000FF" 1 1 FillDirection.BOTTOM (by decide) (by decide)
    (by intro t ht; simp [initDisplay] at ht)

/-! ### Occurrence-count bookkeeping for single writes -/

theorem sum_map_set {α : Type _} (f : α → Nat) :
    ∀ (l : List α) (n : Nat) (a b : α), l[n]? = some a →
      ((l.set n b).map f).sum + f a = (l.map f).sum + f b := by
  intro l
  induction l with
  | nil => intro n a b h; simp at h
  | cons x xs ih =>
    intro n a b h
    cases n with
    | zero =>
      have hax : x = a := by simpa using h
      subst hax
      simp only [List.set_cons_zero, List.map_cons, List.sum_cons]
      omega
    | succ m =>
      have hm : xs[m]? = some a := by simpa using h
      have := ih m a b hm
      simp only [List.set_cons_succ, List.map_cons, List.sum_cons]
      omega

theorem occ_eq_zero_of {l : List Tile} {i : Nat} (h : ∀ u ∈ l, ¬ u.id = i) : occ l i = 0 := by
  induction l with
  | nil => rfl
  | cons u l ih =>
    rw [occ_cons, if_neg (h u (List.mem_cons_self u l))]
    have h0 := ih (fun v hv => h v (List.mem_cons_of_mem u hv))
    omega

theorem occ_filter_ne_other {i j : Nat} (hne : j ≠ i) (l : List Tile) :
    occ (l.filter (fun u => u.id != i)) j = occ l j := by
  induction l with
  | nil => rfl
  | cons u l ih =>
    rw [List.filter_cons]
    by_cases hu : u.id = i
    · rw [if_neg (by simpa using hu), ih, occ_cons, if_neg (by omega)]
      omega
    · rw [if_pos (by simpa using hu), occ_cons, occ_cons, ih]

theorem find?_id_filter_ne_other {l : List Tile} {i j : Nat} (hne : j ≠ i) :
    (l.filter (fun u => u.id != i)).find? (fun u => u.id == j) =
      l.find? (fun u => u.id == j) := by
  induction l with
  | nil => rfl
  | cons u l ih =>
    rw [List.filter_cons]
    by_cases hu : u.id = i
    · have hf : (u.id == j) = false := by rw [beq_eq_false_iff_ne, hu]; omega
      rw [if_neg (by simpa using hu), ih, List.find?_cons, hf]
    · rw [if_pos (by simpa using hu), List.find?_cons, List.find?_cons]
      cases hj : (u.id == j)
      · exact ih
      · rfl

theorem find?_id_eq_none_of_lt {l : List Tile} {n : Nat} (h : ∀ v ∈ l, v.id < n) :
    l.find? (fun v => v.id == n) = none := by
  rw [List.find?_eq_none]
  intro v hv
  have := h v hv
  simp only [beq_iff_eq]
  omega

theorem mem_insertTileZ_self (t : Tile) (l : List Tile) : t ∈ insertTileZ t l :=
  (List.Perm.mem_iff (insertTileZ_perm t l)).mpr (List.mem_cons_self t l)

theorem mem_insertTileZ_of_mem {u : Tile} {l : List Tile} (h : u ∈ l) (t : Tile) :
    u ∈ insertTileZ t l :=
  (List.Perm.mem_iff (insertTileZ_perm t l)).mpr (List.mem_cons_of_mem t h)

theorem mem_of_mem_insertTileZ {u t : Tile} {l : List Tile} (h : u ∈ insertTileZ t l) :
    u = t ∨ u ∈ l :=
  List.mem_cons.mp ((List.Perm.mem_iff (insertTileZ_perm t l)).mp h)

theorem mem_replaceTile_of_mem {l : List Tile} {t0 : Tile} {i : Nat} (h : t0 ∈ l)
    (hid : t0.id = i) (t' : Tile) : t' ∈ replaceTile i t' l := by
  unfold replaceTile
  refine List.mem_map.mpr ⟨t0, h, ?_⟩
  rw [if_pos hid]

theorem mem_replaceTile_ne {l : List Tile} {v : Tile} {i : Nat} (h : v ∈ l) (hid : ¬ v.id = i)
    (t' : Tile) : v ∈ replaceTile i t' l := by
  unfold replaceTile
  refine List.mem_map.mpr ⟨v, h, ?_⟩
  rw [if_neg hid]

theorem mem_of_mem_replaceTile {l : List Tile} {u' t' : Tile} {i : Nat}
    (h : u' ∈ replaceTile i t' l) : u' = t' ∨ (u' ∈ l ∧ ¬ u'.id = i) := by
  unfold replaceTile at h
  obtain ⟨u, hu, he⟩ := List.mem_map.mp h
  by_cases hui : u.id = i
  · rw [if_pos hui] at he
    exact Or.inl he.symm
  · rw [if_neg hui] at he
    subst he
    exact Or.inr ⟨hu, hui⟩

theorem zSorted_replaceTile {l : List Tile} {i : Nat} {t' : Tile}
    (h : ∀ u ∈ l, u.id = i → u.zIndex = t'.zIndex) :
    zSorted (replaceTile i t' l) = zSorted l := by
  induction l with
  | nil => rfl
  | cons a l ih =>
    have hza : (if a.id = i then t' else a).zIndex = a.zIndex := by
      by_cases hai : a.id = i
      · rw [if_pos hai, h a (List.mem_cons_self a l) hai]
      · rw [if_neg hai]
    have ih2 := ih (fun u hu hui => h u (List.mem_cons_of_mem a hu) hui)
    cases l with
    | nil => rfl
    | cons b l2 =>
      have hzb : (if b.id = i then t' else b).zIndex = b.zIndex := by
        by_cases hbi : b.id = i
        · rw [if_pos hbi, h b (List.mem_cons_of_mem a (List.mem_cons_self b l2)) hbi]
        · rw [if_neg hbi]
      have ih3 : zSorted ((if b.id = i then t' else b) :: replaceTile i t' l2) =
          zSorted (b :: l2) := ih2
      show (decide ((if a.id = i then t' else a).zIndex ≤ (if b.id = i then t' else b).zIndex) &&
          zSorted ((if b.id = i then t' else b) :: replaceTile i t' l2)) =
        (decide (a.zIndex ≤ b.zIndex) && zSorted (b :: l2))
      rw [hza, hzb, ih3]

theorem occGrid_eq_of_cells {s s' : Display} (h : s'.cells = s.cells) (j : Nat) :
    occGrid s' j = occGrid s j := by
  unfold occGrid
  rw [h]

theorem occGrid_setCell {s : Display} {x y : Int} {c : Cell} (hc : cellAt s x y = some c)
    (c' : Cell) (j : Nat) :
    occGrid (setCell s x y c') j + occ c.tiles j = occGrid s j + occ c'.tiles j := by
  unfold cellAt at hc
  split at hc <;> [skip; exact absurd hc (by simp)]
  rename_i hxy
  obtain ⟨row, hrow, hcol⟩ := Option.bind_eq_some.mp hc
  unfold setCell
  rw [if_pos hxy, hrow]
  show occGrid { s with cells := s.cells.set y.toNat (row.set x.toNat c') } j + _ = _
  unfold occGrid
  show ((s.cells.set y.toNat (row.set x.toNat c')).map (fun r => occRow r j)).sum + _ = _
  rw [List.get?_eq_getElem?] at hrow hcol
  have hgrid := sum_map_set (fun r => occRow r j) s.cells y.toNat row
    (row.set x.toNat c') hrow
  have hrowEq := sum_map_set (fun cc => occ cc.tiles j) row x.toNat c c' hcol
  simp only at hgrid hrowEq
  have hro : occRow (row.set x.toNat c') j + occ c.tiles j = occRow row j + occ c'.tiles j := by
    unfold occRow
    omega
  omega

theorem occGrid_replaceTileEverywhere {s : Display} {i : Nat} {t' : Tile} (ht : t'.id = i)
    (j : Nat) : occGrid (replaceTileEverywhere s i t') j = occGrid s j := by
  show ((s.cells.map _).map (fun r => occRow r j)).sum = _
  rw [List.map_map]
  unfold occGrid
  congr 1
  apply List.map_congr_left
  intro row _
  show occRow (row.map _) j = occRow row j
  unfold occRow
  rw [List.map_map]
  congr 1
  apply List.map_congr_left
  intro c _
  show occ (replaceTile i t' c.tiles) j = occ c.tiles j
  exact occ_replaceTile _ _ ht _

theorem occGrid_eq_zero_of {s : Display} {i : Nat}
    (h : ∀ x y : Int, ∀ c, cellAt s x y = some c → occ c.tiles i = 0) : occGrid s i = 0 := by
  unfold occGrid
  apply List.sum_eq_zero
  intro n hn
  obtain ⟨row, hrow, rfl⟩ := List.mem_map.mp hn
  obtain ⟨yi, hyi⟩ := List.getElem?_of_mem hrow
  unfold occRow
  apply List.sum_eq_zero
  intro m hm
  obtain ⟨c, hcmem, rfl⟩ := List.mem_map.mp hm
  obtain ⟨xi, hxi⟩ := List.getElem?_of_mem hcmem
  apply h (xi : Int) (yi : Int)
  rw [cellAt_natCast, List.get?_eq_getElem?, hyi]
  simp only [Option.some_bind]
  rw [List.get?_eq_getElem?, hxi]

theorem cellAt_replaceTileEverywhere (s : Display) (i : Nat) (t' : Tile) (x y : Int) :
    cellAt (replaceTileEverywhere s i t') x y =
      (cellAt s x y).map (fun c => { c with tiles := replaceTile i t' c.tiles }) := by
  unfold cellAt
  show (if 0 ≤ y ∧ 0 ≤ x then ((s.cells.map _).get? y.toNat).bind _ else none) = _
  split <;> [skip; rfl]
  simp only [List.get?_eq_getElem?, List.getElem?_map]
  cases hrow : s.cells[y.toNat]? with
  | none => rfl
  | some row =>
    simp only [Option.map_some', Option.some_bind, List.getElem?_map]

theorem tilesAt_replaceTileEverywhere (s : Display) (i : Nat) (t' : Tile) (x y : Int) :
    tilesAt (replaceTileEverywhere s i t') x y = replaceTile i t' (tilesAt s x y) := by
  unfold tilesAt
  rw [cellAt_replaceTileEverywhere]
  cases cellAt s x y with
  | none => rfl
  | some c => rfl

theorem tilesAt_setCell_same {s : Display} {x y : Int} {c : Cell} (hc : cellAt s x y = some c)
    (c' : Cell) : tilesAt (setCell s x y c') x y = c'.tiles :=
  tilesAt_of_cellAt (cellAt_setCell_same hc c')

/-! ### The public-operation invariants (claims C1 and C2) -/

/-- Every cell's tile list is non-decreasing in `zIndex`. -/
def zAll (s : Display) : Prop :=
  ∀ x y : Int, zSorted (tilesAt s x y) = true

/-- The core state invariant: a well-formed grid, fresh ids below the
counter, every indexed tile stored in bounds, present in exactly one
cell's tiles list (the cell at its stored coordinates), and every cell
entry in sync with the tile index. -/
def InvCore (s : Display) : Prop :=
  gridWF s = true ∧
  (∀ t ∈ s.tileMap, t.id < s.tileIdCounter) ∧
  (∀ t ∈ s.tileMap, inBounds s t.x t.y = true) ∧
  (∀ t ∈ s.tileMap, occGrid s t.id = 1 ∧ t ∈ tilesAt s t.x t.y) ∧
  (∀ x y : Int, ∀ u ∈ tilesAt s x y, lookupTile s u.id = some u)

theorem InvCore_eq_of {s s' : Display} (hc : s'.cells = s.cells) (hm : s'.tileMap = s.tileMap)
    (hw : s'.worldWidth = s.worldWidth) (hh : s'.worldHeight = s.worldHeight)
    (hn : s'.tileIdCounter = s.tileIdCounter) (h : InvCore s) : InvCore s' := by
  obtain ⟨h1, h2, h3, h4, h5⟩ := h
  refine ⟨by rw [gridWF_eq_of hc hw hh]; exact h1, ?_, ?_, ?_, ?_⟩
  · intro t ht
    rw [hm] at ht
    rw [hn]
    exact h2 t ht
  · intro t ht
    rw [hm] at ht
    rw [inBounds_eq_of_dims hw hh]
    exact h3 t ht
  · intro t ht
    rw [hm] at ht
    exact ⟨by rw [occGrid_eq_of_cells hc]; exact (h4 t ht).1,
      by rw [tilesAt_eq_of_cells hc]; exact (h4 t ht).2⟩
  · intro x y u hu
    rw [tilesAt_eq_of_cells hc] at hu
    show s'.tileMap.find? _ = _
    rw [hm]
    exact h5 x y u hu

theorem zAll_eq_of {s s' : Display} (hc : s'.cells = s.cells) (h : zAll s) : zAll s' := by
  intro x y
  rw [tilesAt_eq_of_cells hc]
  exact h x y

theorem cellAt_init {W H vw vh : Int} {a : Bool} {x y : Int} {c : Cell}
    (h : cellAt (initDisplay W H vw vh a) x y = some c) : c.tiles = [] := by
  unfold cellAt initDisplay at h
  split at h <;> [skip; exact absurd h (by simp)]
  obtain ⟨row, hrow, hcol⟩ := Option.bind_eq_some.mp h
  rw [List.get?_eq_getElem?, List.getElem?_replicate] at hrow
  split at hrow <;> [skip; exact absurd hrow (by simp)]
  have hr : List.replicate W.toNat
      ({ overlay := "#00000000", tiles := [], isDirty := true } : Cell) = row := by
    simpa using hrow
  subst hr
  rw [List.get?_eq_getElem?, List.getElem?_replicate] at hcol
  split at hcol <;> [skip; exact absurd hcol (by simp)]
  have hcc : ({ overlay := "#00000000", tiles := [], isDirty := true } : Cell) = c := by
    simpa using hcol
  rw [← hcc]

theorem tilesAt_init (W H vw vh : Int) (a : Bool) (x y : Int) :
    tilesAt (initDisplay W H vw vh a) x y = [] := by
  unfold tilesAt
  cases hc : cellAt (initDisplay W H vw vh a) x y with
  | none => rfl
  | some c =>
    show c.tiles = []
    exact cellAt_init hc

theorem gridWF_init (W H vw vh : Int) (a : Bool) : gridWF (initDisplay W H vw vh a) = true := by
  unfold gridWF initDisplay
  simp only [List.length_replicate, beq_self_eq_true, Bool.true_and, List.all_eq_true]
  intro row hrow
  have hr := List.eq_of_mem_replicate hrow
  subst hr
  simp [List.length_replicate]

theorem InvCore_init (W H vw vh : Int) (a : Bool) : InvCore (initDisplay W H vw vh a) := by
  refine ⟨gridWF_init W H vw vh a, ?_, ?_, ?_, ?_⟩
  · intro t ht
    exact absurd ht (by simp [initDisplay])
  · intro t ht
    exact absurd ht (by simp [initDisplay])
  · intro t ht
    exact absurd ht (by simp [initDisplay])
  · intro x y u hu
    rw [tilesAt_init] at hu
    exact absurd hu (by simp)

theorem zAll_init (W H vw vh : Int) (a : Bool) : zAll (initDisplay W H vw vh a) := by
  intro x y
  rw [tilesAt_init]
  rfl

/-- `createTile` at an in-bounds position preserves the invariant: the
fresh tile lands exactly in its own cell, everything else is untouched. -/
theorem InvCore_createTile {s : Display} (hInv : InvCore s) {x y : Int}
    (hb : inBounds s x y = true) (ch col bg : String) (z : Int) (bp : ℚ) (fd : FillDirection) :
    InvCore (createTile s x y ch col bg z bp fd).1 ∧
    (createTile s x y ch col bg z bp fd).1.worldWidth = s.worldWidth ∧
    (createTile s x y ch col bg z bp fd).1.worldHeight = s.worldHeight ∧
    (zAll s → zAll (createTile s x y ch col bg z bp fd).1) := by
  obtain ⟨hwf, hfresh, hbnd, hocc, hsync⟩ := hInv
  set T : Tile :=
    { id := s.tileIdCounter,
      x := x, y := y, char := ch, color := col,
      backgroundColor := bg, zIndex := z, bgPercent := bp, fillDirection := fd } with hT
  set s1 : Display :=
    { s with
      tileIdCounter := s.tileIdCounter + 1,
      tileMap := s.tileMap ++ [T] } with hs1def
  have hcre : (createTile s x y ch col bg z bp fd).1 = renderIfAuto (setTileInCell s1 T) := rfl
  rw [hcre]
  have hs1cells : s1.cells = s.cells := rfl
  have hwf1 : gridWF s1 = true := by rw [gridWF_eq_of hs1cells rfl rfl]; exact hwf
  have hb1 : inBounds s1 T.x T.y = true := hb
  obtain ⟨oc, hoc⟩ := Option.isSome_iff_exists.mp (cellAt_isSome_of_WF hwf1 hb1)
  have hocS : cellAt s T.x T.y = some oc := hoc
  set C : Cell := { oc with tiles := insertTileZ T oc.tiles, isDirty := true } with hC
  have hsic : setTileInCell s1 T = addDirty (setCell s1 T.x T.y C) (T.x, T.y) :=
    setTileInCell_eq hb1 hoc
  have hFcellsEq : (renderIfAuto (setTileInCell s1 T)).cells =
      (setCell s1 T.x T.y C).cells := by
    rw [renderIfAuto_cells, hsic, addDirty_cells]
  have htSame : tilesAt (renderIfAuto (setTileInCell s1 T)) T.x T.y = insertTileZ T oc.tiles := by
    rw [tilesAt_eq_of_cells hFcellsEq, tilesAt_setCell_same hoc]
  have htOther : ∀ qx qy : Int, ¬(qx = T.x ∧ qy = T.y) →
      tilesAt (renderIfAuto (setTileInCell s1 T)) qx qy = tilesAt s qx qy := by
    intro qx qy hne
    rw [tilesAt_eq_of_cells hFcellsEq,
      tilesAt_congr (cellAt_setCell_ne s1 T.x T.y qx qy C hne),
      tilesAt_eq_of_cells hs1cells]
  have hF_occ : ∀ j, occGrid (renderIfAuto (setTileInCell s1 T)) j =
      occGrid s j + (if T.id = j then 1 else 0) := by
    intro j
    have h1 := occGrid_setCell hoc C j
    have h2 : occ C.tiles j = (if T.id = j then 1 else 0) + occ oc.tiles j :=
      occ_insertTileZ T oc.tiles j
    have h3 : occGrid (renderIfAuto (setTileInCell s1 T)) j =
        occGrid (setCell s1 T.x T.y C) j := occGrid_eq_of_cells hFcellsEq j
    have h4 : occGrid s1 j = occGrid s j := occGrid_eq_of_cells hs1cells j
    omega
  have hzero : occGrid s s.tileIdCounter = 0 := by
    apply occGrid_eq_zero_of
    intro qx qy c hc
    apply occ_eq_zero_of
    intro u hu hid
    have hlk := hsync qx qy u (by rw [tilesAt_of_cellAt hc]; exact hu)
    have := hfresh u (lookupTile_mem hlk)
    omega
  have hFmap : (renderIfAuto (setTileInCell s1 T)).tileMap = s.tileMap ++ [T] := by
    rw [renderIfAuto_tileMap, setTileInCell_tileMap]
  have hFcnt : (renderIfAuto (setTileInCell s1 T)).tileIdCounter = s.tileIdCounter + 1 := by
    rw [renderIfAuto_tileIdCounter, setTileInCell_tileIdCounter]
  have hFw : (renderIfAuto (setTileInCell s1 T)).worldWidth = s.worldWidth := by
    rw [renderIfAuto_worldWidth, setTileInCell_worldWidth]
  have hFh : (renderIfAuto (setTileInCell s1 T)).worldHeight = s.worldHeight := by
    rw [renderIfAuto_worldHeight, setTileInCell_worldHeight]
  have hTid : T.id = s.tileIdCounter := rfl
  have hlookF : ∀ i, lookupTile (renderIfAuto (setTileInCell s1 T)) i =
      (s.tileMap ++ [T]).find? (fun u => u.id == i) := by
    intro i
    unfold lookupTile
    rw [hFmap]
  have hfindold : ∀ i, i ≠ s.tileIdCounter →
      (s.tileMap ++ [T]).find? (fun u => u.id == i) = s.tileMap.find? (fun u => u.id == i) := by
    intro i hi
    exact find?_id_append_ne (by rw [hTid]; omega)
  have hfindT : (s.tileMap ++ [T]).find? (fun u => u.id == s.tileIdCounter) = some T := by
    rw [find?_id_append_of_none (find?_id_eq_none_of_lt hfresh)]
    show List.find? _ [T] = some T
    rw [List.find?_cons, show (T.id == s.tileIdCounter) = true by simp [hTid]]
  refine ⟨⟨?_, ?_, ?_, ?_, ?_⟩, hFw, hFh, ?_⟩
  · exact gridWF_renderIfAuto (gridWF_setTileInCell T hwf1)
  · intro t ht
    rw [hFmap] at ht
    rw [hFcnt]
    rcases List.mem_append.mp ht with h | h
    · have := hfresh t h
      omega
    · have hTt : t = T := by simpa using h
      subst hTt
      omega
  · intro t ht
    rw [hFmap] at ht
    rw [inBounds_eq_of_dims hFw hFh]
    rcases List.mem_append.mp ht with h | h
    · exact hbnd t h
    · have hTt : t = T := by simpa using h
      subst hTt
      exact hb
  · intro t ht
    rw [hFmap] at ht
    rcases List.mem_append.mp ht with h | h
    · have hd := hocc t h
      have hne : ¬ T.id = t.id := by
        have := hfresh t h
        omega
      refine ⟨by rw [hF_occ, if_neg hne]; omega, ?_⟩
      by_cases hcell : t.x = T.x ∧ t.y = T.y
      · obtain ⟨hx', hy'⟩ := hcell
        have hd2 := hd.2
        rw [hx', hy', tilesAt_of_cellAt hocS] at hd2
        rw [hx', hy', htSame]
        exact mem_insertTileZ_of_mem hd2 T
      · rw [htOther t.x t.y hcell]
        exact hd.2
    · have hTt : t = T := by simpa using h
      subst hTt
      refine ⟨by rw [hF_occ, if_pos rfl, hTid, hzero], ?_⟩
      rw [htSame]
      exact mem_insertTileZ_self T oc.tiles
  · intro qx qy u hu
    by_cases hcell : qx = T.x ∧ qy = T.y
    · obtain ⟨rfl, rfl⟩ := hcell
      rw [htSame] at hu
      rcases mem_of_mem_insertTileZ hu with rfl | hu2
      · rw [hlookF]
        exact hfindT
      · have hu3 : u ∈ tilesAt s T.x T.y := by rw [tilesAt_of_cellAt hocS]; exact hu2
        have hlk := hsync T.x T.y u hu3
        rw [hlookF, hfindold u.id (by have := hfresh u (lookupTile_mem hlk); omega)]
        exact hlk
    · rw [htOther qx qy hcell] at hu
      have hlk := hsync qx qy u hu
      rw [hlookF, hfindold u.id (by have := hfresh u (lookupTile_mem hlk); omega)]
      exact hlk
  · intro hz qx qy
    by_cases hcell : qx = T.x ∧ qy = T.y
    · obtain ⟨rfl, rfl⟩ := hcell
      rw [htSame]
      have hzc := hz T.x T.y
      rw [tilesAt_of_cellAt hocS] at hzc
      exact zSorted_insertTileZ hzc T
    · rw [htOther qx qy hcell]
      exact hz qx qy

/-- `moveTile` never throws under the invariant (every indexed tile's
stored position is in bounds) and preserves it. -/
theorem InvCore_moveTile {s : Display} (hInv : InvCore s) (tileId : Nat) (nx ny : Int) :
    ∃ d, moveTile s tileId nx ny = some d ∧ InvCore d ∧
      d.worldWidth = s.worldWidth ∧ d.worldHeight = s.worldHeight ∧
      d.tileIdCounter = s.tileIdCounter ∧
      (zAll s → zAll d) := by
  obtain ⟨hwf, hfresh, hbnd, hocc, hsync⟩ := hInv
  cases hlook : lookupTile s tileId with
  | none =>
    exact ⟨warn s, moveTile_unknown nx ny hlook,
      InvCore_eq_of rfl rfl rfl rfl rfl ⟨hwf, hfresh, hbnd, hocc, hsync⟩,
      rfl, rfl, rfl, zAll_eq_of rfl⟩
  | some t =>
    by_cases hdst : inBounds s nx ny = true
    · -- the successful move
      have htid := lookupTile_id hlook
      have htmem := lookupTile_mem hlook
      have hsrc := hbnd t htmem
      have hd0 := hocc t htmem
      have h1 : occGrid s tileId = 1 := by rw [← htid]; exact hd0.1
      obtain ⟨oc, hoc⟩ := Option.isSome_iff_exists.mp (cellAt_isSome_of_WF hwf hsrc)
      have htiles : tilesAt s t.x t.y = oc.tiles := tilesAt_of_cellAt hoc
      have hcellocc : occ (tilesAt s t.x t.y) tileId = 1 := by
        have hle := occ_le_occGrid hoc tileId
        have hge : 0 < occ (tilesAt s t.x t.y) tileId := occ_pos_of_mem hd0.2 htid
        rw [htiles] at hge ⊢
        omega
      have hall : occGrid s tileId = occ (tilesAt s t.x t.y) tileId := by omega
      obtain ⟨d, hmv, hMap, hLookSelf, hSame, hNe, hOther, _, _⟩ :=
        moveTile_char hwf hlook hdst hsrc hall
      obtain ⟨d₂, hmv₂, hLook2, hLookOther, hWF', hW', hH', hCnt', _⟩ :=
        moveTile_lookup_self hwf hlook hdst hsrc
      rw [hmv] at hmv₂
      obtain rfl : d = d₂ := by simpa using hmv₂
      have hbnot : ¬(nx < 0 ∨ nx ≥ s.worldWidth ∨ ny < 0 ∨ ny ≥ s.worldHeight) := by
        have := inBounds_iff.mp hdst
        omega
      set t' : Tile := { t with x := nx, y := ny } with ht'def
      have ht'id : t'.id = tileId := htid
      set fc : Cell :=
        { oc with
          tiles := oc.tiles.filter (fun u => u.id != tileId),
          isDirty := true } with hfcdef
      set s1 : Display := setCell s t.x t.y fc with hs1def
      set s2 : Display := addDirty s1 (t.x, t.y) with hs2def
      set s3 : Display := replaceTileEverywhere s2 tileId t' with hs3def
      have hmv0 := hmv
      rw [moveTile_pos_eq hlook hbnot hoc] at hmv
      have hdEq : d = renderIfAuto (setTileInCell s3 t') := (Option.some.inj hmv).symm
      have hs2cells : s2.cells = s1.cells := addDirty_cells _ _
      have hs3w : s3.worldWidth = s.worldWidth := by
        rw [hs3def, replaceTileEverywhere_worldWidth, hs2def, addDirty_worldWidth, hs1def,
          setCell_worldWidth]
      have hs3h : s3.worldHeight = s.worldHeight := by
        rw [hs3def, replaceTileEverywhere_worldHeight, hs2def, addDirty_worldHeight, hs1def,
          setCell_worldHeight]
      have hb3 : inBounds s3 nx ny = true := by
        rw [inBounds_eq_of_dims hs3w hs3h]
        exact hdst
      have hdcEx : ∃ dc2, cellAt s3 nx ny = some dc2 := by
        rw [hs3def, cellAt_replaceTileEverywhere, cellAt_eq_of_cells hs2cells]
        by_cases hsame : nx = t.x ∧ ny = t.y
        · obtain ⟨hx1, hy1⟩ := hsame
          rw [hx1, hy1, hs1def, cellAt_setCell_same hoc fc]
          exact ⟨_, rfl⟩
        · rw [hs1def, cellAt_setCell_ne s t.x t.y nx ny fc hsame]
          obtain ⟨dc0, hdc0⟩ := Option.isSome_iff_exists.mp (cellAt_isSome_of_WF hwf hdst)
          rw [hdc0]
          exact ⟨_, rfl⟩
      obtain ⟨dc2, hdc2⟩ := hdcEx
      have hb3' : inBounds s3 t'.x t'.y = true := hb3
      have hdc2' : cellAt s3 t'.x t'.y = some dc2 := hdc2
      have hsic := setTileInCell_eq hb3' hdc2'
      set dc' : Cell :=
        { dc2 with
          tiles := insertTileZ t' dc2.tiles,
          isDirty := true } with hdcdef
      have hdcells : d.cells = (setCell s3 t'.x t'.y dc').cells := by
        rw [hdEq, renderIfAuto_cells, hsic, addDirty_cells]
      have hKey : ∀ j, occGrid d j + occ dc2.tiles j = occGrid s3 j + occ dc'.tiles j := by
        intro j
        rw [occGrid_eq_of_cells hdcells]
        exact occGrid_setCell hdc2' dc' j
      have hIns : ∀ j, occ dc'.tiles j = (if t'.id = j then 1 else 0) + occ dc2.tiles j :=
        fun j => occ_insertTileZ t' dc2.tiles j
      have hs3occ : ∀ j, occGrid s3 j = occGrid s1 j := by
        intro j
        rw [hs3def, occGrid_replaceTileEverywhere ht'id j, occGrid_eq_of_cells hs2cells]
      have hKey1 : ∀ j, occGrid s1 j + occ oc.tiles j = occGrid s j + occ fc.tiles j :=
        fun j => occGrid_setCell hoc fc j
      have hfc0 : occ fc.tiles tileId = 0 := occ_filter_ne oc.tiles tileId
      have hfcne : ∀ j, j ≠ tileId → occ fc.tiles j = occ oc.tiles j :=
        fun j hj => occ_filter_ne_other hj oc.tiles
      have hOccSelf : occGrid d tileId = 1 := by
        have e1 := hKey tileId
        have e2 := hIns tileId
        rw [if_pos ht'id] at e2
        have e3 := hs3occ tileId
        have e4 := hKey1 tileId
        have e5 : occ oc.tiles tileId = 1 := by rw [← htiles]; exact hcellocc
        omega
      have hOccNe : ∀ j, j ≠ tileId → occGrid d j = occGrid s j := by
        intro j hj
        have e1 := hKey j
        have e2 := hIns j
        rw [if_neg (show ¬ t'.id = j by rw [ht'id]; omega)] at e2
        have e3 := hs3occ j
        have e4 := hKey1 j
        have e5 := hfcne j hj
        omega
      refine ⟨d, hmv0, ⟨hWF', ?_, ?_, ?_, ?_⟩, hW', hH', hCnt', ?_⟩
      · -- fresh ids
        intro v hv
        rw [hMap] at hv
        rw [hCnt']
        rcases mem_of_mem_replaceTile hv with rfl | ⟨hvm, hvne⟩
        · have hvid : t'.id = t.id := rfl
          have := hfresh t htmem
          omega
        · exact hfresh v hvm
      · -- stored positions in bounds
        intro v hv
        rw [hMap] at hv
        rw [inBounds_eq_of_dims hW' hH']
        rcases mem_of_mem_replaceTile hv with rfl | ⟨hvm, hvne⟩
        · exact hdst
        · exact hbnd v hvm
      · -- exactly one occurrence, in the tile's own cell
        intro v hv
        rw [hMap] at hv
        rcases mem_of_mem_replaceTile hv with rfl | ⟨hvm, hvne⟩
        · refine ⟨by rw [ht'id]; exact hOccSelf, ?_⟩
          show t' ∈ tilesAt d nx ny
          by_cases hsame : (nx, ny) = (t.x, t.y)
          · rw [hSame hsame]
            exact mem_insertTileZ_self t' _
          · rw [(hNe hsame).2]
            exact mem_insertTileZ_self t' _
        · have hdv := hocc v hvm
          refine ⟨by rw [hOccNe v.id hvne]; exact hdv.1, ?_⟩
          by_cases hvold : v.x = t.x ∧ v.y = t.y
          · obtain ⟨hvx, hvy⟩ := hvold
            have hdv2 := hdv.2
            rw [hvx, hvy] at hdv2
            by_cases hsame : (nx, ny) = (t.x, t.y)
            · have hnx : nx = t.x := congrArg Prod.fst hsame
              have hny : ny = t.y := congrArg Prod.snd hsame
              rw [hvx, hvy, ← hnx, ← hny, hSame hsame]
              exact mem_insertTileZ_of_mem
                (List.mem_filter.mpr ⟨hdv2, by simpa using hvne⟩) t'
            · rw [hvx, hvy, (hNe hsame).1]
              exact List.mem_filter.mpr ⟨hdv2, by simpa using hvne⟩
          · by_cases hvnew : v.x = nx ∧ v.y = ny
            · obtain ⟨hvx, hvy⟩ := hvnew
              have hsame : (nx, ny) ≠ (t.x, t.y) := by
                intro hEq
                have hnx : nx = t.x := congrArg Prod.fst hEq
                have hny : ny = t.y := congrArg Prod.snd hEq
                exact hvold ⟨by rw [hvx, hnx], by rw [hvy, hny]⟩
              have hdv2 := hdv.2
              rw [hvx, hvy] at hdv2
              rw [hvx, hvy, (hNe hsame).2]
              exact mem_insertTileZ_of_mem hdv2 t'
            · rw [hOther v.x v.y hvold hvnew]
              exact hdv.2
      · -- cells in sync with the index
        intro qx qy u hu
        by_cases hqnew : qx = nx ∧ qy = ny
        · rw [hqnew.1, hqnew.2] at hu
          by_cases hsame : (nx, ny) = (t.x, t.y)
          · rw [hSame hsame] at hu
            rcases mem_of_mem_insertTileZ hu with rfl | hu2
            · rw [ht'id]
              exact hLook2
            · have hu3 := List.mem_filter.mp hu2
              have hune : u.id ≠ tileId := by simpa using hu3.2
              rw [hLookOther u.id hune]
              exact hsync t.x t.y u hu3.1
          · rw [(hNe hsame).2] at hu
            rcases mem_of_mem_insertTileZ hu with rfl | hu2
            · rw [ht'id]
              exact hLook2
            · have hune : u.id ≠ tileId := by
                intro hEq
                obtain ⟨dc0, hdc0⟩ := Option.isSome_iff_exists.mp (cellAt_isSome_of_WF hwf hdst)
                have hz := occ_other_zero hoc (by rw [← htiles]; exact hall) nx ny dc0 hdc0
                  (by
                    intro hc
                    exact hsame (by rw [hc.1, hc.2]))
                have hu4 : u ∈ dc0.tiles := by
                  rw [← tilesAt_of_cellAt hdc0]
                  exact hu2
                have hpos := occ_pos_of_mem hu4 hEq
                omega
              rw [hLookOther u.id hune]
              exact hsync nx ny u hu2
        · by_cases hqold : qx = t.x ∧ qy = t.y
          · rw [hqold.1, hqold.2] at hu
            have hsame : (nx, ny) ≠ (t.x, t.y) := by
              intro hEq
              have hnx : nx = t.x := congrArg Prod.fst hEq
              have hny : ny = t.y := congrArg Prod.snd hEq
              exact hqnew ⟨by rw [hqold.1, hnx], by rw [hqold.2, hny]⟩
            rw [(hNe hsame).1] at hu
            have hu3 := List.mem_filter.mp hu
            have hune : u.id ≠ tileId := by simpa using hu3.2
            rw [hLookOther u.id hune]
            exact hsync t.x t.y u hu3.1
          · rw [hOther qx qy hqold hqnew] at hu
            have hlk := hsync qx qy u hu
            have hune : u.id ≠ tileId := by
              intro hEq
              cases hc : cellAt s qx qy with
              | none =>
                unfold tilesAt at hu
                rw [hc] at hu
                exact absurd hu (by simp)
              | some c0 =>
                have hz := occ_other_zero hoc (by rw [← htiles]; exact hall) qx qy c0 hc hqold
                have hu4 : u ∈ c0.tiles := by
                  rw [← tilesAt_of_cellAt hc]
                  exact hu
                have hpos := occ_pos_of_mem hu4 hEq
                omega
            rw [hLookOther u.id hune]
            exact hlk
      · -- z-order of every cell is preserved
        intro hz qx qy
        by_cases hqnew : qx = nx ∧ qy = ny
        · rw [hqnew.1, hqnew.2]
          by_cases hsame : (nx, ny) = (t.x, t.y)
          · rw [hSame hsame]
            exact zSorted_insertTileZ (zSorted_filter (hz t.x t.y) _) t'
          · rw [(hNe hsame).2]
            exact zSorted_insertTileZ (hz nx ny) t'
        · by_cases hqold : qx = t.x ∧ qy = t.y
          · rw [hqold.1, hqold.2]
            have hsame : (nx, ny) ≠ (t.x, t.y) := by
              intro hEq
              have hnx : nx = t.x := congrArg Prod.fst hEq
              have hny : ny = t.y := congrArg Prod.snd hEq
              exact hqnew ⟨by rw [hqold.1, hnx], by rw [hqold.2, hny]⟩
            rw [(hNe hsame).1]
            exact zSorted_filter (hz t.x t.y) _
          · rw [hOther qx qy hqold hqnew]
            exact hz qx qy
    · -- out-of-bounds destination: warn-and-return
      have hb' : inBounds s nx ny = false := by simpa using hdst
      exact ⟨warn s, moveTile_oob hlook hb',
        InvCore_eq_of rfl rfl rfl rfl rfl ⟨hwf, hfresh, hbnd, hocc, hsync⟩,
        rfl, rfl, rfl, zAll_eq_of rfl⟩

/-- `removeTile` never throws under the invariant and preserves it. -/
theorem InvCore_removeTile {s : Display} (hInv : InvCore s) (tileId : Nat) :
    ∃ d, removeTile s tileId = some d ∧ InvCore d ∧
      d.worldWidth = s.worldWidth ∧ d.worldHeight = s.worldHeight ∧
      d.tileIdCounter = s.tileIdCounter ∧
      (zAll s → zAll d) := by
  obtain ⟨hwf, hfresh, hbnd, hocc, hsync⟩ := hInv
  cases hlook : lookupTile s tileId with
  | none =>
    exact ⟨warn s, by unfold removeTile; rw [hlook],
      InvCore_eq_of rfl rfl rfl rfl rfl ⟨hwf, hfresh, hbnd, hocc, hsync⟩,
      rfl, rfl, rfl, zAll_eq_of rfl⟩
  | some t =>
    have htid := lookupTile_id hlook
    have htmem := lookupTile_mem hlook
    have hsrc := hbnd t htmem
    have hd0 := hocc t htmem
    have h1 : occGrid s tileId = 1 := by rw [← htid]; exact hd0.1
    obtain ⟨oc, hoc⟩ := Option.isSome_iff_exists.mp (cellAt_isSome_of_WF hwf hsrc)
    have htiles : tilesAt s t.x t.y = oc.tiles := tilesAt_of_cellAt hoc
    have hcellocc : occ (tilesAt s t.x t.y) tileId = 1 := by
      have hle := occ_le_occGrid hoc tileId
      have hge : 0 < occ (tilesAt s t.x t.y) tileId := occ_pos_of_mem hd0.2 htid
      rw [htiles] at hge ⊢
      omega
    have hall : occGrid s tileId = occ (tilesAt s t.x t.y) tileId := by omega
    set fc : Cell :=
      { oc with
        tiles := oc.tiles.filter (fun u => u.id != tileId),
        isDirty := true } with hfcdef
    set s1 : Display := setCell s t.x t.y fc with hs1def
    set s2 : Display := addDirty s1 (t.x, t.y) with hs2def
    set s3 : Display := { s2 with tileMap := s2.tileMap.filter (fun u => u.id != tileId) }
      with hs3def
    have hrm : removeTile s tileId = some (renderIfAuto s3) := by
      unfold removeTile
      rw [hlook]
      dsimp only
      rw [hoc]
    have hs3cells : s3.cells = s1.cells := addDirty_cells _ _
    have hdcells : (renderIfAuto s3).cells = s1.cells := by
      rw [renderIfAuto_cells]
      exact hs3cells
    have hdmap : (renderIfAuto s3).tileMap = s.tileMap.filter (fun u => u.id != tileId) := by
      rw [renderIfAuto_tileMap]
      show s2.tileMap.filter _ = _
      rw [hs2def, addDirty_tileMap, hs1def, setCell_tileMap]
    have hdw : (renderIfAuto s3).worldWidth = s.worldWidth := by
      rw [renderIfAuto_worldWidth]
      show s2.worldWidth = _
      rw [hs2def, addDirty_worldWidth, hs1def, setCell_worldWidth]
    have hdh : (renderIfAuto s3).worldHeight = s.worldHeight := by
      rw [renderIfAuto_worldHeight]
      show s2.worldHeight = _
      rw [hs2def, addDirty_worldHeight, hs1def, setCell_worldHeight]
    have hdcnt : (renderIfAuto s3).tileIdCounter = s.tileIdCounter := by
      rw [renderIfAuto_tileIdCounter]
      show s2.tileIdCounter = _
      rw [hs2def, addDirty_tileIdCounter, hs1def, setCell_tileIdCounter]
    have htSame : tilesAt (renderIfAuto s3) t.x t.y =
        (tilesAt s t.x t.y).filter (fun w => w.id != tileId) := by
      rw [tilesAt_eq_of_cells hdcells, hs1def, tilesAt_setCell_same hoc, htiles]
    have htOther : ∀ qx qy : Int, ¬(qx = t.x ∧ qy = t.y) →
        tilesAt (renderIfAuto s3) qx qy = tilesAt s qx qy := by
      intro qx qy hne
      rw [tilesAt_eq_of_cells hdcells, hs1def,
        tilesAt_congr (cellAt_setCell_ne s t.x t.y qx qy fc hne)]
    have hOccNe : ∀ j, j ≠ tileId → occGrid (renderIfAuto s3) j = occGrid s j := by
      intro j hj
      have e1 : occGrid (renderIfAuto s3) j + occ oc.tiles j = occGrid s j + occ fc.tiles j := by
        rw [occGrid_eq_of_cells hdcells, hs1def]
        exact occGrid_setCell hoc fc j
      have e2 : occ fc.tiles j = occ oc.tiles j := occ_filter_ne_other hj oc.tiles
      omega
    have hlookd : ∀ i, lookupTile (renderIfAuto s3) i =
        (s.tileMap.filter (fun w => w.id != tileId)).find? (fun w => w.id == i) := by
      intro i
      unfold lookupTile
      rw [hdmap]
    have hWF' : gridWF (renderIfAuto s3) = true := by
      have hdw1 : (renderIfAuto s3).worldWidth = s1.worldWidth := by
        rw [hdw, hs1def, setCell_worldWidth]
      have hdh1 : (renderIfAuto s3).worldHeight = s1.worldHeight := by
        rw [hdh, hs1def, setCell_worldHeight]
      rw [gridWF_eq_of hdcells hdw1 hdh1, hs1def]
      exact gridWF_setCell _ _ _ hwf
    refine ⟨renderIfAuto s3, hrm, ⟨hWF', ?_, ?_, ?_, ?_⟩, hdw, hdh, hdcnt, ?_⟩
    · intro v hv
      rw [hdmap] at hv
      rw [hdcnt]
      exact hfresh v (List.mem_filter.mp hv).1
    · intro v hv
      rw [hdmap] at hv
      rw [inBounds_eq_of_dims hdw hdh]
      exact hbnd v (List.mem_filter.mp hv).1
    · intro v hv
      rw [hdmap] at hv
      obtain ⟨hvm, hvp⟩ := List.mem_filter.mp hv
      have hvne : v.id ≠ tileId := by simpa using hvp
      have hdv := hocc v hvm
      refine ⟨by rw [hOccNe v.id hvne]; exact hdv.1, ?_⟩
      by_cases hvold : v.x = t.x ∧ v.y = t.y
      · have hdv2 := hdv.2
        rw [hvold.1, hvold.2] at hdv2 ⊢
        rw [htSame]
        exact List.mem_filter.mpr ⟨hdv2, by simpa using hvne⟩
      · rw [htOther v.x v.y hvold]
        exact hdv.2
    · intro qx qy w hw
      by_cases hqold : qx = t.x ∧ qy = t.y
      · rw [hqold.1, hqold.2] at hw
        rw [htSame] at hw
        obtain ⟨hw1, hw2⟩ := List.mem_filter.mp hw
        have hwne : w.id ≠ tileId := by simpa using hw2
        rw [hlookd, find?_id_filter_ne_other hwne]
        exact hsync t.x t.y w hw1
      · rw [htOther qx qy hqold] at hw
        have hlk := hsync qx qy w hw
        have hwne : w.id ≠ tileId := by
          intro hEq
          cases hc : cellAt s qx qy with
          | none =>
            unfold tilesAt at hw
            rw [hc] at hw
            exact absurd hw (by simp)
          | some c0 =>
            have hz := occ_other_zero hoc (by rw [← htiles]; exact hall) qx qy c0 hc hqold
            have hw4 : w ∈ c0.tiles := by
              rw [← tilesAt_of_cellAt hc]
              exact hw
            have hpos := occ_pos_of_mem hw4 hEq
            omega
        rw [hlookd, find?_id_filter_ne_other hwne]
        exact hlk
    · intro hz qx qy
      by_cases hqold : qx = t.x ∧ qy = t.y
      · rw [hqold.1, hqold.2, htSame]
        exact zSorted_filter (hz t.x t.y) _
      · rw [htOther qx qy hqold]
        exact hz qx qy

/-- `updateTile` with no position field never throws under the invariant
and preserves it; if the `zIndex` field is also absent it preserves the
z-order of every cell. -/
theorem InvCore_updateTile {s : Display} (hInv : InvCore s) (tileId : Nat) (u : TileUpdates)
    (hux : u.x = none) (huy : u.y = none) :
    ∃ d, updateTile s tileId u = some d ∧ InvCore d ∧
      d.worldWidth = s.worldWidth ∧ d.worldHeight = s.worldHeight ∧
      d.tileIdCounter = s.tileIdCounter ∧
      (zAll s → u.zIndex = none → zAll d) := by
  obtain ⟨hwf, hfresh, hbnd, hocc, hsync⟩ := hInv
  cases hlook : lookupTile s tileId with
  | none =>
    exact ⟨warn s, by unfold updateTile; rw [hlook],
      InvCore_eq_of rfl rfl rfl rfl rfl ⟨hwf, hfresh, hbnd, hocc, hsync⟩,
      rfl, rfl, rfl, fun hz _ => zAll_eq_of rfl hz⟩
  | some t =>
    have htid := lookupTile_id hlook
    have htmem := lookupTile_mem hlook
    have hsrc := hbnd t htmem
    have hd0 := hocc t htmem
    have h1 : occGrid s tileId = 1 := by rw [← htid]; exact hd0.1
    obtain ⟨oc, hoc⟩ := Option.isSome_iff_exists.mp (cellAt_isSome_of_WF hwf hsrc)
    have htiles : tilesAt s t.x t.y = oc.tiles := tilesAt_of_cellAt hoc
    set t' : Tile := applyUpdates t u with ht'def
    have ht'x : t'.x = t.x := by
      show u.x.getD t.x = t.x
      rw [hux]
      rfl
    have ht'y : t'.y = t.y := by
      show u.y.getD t.y = t.y
      rw [huy]
      rfl
    have ht'id : t'.id = tileId := htid
    set s1 : Display := replaceTileEverywhere s tileId t' with hs1def
    have hneg : ¬(u.x.isSome = true ∨ u.y.isSome = true) := by
      rw [hux, huy]
      simp
    have hs1wf : gridWF s1 = true := gridWF_replaceTileEverywhere _ _ hwf
    have hs1w : s1.worldWidth = s.worldWidth := replaceTileEverywhere_worldWidth _ _ _
    have hs1h : s1.worldHeight = s.worldHeight := replaceTileEverywhere_worldHeight _ _ _
    have hb1 : inBounds s1 t'.x t'.y = true := by
      rw [inBounds_eq_of_dims hs1w hs1h, ht'x, ht'y]
      exact hsrc
    obtain ⟨c1, hc1⟩ := Option.isSome_iff_exists.mp (cellAt_isSome_of_WF hs1wf hb1)
    have hc1' : c1 = { oc with tiles := replaceTile tileId t' oc.tiles } := by
      have h := cellAt_replaceTileEverywhere s tileId t' t.x t.y
      rw [hoc] at h
      have hc1b := hc1
      rw [ht'x, ht'y] at hc1b
      rw [hs1def] at hc1b
      rw [h] at hc1b
      simpa using hc1b.symm
    set c1' : Cell := { c1 with isDirty := true } with hc1pdef
    set d : Display :=
      renderIfAuto (addDirty (setCell s1 t'.x t'.y c1') (t'.x, t'.y)) with hddef
    have hupd : updateTile s tileId u = some d := by
      unfold updateTile
      rw [hlook]
      dsimp only
      rw [if_neg hneg]
      rw [show cellAt (replaceTileEverywhere s tileId (applyUpdates t u)) (applyUpdates t u).x
        (applyUpdates t u).y = some c1 from hc1]
    have hdcells : d.cells = (setCell s1 t'.x t'.y c1').cells := by
      rw [hddef, renderIfAuto_cells, addDirty_cells]
    have hdmap : d.tileMap = replaceTile tileId t' s.tileMap := by
      rw [hddef, renderIfAuto_tileMap, addDirty_tileMap, setCell_tileMap, hs1def,
        replaceTileEverywhere_tileMap]
    have hdw : d.worldWidth = s.worldWidth := by
      rw [hddef, renderIfAuto_worldWidth, addDirty_worldWidth, setCell_worldWidth, hs1def,
        replaceTileEverywhere_worldWidth]
    have hdh : d.worldHeight = s.worldHeight := by
      rw [hddef, renderIfAuto_worldHeight, addDirty_worldHeight, setCell_worldHeight, hs1def,
        replaceTileEverywhere_worldHeight]
    have hdcnt : d.tileIdCounter = s.tileIdCounter := by
      rw [hddef, renderIfAuto_tileIdCounter, addDirty_tileIdCounter, setCell_tileIdCounter,
        hs1def, replaceTileEverywhere_tileIdCounter]
    have htAll : ∀ qx qy : Int, tilesAt d qx qy = replaceTile tileId t' (tilesAt s qx qy) := by
      intro qx qy
      rw [tilesAt_eq_of_cells hdcells]
      by_cases hq : qx = t'.x ∧ qy = t'.y
      · rw [hq.1, hq.2, tilesAt_setCell_same hc1]
        show c1.tiles = _
        rw [hc1']
        show replaceTile tileId t' oc.tiles = _
        rw [ht'x, ht'y, htiles]
      · rw [tilesAt_congr (cellAt_setCell_ne s1 t'.x t'.y qx qy c1' hq), hs1def,
          tilesAt_replaceTileEverywhere]
    have hOccAll : ∀ j, occGrid d j = occGrid s j := by
      intro j
      have e1 : occGrid d j + occ c1.tiles j = occGrid s1 j + occ c1'.tiles j := by
        rw [occGrid_eq_of_cells hdcells]
        exact occGrid_setCell hc1 c1' j
      have e2 : occ c1'.tiles j = occ c1.tiles j := rfl
      have e3 : occGrid s1 j = occGrid s j := by
        rw [hs1def]
        exact occGrid_replaceTileEverywhere ht'id j
      omega
    have hlookSelf : lookupTile d tileId = some t' := by
      unfold lookupTile
      rw [hdmap]
      exact find?_id_replaceTile hlook ht'id
    have hlookOther : ∀ i, i ≠ tileId → lookupTile d i = lookupTile s i := by
      intro i hi
      unfold lookupTile
      rw [hdmap]
      exact find?_id_replaceTile_ne ht'id hi
    have hWF' : gridWF d = true := by
      have hdw1 : d.worldWidth = (setCell s1 t'.x t'.y c1').worldWidth := by
        rw [hdw, setCell_worldWidth, hs1def, replaceTileEverywhere_worldWidth]
      have hdh1 : d.worldHeight = (setCell s1 t'.x t'.y c1').worldHeight := by
        rw [hdh, setCell_worldHeight, hs1def, replaceTileEverywhere_worldHeight]
      rw [gridWF_eq_of hdcells hdw1 hdh1]
      exact gridWF_setCell _ _ _ hs1wf
    refine ⟨d, hupd, ⟨hWF', ?_, ?_, ?_, ?_⟩, hdw, hdh, hdcnt, ?_⟩
    · intro v hv
      rw [hdmap] at hv
      rw [hdcnt]
      rcases mem_of_mem_replaceTile hv with rfl | ⟨hvm, hvne⟩
      · have hvid : t'.id = t.id := rfl
        have := hfresh t htmem
        omega
      · exact hfresh v hvm
    · intro v hv
      rw [hdmap] at hv
      rw [inBounds_eq_of_dims hdw hdh]
      rcases mem_of_mem_replaceTile hv with rfl | ⟨hvm, hvne⟩
      · rw [ht'x, ht'y]
        exact hsrc
      · exact hbnd v hvm
    · intro v hv
      rw [hdmap] at hv
      rcases mem_of_mem_replaceTile hv with rfl | ⟨hvm, hvne⟩
      · refine ⟨by rw [ht'id, hOccAll]; exact h1, ?_⟩
        rw [htAll, ht'x, ht'y]
        exact mem_replaceTile_of_mem hd0.2 htid t'
      · have hdv := hocc v hvm
        refine ⟨by rw [hOccAll]; exact hdv.1, ?_⟩
        rw [htAll]
        exact mem_replaceTile_ne hdv.2 hvne t'
    · intro qx qy w hw
      rw [htAll] at hw
      rcases mem_of_mem_replaceTile hw with rfl | ⟨hw2, hwne⟩
      · rw [ht'id]
        exact hlookSelf
      · rw [hlookOther w.id hwne]
        exact hsync qx qy w hw2
    · intro hz huz qx qy
      have ht'z : t'.zIndex = t.zIndex := by
        show u.zIndex.getD t.zIndex = t.zIndex
        rw [huz]
        rfl
      rw [htAll, zSorted_replaceTile ?_]
      · exact hz qx qy
      · intro w hw hwid
        have hlk := hsync qx qy w hw
        rw [hwid, hlook] at hlk
        have hwt : w = t := by simpa using hlk.symm
        rw [hwt, ht'z]

theorem foldlM_option_pres {α σ : Type _} (f : σ → α → Option σ) (P : σ → Prop)
    (hstep : ∀ st a, P st → ∃ st', f st a = some st' ∧ P st') :
    ∀ (l : List α) (st : σ), P st → ∃ st', l.foldlM f st = some st' ∧ P st' := by
  intro l
  induction l with
  | nil => exact fun st h => ⟨st, rfl, h⟩
  | cons a l ih =>
    intro st h
    obtain ⟨st1, hf, hP⟩ := hstep st a h
    obtain ⟨st2, hfold, hP2⟩ := ih st1 hP
    refine ⟨st2, ?_, hP2⟩
    rw [List.foldlM_cons, hf]
    exact hfold

/-- `emptyCell` never throws under the invariant and preserves it. -/
theorem InvCore_emptyCell {s : Display} (hInv : InvCore s) (x y : Int) :
    ∃ d, emptyCell s x y = some d ∧ InvCore d ∧
      d.worldWidth = s.worldWidth ∧ d.worldHeight = s.worldHeight ∧
      (zAll s → zAll d) := by
  by_cases hoob : x < 0 ∨ x ≥ s.worldWidth ∨ y < 0 ∨ y ≥ s.worldHeight
  · exact ⟨warn s, by unfold emptyCell; rw [if_pos hoob],
      InvCore_eq_of rfl rfl rfl rfl rfl hInv, rfl, rfl, zAll_eq_of rfl⟩
  · have hstep : ∀ (st : Display) (i : Nat),
        (InvCore st ∧ st.worldWidth = s.worldWidth ∧ st.worldHeight = s.worldHeight ∧
          (zAll s → zAll st)) →
        ∃ st', removeTile st i = some st' ∧
          (InvCore st' ∧ st'.worldWidth = s.worldWidth ∧ st'.worldHeight = s.worldHeight ∧
            (zAll s → zAll st')) := by
      intro st i hP
      obtain ⟨d, hrm, hinv, hw, hh, _, hz⟩ := InvCore_removeTile hP.1 i
      exact ⟨d, hrm, hinv, hw.trans hP.2.1, hh.trans hP.2.2.1,
        fun h0 => hz (hP.2.2.2 h0)⟩
    obtain ⟨d, hfold, hinv, hw, hh, hz⟩ := foldlM_option_pres
      (fun st i => removeTile st i) _ hstep
      ((cellAt s x y).elim [] (fun c => c.tiles.map (fun t => t.id))) s
      ⟨hInv, rfl, rfl, fun h => h⟩
    refine ⟨d, ?_, hinv, hw, hh, hz⟩
    unfold emptyCell
    rw [if_neg hoob]
    exact hfold

/-- Total character count across parsed segments. -/
def segLen (segs : List Segment) : Nat :=
  (segs.map (fun g => g.text.length)).sum

/-- The per-character loop of `createString` preserves the invariant when
the whole row span is in bounds; the column counter advances by the
number of characters placed. -/
theorem InvCore_csCharFold {W H : Int} (y : Int) (color : String) (zi : Int)
    (hy : 0 ≤ y ∧ y < H) :
    ∀ (cs : List Char) (st : Display) (cx : Int) (ids : List Nat),
      InvCore st → st.worldWidth = W → st.worldHeight = H →
      0 ≤ cx → cx + cs.length ≤ W →
      InvCore (cs.foldl
        (fun (acc2 : Display × Int × List Nat) ch =>
          let (st, cx, ids) := acc2
          let (st', id) := createTile st cx y (String.singleton ch) color "#000000FF"
            zi 1 FillDirection.BOTTOM
          (st', cx + 1, ids ++ [id]))
        (st, cx, ids)).1 ∧
      (cs.foldl
        (fun (acc2 : Display × Int × List Nat) ch =>
          let (st, cx, ids) := acc2
          let (st', id) := createTile st cx y (String.singleton ch) color "#000000FF"
            zi 1 FillDirection.BOTTOM
          (st', cx + 1, ids ++ [id]))
        (st, cx, ids)).1.worldWidth = W ∧
      (cs.foldl
        (fun (acc2 : Display × Int × List Nat) ch =>
          let (st, cx, ids) := acc2
          let (st', id) := createTile st cx y (String.singleton ch) color "#000000FF"
            zi 1 FillDirection.BOTTOM
          (st', cx + 1, ids ++ [id]))
        (st, cx, ids)).1.worldHeight = H ∧
      (cs.foldl
        (fun (acc2 : Display × Int × List Nat) ch =>
          let (st, cx, ids) := acc2
          let (st', id) := createTile st cx y (String.singleton ch) color "#000000FF"
            zi 1 FillDirection.BOTTOM
          (st', cx + 1, ids ++ [id]))
        (st, cx, ids)).2.1 = cx + cs.length ∧
      (zAll st → zAll (cs.foldl
        (fun (acc2 : Display × Int × List Nat) ch =>
          let (st, cx, ids) := acc2
          let (st', id) := createTile st cx y (String.singleton ch) color "#000000FF"
            zi 1 FillDirection.BOTTOM
          (st', cx + 1, ids ++ [id]))
        (st, cx, ids)).1) := by
  intro cs
  induction cs with
  | nil =>
    intro st cx ids hInv hW hH hcx hbound
    exact ⟨hInv, hW, hH, by simp, fun h => h⟩
  | cons c cs ih =>
    intro st cx ids hInv hW hH hcx hbound
    have hb : inBounds st cx y = true := by
      rw [inBounds_iff, hW, hH]
      have : (1 : Int) ≤ (c :: cs).length := by
        have := List.length_pos.mpr (List.cons_ne_nil c cs)
        omega
      refine ⟨hcx, ?_, hy.1, hy.2⟩
      have hlen : (cs.length : Int) + 1 = ((c :: cs).length : Int) := by
        push_cast [List.length_cons]
        ring
      omega
    obtain ⟨hinv1, hw1, hh1, hz1⟩ :=
      InvCore_createTile hInv hb (String.singleton c) color "#000000FF" zi 1
        FillDirection.BOTTOM
    rw [List.foldl_cons]
    have hres := ih (createTile st cx y (String.singleton c) color "#000000FF" zi 1
        FillDirection.BOTTOM).1 (cx + 1)
      (ids ++ [(createTile st cx y (String.singleton c) color "#000000FF" zi 1
        FillDirection.BOTTOM).2])
      hinv1 (hw1.trans hW) (hh1.trans hH) (by omega)
      (by
        have hlen : ((c :: cs).length : Int) = (cs.length : Int) + 1 := by
          push_cast [List.length_cons]
          ring
        omega)
    refine ⟨hres.1, hres.2.1, hres.2.2.1, ?_, fun hz => hres.2.2.2.2 (hz1 hz)⟩
    have h4 := hres.2.2.2.1
    rw [h4]
    have hlen : ((c :: cs).length : Int) = (cs.length : Int) + 1 := by
      push_cast [List.length_cons]
      ring
    omega

/-- The per-segment loop of `createString` preserves the invariant. -/
theorem InvCore_csSegFold {W H : Int} (y : Int) (zi : Int) (hy : 0 ≤ y ∧ y < H) :
    ∀ (segs : List Segment) (st : Display) (cx : Int) (ids : List Nat),
      InvCore st → st.worldWidth = W → st.worldHeight = H →
      0 ≤ cx → cx + segLen segs ≤ W →
      InvCore (segs.foldl
        (fun (acc : Display × Int × List Nat) seg =>
          seg.text.toList.foldl
            (fun (acc2 : Display × Int × List Nat) ch =>
              let (st, cx, ids) := acc2
              let (st', id) := createTile st cx y (String.singleton ch) seg.color
                "#000000FF" zi 1 FillDirection.BOTTOM
              (st', cx + 1, ids ++ [id]))
            acc)
        (st, cx, ids)).1 ∧
      (segs.foldl
        (fun (acc : Display × Int × List Nat) seg =>
          seg.text.toList.foldl
            (fun (acc2 : Display × Int × List Nat) ch =>
              let (st, cx, ids) := acc2
              let (st', id) := createTile st cx y (String.singleton ch) seg.color
                "#000000FF" zi 1 FillDirection.BOTTOM
              (st', cx + 1, ids ++ [id]))
            acc)
        (st, cx, ids)).1.worldWidth = W ∧
      (segs.foldl
        (fun (acc : Display × Int × List Nat) seg =>
          seg.text.toList.foldl
            (fun (acc2 : Display × Int × List Nat) ch =>
              let (st, cx, ids) := acc2
              let (st', id) := createTile st cx y (String.singleton ch) seg.color
                "#000000FF" zi 1 FillDirection.BOTTOM
              (st', cx + 1, ids ++ [id]))
            acc)
        (st, cx, ids)).1.worldHeight = H ∧
      (zAll st → zAll (segs.foldl
        (fun (acc : Display × Int × List Nat) seg =>
          seg.text.toList.foldl
            (fun (acc2 : Display × Int × List Nat) ch =>
              let (st, cx, ids) := acc2
              let (st', id) := createTile st cx y (String.singleton ch) seg.color
                "#000000FF" zi 1 FillDirection.BOTTOM
              (st', cx + 1, ids ++ [id]))
            acc)
        (st, cx, ids)).1) := by
  intro segs
  induction segs with
  | nil =>
    intro st cx ids hInv hW hH hcx hbound
    exact ⟨hInv, hW, hH, fun h => h⟩
  | cons seg segs ih =>
    intro st cx ids hInv hW hH hcx hbound
    have hlen1 : seg.text.toList.length = seg.text.length := rfl
    have hsl : segLen (seg :: segs) = seg.text.length + segLen segs := by
      unfold segLen
      rw [List.map_cons, List.sum_cons]
    have hchar := InvCore_csCharFold (W := W) (H := H) y seg.color zi hy
      seg.text.toList st cx ids hInv hW hH hcx
      (by rw [hlen1]; omega)
    rw [List.foldl_cons]
    dsimp only
    obtain ⟨h1, h2, h3, h4, h5⟩ := hchar
    cases hfe : (seg.text.toList.foldl
        (fun (acc2 : Display × Int × List Nat) ch =>
          let (st, cx, ids) := acc2
          let (st', id) := createTile st cx y (String.singleton ch) seg.color
            "#000000FF" zi 1 FillDirection.BOTTOM
          (st', cx + 1, ids ++ [id]))
        (st, cx, ids)) with
    | mk st1 rest =>
      cases rest with
      | mk cx1 ids1 =>
        rw [hfe] at h1 h2 h3 h4 h5
        dsimp only at h1 h2 h3 h4 h5
        rw [hlen1] at h4
        rw [hsl] at hbound
        have hcx1 : 0 ≤ cx1 := by omega
        have hbound1 : cx1 + segLen segs ≤ W := by omega
        obtain ⟨g1, g2, g3, g4⟩ := ih st1 cx1 ids1 h1 h2 h3 hcx1 hbound1
        exact ⟨g1, g2, g3, fun hz => g4 (h5 hz)⟩

/-- `createString` with the whole row span in bounds preserves the
invariant. -/
theorem InvCore_createString {s : Display} (hInv : InvCore s) (x y : Int) (segs : List Segment)
    (zi : Int) (hx : 0 ≤ x) (hxe : x + segLen segs ≤ s.worldWidth)
    (hy : 0 ≤ y) (hyH : y < s.worldHeight) :
    InvCore (createString s x y segs zi).1 ∧
    (createString s x y segs zi).1.worldWidth = s.worldWidth ∧
    (createString s x y segs zi).1.worldHeight = s.worldHeight ∧
    (zAll s → zAll (createString s x y segs zi).1) := by
  obtain ⟨g1, g2, g3, g4⟩ := InvCore_csSegFold (W := s.worldWidth) (H := s.worldHeight) y zi
    ⟨hy, hyH⟩ segs s x [] hInv rfl rfl hx hxe
  exact ⟨g1, g2, g3, g4⟩

/-! ### Sequences of public operations -/

/-- One public mutating call: `createTile`, `moveTile`, `updateTile`,
`removeTile`, `emptyCell`, or `createString` (the `text` constructor). -/
inductive Op where
  | create (x y : Int) (ch color bg : String) (z : Int) (bp : ℚ) (fd : FillDirection)
  | move (tileId : Nat) (x y : Int)
  | update (tileId : Nat) (u : TileUpdates)
  | remove (tileId : Nat)
  | empty (x y : Int)
  | text (x y : Int) (segs : List Segment) (z : Int)
deriving Repr

/-- Execute one public call (`none` models a thrown exception). -/
def applyOp (s : Display) : Op → Option Display
  | .create x y ch color bg z bp fd => some (createTile s x y ch color bg z bp fd).1
  | .move i x y => moveTile s i x y
  | .update i u => updateTile s i u
  | .remove i => removeTile s i
  | .empty x y => emptyCell s x y
  | .text x y segs z => some (createString s x y segs z).1

/-- Execute a sequence of public calls. -/
def runOps (s : Display) (ops : List Op) : Option Display :=
  ops.foldlM applyOp s

/-- Side conditions under which the exactly-one-cell invariant holds:
`createTile` at an in-bounds position, `updateTile` without position
fields, `createString` with its whole row span inside the grid. -/
def opOK (W H : Int) : Op → Bool
  | .create x y _ _ _ _ _ _ =>
      decide (0 ≤ x) && decide (x < W) && decide (0 ≤ y) && decide (y < H)
  | .update _ u => u.x.isNone && u.y.isNone
  | .text x y segs _ =>
      decide (0 ≤ x) && decide (x + (segLen segs : Int) ≤ W) &&
        decide (0 ≤ y) && decide (y < H)
  | _ => true

/-- `opOK` plus: `updateTile` must not change the `zIndex` either. -/
def opOK2 (W H : Int) (op : Op) : Bool :=
  opOK W H op &&
    (match op with
     | .update _ u => u.zIndex.isNone
     | _ => true)

theorem opOK_of_opOK2 {W H : Int} {op : Op} (h : opOK2 W H op = true) : opOK W H op = true := by
  unfold opOK2 at h
  rw [Bool.and_eq_true] at h
  exact h.1

theorem applyOp_pres {W H : Int} {s : Display} (op : Op) (hop : opOK W H op = true)
    (hInv : InvCore s) (hW : s.worldWidth = W) (hH : s.worldHeight = H) :
    ∃ d, applyOp s op = some d ∧ InvCore d ∧ d.worldWidth = W ∧ d.worldHeight = H ∧
      (zAll s → opOK2 W H op = true → zAll d) := by
  cases op with
  | create x y ch color bg z bp fd =>
    simp only [opOK, Bool.and_eq_true, decide_eq_true_eq] at hop
    have hb : inBounds s x y = true := by
      rw [inBounds_iff, hW, hH]
      exact ⟨hop.1.1.1, hop.1.1.2, hop.1.2, hop.2⟩
    obtain ⟨h1, h2, h3, h4⟩ := InvCore_createTile hInv hb ch color bg z bp fd
    exact ⟨_, rfl, h1, by rw [h2, hW], by rw [h3, hH], fun hz _ => h4 hz⟩
  | move i x y =>
    obtain ⟨d, hd, h1, h2, h3, _, h4⟩ := InvCore_moveTile ⟨hInv.1, hInv.2.1, hInv.2.2.1,
      hInv.2.2.2.1, hInv.2.2.2.2⟩ i x y
    exact ⟨d, hd, h1, by rw [h2, hW], by rw [h3, hH], fun hz _ => h4 hz⟩
  | update i u =>
    simp only [opOK, Bool.and_eq_true, Option.isNone_iff_eq_none] at hop
    obtain ⟨d, hd, h1, h2, h3, _, h4⟩ := InvCore_updateTile hInv i u hop.1 hop.2
    refine ⟨d, hd, h1, by rw [h2, hW], by rw [h3, hH], ?_⟩
    intro hz hop2
    unfold opOK2 at hop2
    rw [Bool.and_eq_true] at hop2
    have hzn : u.zIndex.isNone = true := hop2.2
    exact h4 hz (Option.isNone_iff_eq_none.mp hzn)
  | remove i =>
    obtain ⟨d, hd, h1, h2, h3, _, h4⟩ := InvCore_removeTile hInv i
    exact ⟨d, hd, h1, by rw [h2, hW], by rw [h3, hH], fun hz _ => h4 hz⟩
  | empty x y =>
    obtain ⟨d, hd, h1, h2, h3, h4⟩ := InvCore_emptyCell hInv x y
    exact ⟨d, hd, h1, by rw [h2, hW], by rw [h3, hH], fun hz _ => h4 hz⟩
  | text x y segs z =>
    simp only [opOK, Bool.and_eq_true, decide_eq_true_eq] at hop
    obtain ⟨h1, h2, h3, h4⟩ := InvCore_createString hInv x y segs z hop.1.1.1
      (by rw [hW]; exact hop.1.1.2) hop.1.2 (by rw [hH]; exact hop.2)
    exact ⟨_, rfl, h1, by rw [h2, hW], by rw [h3, hH], fun hz _ => h4 hz⟩

theorem runOps_pres {W H : Int} :
    ∀ (ops : List Op) (s : Display), (∀ op ∈ ops, opOK W H op = true) →
      InvCore s → s.worldWidth = W → s.worldHeight = H →
      ∃ d, runOps s ops = some d ∧ InvCore d ∧ d.worldWidth = W ∧ d.worldHeight = H ∧
        ((∀ op ∈ ops, opOK2 W H op = true) → zAll s → zAll d) := by
  intro ops
  induction ops with
  | nil =>
    intro s _ hInv hW hH
    exact ⟨s, rfl, hInv, hW, hH, fun _ h => h⟩
  | cons op ops ih =>
    intro s hops hInv hW hH
    obtain ⟨d1, hd1, h1, h2, h3, h4⟩ :=
      applyOp_pres op (hops op (List.mem_cons_self op ops)) hInv hW hH
    obtain ⟨d2, hd2, g1, g2, g3, g4⟩ :=
      ih d1 (fun o ho => hops o (List.mem_cons_of_mem op ho)) h1 h2 h3
    refine ⟨d2, ?_, g1, g2, g3, ?_⟩
    · show (op :: ops).foldlM applyOp s = some d2
      rw [List.foldlM_cons, hd1]
      exact hd2
    · intro hops2 hz
      exact g4 (fun o ho => hops2 o (List.mem_cons_of_mem op ho))
        (h4 hz (hops2 op (List.mem_cons_self op ops)))

/-! ### Claim C1: a tile lives in exactly one cell, at its stored coordinates -/

/-- **C1 counterexample.** `updateTile(id, { x: 1 })` on a tile at
`(0, 0)` first mutates the shared tile object (so the copy inside cell
`(0, 0)` now claims position `(1, 0)`) and then `moveTile` removes it
from cell `(1, 0)` — where it never was — before inserting it there: the
tile ends up in *two* cells (`occGrid = 2`), violating the claimed
invariant after the public `updateTile` call returns. -/
theorem updateTile_duplicates_tile_counterexample :
    (updateTile (createTile (initDisplay 3 3 3 3 false) 0 0 "a" "#FFFFFFFF" "#000000FF" 1 1
        FillDirection.BOTTOM).1 0 { x := some 1 }).map
      (fun d => (occGrid d 0,
        (tilesAt d 0 0).map (fun t => t.id), (tilesAt d 1 0).map (fun t => t.id))) =
      some (2, [0], [0]) := by
  decide

/-- **C1 amended.** After any sequence of public operations started from
a fresh display — `createTile` at in-bounds positions, `moveTile`,
`updateTile` *without position fields*, `removeTile`, `emptyCell`, and
`createString` whose whole row span is inside the grid (`opOK`) — every
tile in the index occurs in exactly one cell's tiles list across the
whole grid, and that cell is the one at the tile's stored `(x, y)`.
(`updateTile` with a position field breaks the invariant — see the
counterexample — as do out-of-bounds `createTile` registrations and
`setTiles`, which bypasses the index entirely.) -/
theorem tile_in_exactly_one_cell (W H vw vh : Int) (auto : Bool) (ops : List Op)
    (hops : ∀ op ∈ ops, opOK W H op = true) (s : Display)
    (hrun : runOps (initDisplay W H vw vh auto) ops = some s) :
    ∀ t ∈ s.tileMap, occGrid s t.id = 1 ∧ t ∈ tilesAt s t.x t.y := by
  obtain ⟨d, hd, hinv, _, _, _⟩ := runOps_pres ops (initDisplay W H vw vh auto) hops
    (InvCore_init W H vw vh auto) rfl rfl
  rw [hrun] at hd
  obtain rfl : s = d := by simpa using hd
  exact hinv.2.2.2.1

/-- A sample operation sequence for the C1 witness: two stacked creates,
a move, an attribute-only update, a string, a removal and a cell clear,
on a 3×3 world with auto-render on. -/
def demoOps : List Op :=
  [ Op.create 0 0 "a" "#FFFFFFFF" "#000000FF" 1 1 FillDirection.BOTTOM,
    Op.create 0 0 "b" "#FFFFFFFF" "#000000FF" 1 1 FillDirection.BOTTOM,
    Op.move 0 1 1,
    Op.update 1 { char := some "c" },
    Op.text 0 2 [{ text := "hi", color := "#FF0000FF" }] 2,
    Op.remove 1,
    Op.empty 1 1 ]

/-- Witness for C1: the sample sequence satisfies the side conditions,
runs without throwing, and the final state keeps every indexed tile in
exactly its own cell. -/
theorem tile_in_exactly_one_cell_witness :
    (∀ op ∈ demoOps, opOK 3 3 op = true) ∧
    ∃ s, runOps (initDisplay 3 3 3 3 true) demoOps = some s ∧
      ∀ t ∈ s.tileMap, occGrid s t.id = 1 ∧ t ∈ tilesAt s t.x t.y := by
  refine ⟨by decide, ?_⟩
  cases hs : runOps (initDisplay 3 3 3 3 true) demoOps with
  | none => exact absurd hs (by decide)
  | some s =>
    exact ⟨s, rfl, tile_in_exactly_one_cell 3 3 3 3 true demoOps (by decide) s hs⟩

/-! ### Claim C2: cells stay sorted by z-index -/

/-- **C2 counterexample.** Two tiles with z-indices `[1, 2]` sit in cell
`(0, 0)`; `updateTile(0, { zIndex: 3 })` mutates the shared tile object
in place and the no-position branch never re-sorts the cell, leaving the
tiles list `[3, 2]` — not sorted — observable after the public call
returns, exactly the situation the claim asserts cannot happen. -/
theorem updateTile_zindex_breaks_sort_counterexample :
    (updateTile (createTile (createTile (initDisplay 3 3 3 3 false) 0 0 "a" "#FFFFFFFF"
        "#000000FF" 1 1 FillDirection.BOTTOM).1 0 0 "b" "#FFFFFFFF" "#000000FF" 2 1
        FillDirection.BOTTOM).1 0 { zIndex := some 3 }).map
      (fun d => ((tilesAt d 0 0).map (fun t => t.zIndex), zSorted (tilesAt d 0 0))) =
      some ([3, 2], false) := by
  decide

/-- **C2 amended.** After any sequence of public operations started from
a fresh display that satisfies `opOK2` — the `opOK` side conditions plus
`updateTile` not touching `zIndex` — every cell's tiles list is sorted
non-decreasingly by `zIndex`, and `renderCell`'s sort
(`sortTilesZ`, the stable `a.zIndex - b.zIndex` comparator) leaves it
unchanged, i.e. no re-sort is ever needed at render time.
(`updateTile` with a `zIndex` field breaks sortedness — see the
counterexample — as does `setTiles` with an unsorted list, which stores
the given array verbatim.) -/
theorem cells_stay_z_sorted (W H vw vh : Int) (auto : Bool) (ops : List Op)
    (hops : ∀ op ∈ ops, opOK2 W H op = true) (s : Display)
    (hrun : runOps (initDisplay W H vw vh auto) ops = some s) :
    ∀ x y : Int, zSorted (tilesAt s x y) = true ∧
      sortTilesZ (tilesAt s x y) = tilesAt s x y := by
  obtain ⟨d, hd, _, _, _, hzall⟩ := runOps_pres ops (initDisplay W H vw vh auto)
    (fun o ho => opOK_of_opOK2 (hops o ho)) (InvCore_init W H vw vh auto) rfl rfl
  rw [hrun] at hd
  obtain rfl : s = d := by simpa using hd
  have hz := hzall hops (zAll_init W H vw vh auto)
  intro x y
  exact ⟨hz x y, sortTilesZ_eq_of_sorted (hz x y)⟩

/-- A sample operation sequence for the C2 witness: three equal-cell
creates with scrambled z-indices, a same-position move, an
attribute-only update, a string and a removal. -/
def demoOps2 : List Op :=
  [ Op.create 1 1 "a" "#FFFFFFFF" "#000000FF" 5 1 FillDirection.BOTTOM,
    Op.create 1 1 "b" "#FFFFFFFF" "#000000FF" 2 1 FillDirection.BOTTOM,
    Op.create 1 1 "c" "#FFFFFFFF" "#000000FF" 9 1 FillDirection.BOTTOM,
    Op.move 1 1 1,
    Op.update 0 { char := some "d" },
    Op.text 0 0 [{ text := "xy", color := "#00FF00FF" }] 1,
    Op.remove 2 ]

/-- Witness for C2: the sample sequence satisfies the `opOK2` side
conditions, runs without throwing, and every cell of the final state is
z-sorted with `sortTilesZ` the identity on it. -/
theorem cells_stay_z_sorted_witness :
    (∀ op ∈ demoOps2, opOK2 3 3 op = true) ∧
    ∃ s, runOps (initDisplay 3 3 3 3 true) demoOps2 = some s ∧
      ∀ x y : Int, zSorted (tilesAt s x y) = true ∧
        sortTilesZ (tilesAt s x y) = tilesAt s x y := by
  refine ⟨by decide, ?_⟩
  cases hs : runOps (initDisplay 3 3 3 3 true) demoOps2 with
  | none => exact absurd hs (by decide)
  | some s =>
    exact ⟨s, rfl, cells_stay_z_sorted 3 3 3 3 true demoOps2 (by decide) s hs⟩

end MatrixDisplay
